import Mathlib

/-!
# X86 shuffle-mask decoding from constant-pool constants

A shallow embedding of `contrib/llvm/lib/Target/X86/X86ShuffleDecodeConstantPool.cpp`:
the static helper `extractConstantMask` and the decoders `DecodePSHUFBMask`,
`DecodeVPERMILPMask`, `DecodeVPERMIL2PMask`, `DecodeVPPERMMask`, `DecodeVPERMVMask`
and `DecodeVPERMV3Mask`.

Conventions of the embedding.

* An `APInt` of width `w` is a natural number below `2 ^ w`; every operation that can
  overflow the width reduces modulo `2 ^ w` explicitly.
* `unsigned` is 32 bits wide, `uint64_t` 64 bits, `int` 32 bits two's complement.
  Sizes and loop counters (`CstSizeInBits`, `NumMaskElts`, `i * MaskEltSizeInBits`)
  are kept as natural numbers; the bitwise complement and the conversions to `int`
  are written with their explicit modulus. An `int` that is built up by `+=` is
  modelled by converting the whole sum, which is the same value modulo `2 ^ 32`.
* A call that does not return normally (a failed `assert`, a division by zero) is
  `none`; a call that returns is `some` of what it leaves behind.
* The output container `ShuffleMask` is passed in and handed back, so that appending
  (`push_back`) and `clear` are visible.
* The source is embedded twice: with its asserts in force (`extractConstantMask`,
  `DecodePSHUFBMask`, ...), and as it is built with `NDEBUG`, every `assert` compiled out
  (the same names with the suffix `NDEBUG`). The two agree on every input that passes the
  asserts (`decodersNDEBUG_of_some`).
-/

namespace X86ShuffleDecode

/-! ## The data model -/

/-- Modelled from the spec: the result of `C->getAggregateElement(i)` (declared in
`llvm/IR/Constants.h`, not among the source files), as far as `extractConstantMask`
distinguishes it: an `UndefValue`, a `ConstantInt` carrying its value, or anything else
(another kind of constant, or a null pointer). -/
inductive Elt where
  | UndefValue
  | ConstantInt (Value : Nat)
  | other
  deriving DecidableEq, Repr

/-- Modelled from the spec: a constant of the IR (class `Constant` of `llvm/IR/Constants.h`,
not among the source files) through the queries the decoders make: whether its type is a
vector type, whether the element type is an integer type, the bit width of the scalar type,
and the aggregate elements. For a type that is not a vector, `ScalarSizeInBits` is the
primitive size of the type itself and `Elts` is whatever `getAggregateElement` yields. -/
structure Constant where
  isVectorTy : Bool
  isIntegerEltTy : Bool
  ScalarSizeInBits : Nat
  Elts : List Elt
  deriving DecidableEq, Repr

/-- `CstTy->getVectorNumElements()`. -/
def Constant.getVectorNumElements (C : Constant) : Nat := C.Elts.length

/-- `CstTy->getScalarSizeInBits()`. -/
def Constant.getScalarSizeInBits (C : Constant) : Nat := C.ScalarSizeInBits

/-- `CstTy->getPrimitiveSizeInBits()`: for a vector type the element count times the
element width. -/
def Constant.getPrimitiveSizeInBits (C : Constant) : Nat :=
  if C.isVectorTy then C.Elts.length * C.ScalarSizeInBits else C.ScalarSizeInBits

/-- A vector-of-integers constant as the IR can build it: at least one element, an element
width of at least one bit, and every integer literal fits the element width. -/
def Constant.WellTyped (C : Constant) : Bool :=
  decide (0 < C.Elts.length) && decide (0 < C.ScalarSizeInBits) &&
    C.Elts.all fun e =>
      match e with
      | .ConstantInt Value => decide (Value < 2 ^ C.ScalarSizeInBits)
      | _ => true

/-- Every element is an integer literal or an undef marker. -/
def Constant.allIntOrUndef (C : Constant) : Bool :=
  C.Elts.all fun e => decide (e ≠ Elt.other)

/-- A vector-of-integers constant whose elements are all integer literals or undef: what
the extractor can decode. -/
def Constant.IntVector (C : Constant) : Bool :=
  C.isVectorTy && C.isIntegerEltTy && C.WellTyped && C.allIntOrUndef

/-- Modelled from the spec: `SM_SentinelUndef` of `Utils/X86ShuffleDecode.h` (not among
the source files), the reserved negative entry for an undefined lane. -/
def SM_SentinelUndef : Int := -1

/-- Modelled from the spec: `SM_SentinelZero` of `Utils/X86ShuffleDecode.h` (not among
the source files), the reserved negative entry for a zeroed lane. -/
def SM_SentinelZero : Int := -2

/-! ## Machine arithmetic -/

/-- Modelled from the spec: `APInt::getLowBitsSet(numBits, loBitsSet)` of
`llvm/ADT/APInt.h` (not among the source files): a run of `loBitsSet` ones. -/
def APInt.getLowBitsSet (numBits loBitsSet : Nat) : Nat :=
  (2 ^ loBitsSet - 1) % 2 ^ numBits

/-- Modelled from the spec: `APInt::shl` of `llvm/ADT/APInt.h` (not among the source
files) on a value of width `width`: bits shifted past the width are lost. -/
def APInt.shl (width x shiftAmt : Nat) : Nat := (x <<< shiftAmt) % 2 ^ width

/-- Modelled from the spec: `APInt::lshr` of `llvm/ADT/APInt.h` (not among the source
files). -/
def APInt.lshr (x shiftAmt : Nat) : Nat := x >>> shiftAmt

/-- Modelled from the spec: `APInt::zextOrTrunc(width)` of `llvm/ADT/APInt.h` (not among
the source files): the value at the new width. -/
def APInt.zextOrTrunc (width x : Nat) : Nat := x % 2 ^ width

/-- Modelled from the spec: `APInt::isAllOnesValue` of `llvm/ADT/APInt.h` (not among the
source files) on a value of width `width`. -/
def APInt.isAllOnesValue (width x : Nat) : Bool := x == 2 ^ width - 1

/-- Modelled from the spec: `APInt::getZExtValue` of `llvm/ADT/APInt.h` (not among the
source files): the value as a `uint64_t`; it asserts that the value fits 64 bits. -/
def APInt.getZExtValue (x : Nat) : Option Nat := if x < 2 ^ 64 then some x else none

/-- Bitwise complement of an `unsigned`. -/
def notU32 (x : Nat) : Nat := 2 ^ 32 - 1 - x % 2 ^ 32

/-- Subtraction of `unsigned` values, wrapping. -/
def subU32 (a b : Nat) : Nat := (a % 2 ^ 32 + 2 ^ 32 - b % 2 ^ 32) % 2 ^ 32

/-- Conversion of an unsigned value to `int` (two's complement, 32 bits). -/
def toInt (x : Nat) : Int :=
  if x % 2 ^ 32 < 2 ^ 31 then Int.ofNat (x % 2 ^ 32) else Int.ofNat (x % 2 ^ 32) - 2 ^ 32

/-! ## `extractConstantMask` -/

/-- The first loop of `extractConstantMask` (source lines 55-69), from element `i` on:
`none` when an element is neither `UndefValue` nor `ConstantInt` (the function returns
false), otherwise the pair `(UndefBits, MaskBits)`. -/
def packElts (CstSizeInBits CstEltSizeInBits : Nat) :
    List Elt → Nat → Nat → Nat → Option (Nat × Nat)
  | [], _, UndefBits, MaskBits => some (UndefBits, MaskBits)
  | COp :: rest, i, UndefBits, MaskBits =>
    match COp with
    | .other => none
    | .UndefValue =>
      let EltUndef := APInt.getLowBitsSet CstSizeInBits CstEltSizeInBits
      packElts CstSizeInBits CstEltSizeInBits rest (i + 1)
        (UndefBits ||| APInt.shl CstSizeInBits EltUndef (i * CstEltSizeInBits)) MaskBits
    | .ConstantInt Value =>
      let EltBits := APInt.zextOrTrunc CstSizeInBits Value
      packElts CstSizeInBits CstEltSizeInBits rest (i + 1) UndefBits
        (MaskBits ||| APInt.shl CstSizeInBits EltBits (i * CstEltSizeInBits))

/-- The second loop of `extractConstantMask` (source lines 79-94) with `n` iterations left,
at index `i`: `none` when `getZExtValue` asserts, otherwise the completed
`(UndefElts, RawMask)`. -/
def sliceLoop (UndefBits MaskBits MaskEltSizeInBits : Nat) :
    Nat → Nat → List Bool → List Nat → Option (List Bool × List Nat)
  | 0, _, UndefElts, RawMask => some (UndefElts, RawMask)
  | n + 1, i, UndefElts, RawMask =>
    let EltUndef :=
      APInt.zextOrTrunc MaskEltSizeInBits (APInt.lshr UndefBits (i * MaskEltSizeInBits))
    if APInt.isAllOnesValue MaskEltSizeInBits EltUndef then
      sliceLoop UndefBits MaskBits MaskEltSizeInBits n (i + 1)
        (UndefElts ++ [true]) (RawMask ++ [0])
    else
      let EltBits :=
        APInt.zextOrTrunc MaskEltSizeInBits (APInt.lshr MaskBits (i * MaskEltSizeInBits))
      match APInt.getZExtValue EltBits with
      | none => none
      | some v =>
        sliceLoop UndefBits MaskBits MaskEltSizeInBits n (i + 1)
          (UndefElts ++ [false]) (RawMask ++ [v])

/-- What `extractConstantMask` returns: `false`, or `true` with the two outputs. -/
inductive Extracted where
  | notDecodable
  | decoded (UndefElts : List Bool) (RawMask : List Nat)
  deriving DecidableEq, Repr

/-- `extractConstantMask(C, MaskEltSizeInBits, UndefElts, RawMask)` (source lines 27-97),
called as every decoder calls it, with fresh outputs. -/
def extractConstantMask (C : Constant) (MaskEltSizeInBits : Nat) : Option Extracted :=
  if !C.isVectorTy then some .notDecodable
  else if !C.isIntegerEltTy then some .notDecodable
  else
    let CstSizeInBits := C.getPrimitiveSizeInBits
    let CstEltSizeInBits := C.getScalarSizeInBits
    match packElts CstSizeInBits CstEltSizeInBits C.Elts 0 0 0 with
    | none => some .notDecodable
    | some (UndefBits, MaskBits) =>
      if MaskEltSizeInBits = 0 then none
      else if CstSizeInBits % MaskEltSizeInBits ≠ 0 then none
      else
        let NumMaskElts := CstSizeInBits / MaskEltSizeInBits
        match sliceLoop UndefBits MaskBits MaskEltSizeInBits NumMaskElts 0 [] [] with
        | none => none
        | some (UndefElts, RawMask) => some (.decoded UndefElts RawMask)

/-! ## The decoders -/

/-- The loop of `DecodePSHUFBMask` (source lines 116-135), `n` iterations left at index `i`. -/
def pshufbLoop (UndefElts : List Bool) (RawMask : List Nat) :
    Nat → Nat → List Int → List Int
  | 0, _, ShuffleMask => ShuffleMask
  | n + 1, i, ShuffleMask =>
    if UndefElts.getD i false then
      pshufbLoop UndefElts RawMask n (i + 1) (ShuffleMask ++ [SM_SentinelUndef])
    else
      let Element := RawMask.getD i 0
      if Element &&& (1 <<< 7) ≠ 0 then
        pshufbLoop UndefElts RawMask n (i + 1) (ShuffleMask ++ [SM_SentinelZero])
      else
        let Base := i &&& notU32 0xf
        let Index := toInt (Base + (Element &&& 0xf))
        pshufbLoop UndefElts RawMask n (i + 1) (ShuffleMask ++ [Index])

/-- `DecodePSHUFBMask(C, ShuffleMask)` (source lines 99-136). -/
def DecodePSHUFBMask (C : Constant) (ShuffleMask : List Int) : Option (List Int) :=
  let MaskTySize := C.getPrimitiveSizeInBits
  if !(MaskTySize == 128 || MaskTySize == 256 || MaskTySize == 512) then none
  else
    match extractConstantMask C 8 with
    | none => none
    | some .notDecodable => some ShuffleMask
    | some (.decoded UndefElts RawMask) =>
      let NumElts := RawMask.length
      if !(NumElts == 16 || NumElts == 32 || NumElts == 64) then none
      else some (pshufbLoop UndefElts RawMask NumElts 0 ShuffleMask)

/-- The loop of `DecodeVPERMILPMask` (source lines 158-172). -/
def vpermilpLoop (ElSize NumEltsPerLane : Nat) (UndefElts : List Bool) (RawMask : List Nat) :
    Nat → Nat → List Int → List Int
  | 0, _, ShuffleMask => ShuffleMask
  | n + 1, i, ShuffleMask =>
    if UndefElts.getD i false then
      vpermilpLoop ElSize NumEltsPerLane UndefElts RawMask n (i + 1)
        (ShuffleMask ++ [SM_SentinelUndef])
    else
      let Index := i &&& notU32 (subU32 NumEltsPerLane 1)
      let Element := RawMask.getD i 0
      let Index :=
        if ElSize == 64 then toInt (Index + ((Element >>> 1) &&& 0x1))
        else toInt (Index + (Element &&& 0x3))
      vpermilpLoop ElSize NumEltsPerLane UndefElts RawMask n (i + 1) (ShuffleMask ++ [Index])

/-- `DecodeVPERMILPMask(C, ElSize, ShuffleMask)` (source lines 138-173). -/
def DecodeVPERMILPMask (C : Constant) (ElSize : Nat) (ShuffleMask : List Int) :
    Option (List Int) :=
  let MaskTySize := C.getPrimitiveSizeInBits
  if !(MaskTySize == 128 || MaskTySize == 256 || MaskTySize == 512) then none
  else if !(ElSize == 32 || ElSize == 64) then none
  else
    match extractConstantMask C ElSize with
    | none => none
    | some .notDecodable => some ShuffleMask
    | some (.decoded UndefElts RawMask) =>
      let NumElts := RawMask.length
      let NumEltsPerLane := 128 / ElSize
      if !(NumElts == 2 || NumElts == 4 || NumElts == 8 || NumElts == 16) then none
      else some (vpermilpLoop ElSize NumEltsPerLane UndefElts RawMask NumElts 0 ShuffleMask)

/-- The loop of `DecodeVPERMIL2PMask` (source lines 193-226). -/
def vpermil2pLoop (M2Z ElSize NumElts NumEltsPerLane : Nat) (UndefElts : List Bool)
    (RawMask : List Nat) : Nat → Nat → List Int → List Int
  | 0, _, ShuffleMask => ShuffleMask
  | n + 1, i, ShuffleMask =>
    if UndefElts.getD i false then
      vpermil2pLoop M2Z ElSize NumElts NumEltsPerLane UndefElts RawMask n (i + 1)
        (ShuffleMask ++ [SM_SentinelUndef])
    else
      let Selector := RawMask.getD i 0
      let MatchBit := (Selector >>> 3) &&& 0x1
      if (M2Z &&& 0x2) ≠ 0 ∧ MatchBit ≠ (M2Z &&& 0x1) then
        vpermil2pLoop M2Z ElSize NumElts NumEltsPerLane UndefElts RawMask n (i + 1)
          (ShuffleMask ++ [SM_SentinelZero])
      else
        let Index := i &&& notU32 (subU32 NumEltsPerLane 1)
        let Index :=
          if ElSize == 64 then Index + ((Selector >>> 1) &&& 0x1)
          else Index + (Selector &&& 0x3)
        let Src := (Selector >>> 2) &&& 0x1
        let Index := toInt (Index + Src * NumElts)
        vpermil2pLoop M2Z ElSize NumElts NumEltsPerLane UndefElts RawMask n (i + 1)
          (ShuffleMask ++ [Index])

/-- `DecodeVPERMIL2PMask(C, M2Z, ElSize, ShuffleMask)` (source lines 175-227). The
division `128 / ElSize` is by zero when `ElSize` is zero; `extractConstantMask` has
divided by it before. -/
def DecodeVPERMIL2PMask (C : Constant) (M2Z ElSize : Nat) (ShuffleMask : List Int) :
    Option (List Int) :=
  let MaskTySize := C.getPrimitiveSizeInBits
  if !(MaskTySize == 128 || MaskTySize == 256) then none
  else
    match extractConstantMask C ElSize with
    | none => none
    | some .notDecodable => some ShuffleMask
    | some (.decoded UndefElts RawMask) =>
      let NumElts := RawMask.length
      if ElSize = 0 then none
      else
        let NumEltsPerLane := 128 / ElSize
        if !(NumElts == 2 || NumElts == 4 || NumElts == 8) then none
        else
          some (vpermil2pLoop M2Z ElSize NumElts NumEltsPerLane UndefElts RawMask NumElts 0
            ShuffleMask)

/-- The loop of `DecodeVPPERMMask` (source lines 242-275); an operation other than 0 and 4
clears the container and returns. -/
def vppermLoop (UndefElts : List Bool) (RawMask : List Nat) :
    Nat → Nat → List Int → List Int
  | 0, _, ShuffleMask => ShuffleMask
  | n + 1, i, ShuffleMask =>
    if UndefElts.getD i false then
      vppermLoop UndefElts RawMask n (i + 1) (ShuffleMask ++ [SM_SentinelUndef])
    else
      let Element := RawMask.getD i 0
      let Index := Element &&& 0x1F
      let PermuteOp := (Element >>> 5) &&& 0x7
      if PermuteOp == 4 then
        vppermLoop UndefElts RawMask n (i + 1) (ShuffleMask ++ [SM_SentinelZero])
      else if PermuteOp != 0 then []
      else vppermLoop UndefElts RawMask n (i + 1) (ShuffleMask ++ [toInt Index])

/-- `DecodeVPPERMMask(C, ShuffleMask)` (source lines 229-276). -/
def DecodeVPPERMMask (C : Constant) (ShuffleMask : List Int) : Option (List Int) :=
  if !(C.getPrimitiveSizeInBits == 128) then none
  else
    match extractConstantMask C 8 with
    | none => none
    | some .notDecodable => some ShuffleMask
    | some (.decoded UndefElts RawMask) =>
      let NumElts := RawMask.length
      if !(NumElts == 16) then none
      else some (vppermLoop UndefElts RawMask NumElts 0 ShuffleMask)

/-- The loop of `DecodeVPERMVMask` (source lines 296-303). -/
def vpermvLoop (NumElts : Nat) (UndefElts : List Bool) (RawMask : List Nat) :
    Nat → Nat → List Int → List Int
  | 0, _, ShuffleMask => ShuffleMask
  | n + 1, i, ShuffleMask =>
    if UndefElts.getD i false then
      vpermvLoop NumElts UndefElts RawMask n (i + 1) (ShuffleMask ++ [SM_SentinelUndef])
    else
      let Index := toInt (RawMask.getD i 0 &&& subU32 NumElts 1)
      vpermvLoop NumElts UndefElts RawMask n (i + 1) (ShuffleMask ++ [Index])

/-- `DecodeVPERMVMask(C, ElSize, ShuffleMask)` (source lines 278-304). -/
def DecodeVPERMVMask (C : Constant) (ElSize : Nat) (ShuffleMask : List Int) :
    Option (List Int) :=
  let MaskTySize := C.getPrimitiveSizeInBits
  if !(MaskTySize == 128 || MaskTySize == 256 || MaskTySize == 512) then none
  else if !(ElSize == 8 || ElSize == 16 || ElSize == 32 || ElSize == 64) then none
  else
    match extractConstantMask C ElSize with
    | none => none
    | some .notDecodable => some ShuffleMask
    | some (.decoded UndefElts RawMask) =>
      let NumElts := RawMask.length
      some (vpermvLoop NumElts UndefElts RawMask NumElts 0 ShuffleMask)

/-- The loop of `DecodeVPERMV3Mask` (source lines 324-331). -/
def vpermv3Loop (NumElts : Nat) (UndefElts : List Bool) (RawMask : List Nat) :
    Nat → Nat → List Int → List Int
  | 0, _, ShuffleMask => ShuffleMask
  | n + 1, i, ShuffleMask =>
    if UndefElts.getD i false then
      vpermv3Loop NumElts UndefElts RawMask n (i + 1) (ShuffleMask ++ [SM_SentinelUndef])
    else
      let Index := toInt (RawMask.getD i 0 &&& subU32 (NumElts * 2) 1)
      vpermv3Loop NumElts UndefElts RawMask n (i + 1) (ShuffleMask ++ [Index])

/-- `DecodeVPERMV3Mask(C, ElSize, ShuffleMask)` (source lines 306-332). -/
def DecodeVPERMV3Mask (C : Constant) (ElSize : Nat) (ShuffleMask : List Int) :
    Option (List Int) :=
  let MaskTySize := C.getPrimitiveSizeInBits
  if !(MaskTySize == 128 || MaskTySize == 256 || MaskTySize == 512) then none
  else if !(ElSize == 8 || ElSize == 16 || ElSize == 32 || ElSize == 64) then none
  else
    match extractConstantMask C ElSize with
    | none => none
    | some .notDecodable => some ShuffleMask
    | some (.decoded UndefElts RawMask) =>
      let NumElts := RawMask.length
      some (vpermv3Loop NumElts UndefElts RawMask NumElts 0 ShuffleMask)

/-! ## The flattened bit images, as the specification describes them -/

/-- The value an element contributes to the value image: its integer value, nothing for an
undef (or any other) element. -/
def eltValue : Elt → Nat
  | .ConstantInt Value => Value
  | _ => 0

/-- The run an element contributes to the undef image: all ones over the element width
for an undef element, nothing otherwise. -/
def eltUndef (W : Nat) : Elt → Nat
  | .UndefValue => 2 ^ W - 1
  | _ => 0

/-- The flat image of a list of elements of width `W` under a per-element contribution
`f`: element `j` occupies bits `[j * W, (j + 1) * W)`, least-significant element first. -/
def flatImage (W : Nat) (f : Elt → Nat) : List Elt → Nat
  | [] => 0
  | e :: rest => f e + 2 ^ W * flatImage W f rest

/-- The specification's `ValueBits` of a constant. -/
def valueImage (C : Constant) : Nat := flatImage C.ScalarSizeInBits eltValue C.Elts

/-- Bit `b` of the flattened constant lies inside an undef source element. -/
def bitInUndefElt (C : Constant) (b : Nat) : Prop :=
  C.Elts[b / C.ScalarSizeInBits]? = some Elt.UndefValue

instance (C : Constant) (b : Nat) : Decidable (bitInUndefElt C b) := by
  unfold bitInUndefElt; infer_instance

/-- Every bit of slice `i` at width `M`, the bits `[i * M, (i + 1) * M)`, lies inside an
undef source element. -/
def sliceAllUndef (C : Constant) (M i : Nat) : Prop :=
  ∀ k, k < M → bitInUndefElt C (i * M + k)

instance (C : Constant) (M i : Nat) : Decidable (sliceAllUndef C M i) := by
  unfold sliceAllUndef; infer_instance

/-- The `M`-bit unsigned value formed by bits `[i * M, (i + 1) * M)` of the value image. -/
def sliceValue (C : Constant) (M i : Nat) : Nat := valueImage C / 2 ^ (i * M) % 2 ^ M

/-- The undef flag the second loop of `extractConstantMask` computes for slice `i`. -/
def sliceUndefFlag (UndefBits M i : Nat) : Bool :=
  APInt.isAllOnesValue M (APInt.zextOrTrunc M (APInt.lshr UndefBits (i * M)))

/-- The raw value the second loop of `extractConstantMask` stores for slice `i`. -/
def sliceRawValue (UndefBits MaskBits M i : Nat) : Nat :=
  if sliceUndefFlag UndefBits M i then 0
  else APInt.zextOrTrunc M (APInt.lshr MaskBits (i * M))

/-- The entry one iteration of the loop of `DecodePSHUFBMask` pushes. -/
def pshufbEntry (UndefElts : List Bool) (RawMask : List Nat) (i : Nat) : Int :=
  if UndefElts.getD i false then SM_SentinelUndef
  else
    let Element := RawMask.getD i 0
    if Element &&& (1 <<< 7) ≠ 0 then SM_SentinelZero
    else toInt ((i &&& notU32 0xf) + (Element &&& 0xf))

/-- The specification of the byte-shuffle decoder at byte position `i`: undef when the
byte is entirely undefined, otherwise zero when bit 7 of the byte is set, otherwise `i`
rounded down to a multiple of 16 plus the low four bits of the byte. -/
def pshufbSpec (C : Constant) (i : Nat) : Int :=
  if sliceAllUndef C 8 i then SM_SentinelUndef
  else if (sliceValue C 8 i).testBit 7 then SM_SentinelZero
  else ((i / 16 * 16 + (sliceValue C 8 i &&& 0xF) : Nat) : Int)

/-- The entry one iteration of the loop of `DecodeVPERMILPMask` pushes. -/
def vpermilpEntry (ElSize NumEltsPerLane : Nat) (UndefElts : List Bool) (RawMask : List Nat)
    (i : Nat) : Int :=
  if UndefElts.getD i false then SM_SentinelUndef
  else
    let Index := i &&& notU32 (subU32 NumEltsPerLane 1)
    let Element := RawMask.getD i 0
    if ElSize == 64 then toInt (Index + ((Element >>> 1) &&& 0x1))
    else toInt (Index + (Element &&& 0x3))

/-- The lane base of destination index `i`: `i` rounded down to a multiple of the lane
size `128 / ElSize`. -/
def laneBase (ElSize i : Nat) : Nat := i / (128 / ElSize) * (128 / ElSize)

/-- The in-lane selector of a raw value: bit 1 for 64-bit elements, bits 0-1 otherwise. -/
def localSelector (ElSize raw : Nat) : Nat :=
  if ElSize = 64 then raw / 2 % 2 else raw % 4

/-- The specification of the in-lane permute decoder at slice `i`: undef when the slice is
entirely undefined, otherwise the lane base plus the local selector. -/
def vpermilpSpec (C : Constant) (ElSize i : Nat) : Int :=
  if sliceAllUndef C ElSize i then SM_SentinelUndef
  else ((laneBase ElSize i + localSelector ElSize (sliceValue C ElSize i) : Nat) : Int)

/-- The entry one iteration of the loop of `DecodeVPERMIL2PMask` pushes. -/
def vpermil2pEntry (M2Z ElSize NumElts NumEltsPerLane : Nat) (UndefElts : List Bool)
    (RawMask : List Nat) (i : Nat) : Int :=
  if UndefElts.getD i false then SM_SentinelUndef
  else
    let Selector := RawMask.getD i 0
    let MatchBit := (Selector >>> 3) &&& 0x1
    if (M2Z &&& 0x2) ≠ 0 ∧ MatchBit ≠ (M2Z &&& 0x1) then SM_SentinelZero
    else
      let Index := i &&& notU32 (subU32 NumEltsPerLane 1)
      let Index :=
        if ElSize == 64 then Index + ((Selector >>> 1) &&& 0x1)
        else Index + (Selector &&& 0x3)
      let Src := (Selector >>> 2) &&& 0x1
      toInt (Index + Src * NumElts)

/-- The zero-vs-select policy in the specification's words: the element is zeroed when
the top bit (bit 1) of `M2Z` is 1 and the match bit (bit 3 of the raw value) differs from
the low bit (bit 0) of `M2Z`. -/
def m2zZeroes (M2Z raw : Nat) : Prop :=
  M2Z.testBit 1 = true ∧ raw.testBit 3 ≠ M2Z.testBit 0

instance (M2Z raw : Nat) : Decidable (m2zZeroes M2Z raw) := by
  unfold m2zZeroes; infer_instance

/-- The specification of the dual-source in-lane decoder at slice `i`, for a vector of
`NumElts` slices: undef, or zero under the `M2Z` policy, or lane base plus local selector
plus `NumElts` when bit 2 of the selector picks the second source. -/
def vpermil2pSpec (C : Constant) (M2Z ElSize NumElts i : Nat) : Int :=
  if sliceAllUndef C ElSize i then SM_SentinelUndef
  else if m2zZeroes M2Z (sliceValue C ElSize i) then SM_SentinelZero
  else ((laneBase ElSize i + localSelector ElSize (sliceValue C ElSize i) +
    sliceValue C ElSize i / 4 % 2 * NumElts : Nat) : Int)

/-- The entry one iteration of the loop of `DecodeVPPERMMask` pushes when it does not
abort. -/
def vppermEntry (UndefElts : List Bool) (RawMask : List Nat) (i : Nat) : Int :=
  if UndefElts.getD i false then SM_SentinelUndef
  else
    let Element := RawMask.getD i 0
    if ((Element >>> 5) &&& 0x7) == 4 then SM_SentinelZero
    else toInt (Element &&& 0x1F)

/-- Iteration `i` of the loop of `DecodeVPPERMMask` clears the container and returns: the
element is defined and its permute operation is neither 4 nor 0. -/
def vppermAborts (UndefElts : List Bool) (RawMask : List Nat) (i : Nat) : Bool :=
  !UndefElts.getD i false && (((RawMask.getD i 0 >>> 5) &&& 0x7) != 4) &&
    (((RawMask.getD i 0 >>> 5) &&& 0x7) != 0)

/-- The operation code of a control byte: bits 5-7. -/
def permuteOp (byte : Nat) : Nat := byte / 32 % 8

/-- The specification of the byte permute decoder at byte `i`, for operation codes 0 and
4: undef, zero for operation 4, the 5-bit index otherwise. -/
def vppermSpec (C : Constant) (i : Nat) : Int :=
  if sliceAllUndef C 8 i then SM_SentinelUndef
  else if permuteOp (sliceValue C 8 i) = 4 then SM_SentinelZero
  else ((sliceValue C 8 i &&& 0x1F : Nat) : Int)

/-- The entry one iteration of the loop of `DecodeVPERMVMask` pushes. -/
def vpermvEntry (NumElts : Nat) (UndefElts : List Bool) (RawMask : List Nat) (i : Nat) : Int :=
  if UndefElts.getD i false then SM_SentinelUndef
  else toInt (RawMask.getD i 0 &&& subU32 NumElts 1)

/-- The entry one iteration of the loop of `DecodeVPERMV3Mask` pushes. -/
def vpermv3Entry (NumElts : Nat) (UndefElts : List Bool) (RawMask : List Nat) (i : Nat) : Int :=
  if UndefElts.getD i false then SM_SentinelUndef
  else toInt (RawMask.getD i 0 &&& subU32 (NumElts * 2) 1)

/-- The specification of the cross-lane decoders at slice `i` with `range` addressable
lanes: undef, or the raw value modulo `range`. -/
def vpermvSpec (C : Constant) (ElSize range i : Nat) : Int :=
  if sliceAllUndef C ElSize i then SM_SentinelUndef
  else ((sliceValue C ElSize i % range : Nat) : Int)

/-! ## Example constants -/

/-- The constant `<2 x i64> <i64 0x123456789, i64 undef>`. -/
def exTwoQuads : Constant :=
  ⟨true, true, 64, [.ConstantInt 0x123456789, .UndefValue]⟩

/-- The 16-byte constant `<16 x i8> <0x00, 0x81, undef, 0x03, 0x04, ..., 0x0F>`. -/
def exPshufb : Constant :=
  ⟨true, true, 8,
    [.ConstantInt 0x00, .ConstantInt 0x81, .UndefValue, .ConstantInt 0x03, .ConstantInt 0x04,
      .ConstantInt 0x05, .ConstantInt 0x06, .ConstantInt 0x07, .ConstantInt 0x08,
      .ConstantInt 0x09, .ConstantInt 0x0A, .ConstantInt 0x0B, .ConstantInt 0x0C,
      .ConstantInt 0x0D, .ConstantInt 0x0E, .ConstantInt 0x0F]⟩

/-- The 256-bit constant of eight 32-bit elements all equal to 2. -/
def exVpermilp : Constant :=
  ⟨true, true, 32,
    [.ConstantInt 2, .ConstantInt 2, .ConstantInt 2, .ConstantInt 2,
      .ConstantInt 2, .ConstantInt 2, .ConstantInt 2, .ConstantInt 2]⟩

/-- The constant `<4 x i32> <0, 8, 0, 8>`: match bit (bit 3) clear in elements 0 and 2,
set in elements 1 and 3. -/
def exMatchBits : Constant :=
  ⟨true, true, 32, [.ConstantInt 0, .ConstantInt 8, .ConstantInt 0, .ConstantInt 8]⟩

/-- A 16-byte constant whose defined bytes all have operation 0 or 4: index 5, a
zero-fill byte `0x9F`, an undef, then indices `0x13 .. 0x1F`. -/
def exVpperm : Constant :=
  ⟨true, true, 8,
    [.ConstantInt 0x05, .ConstantInt 0x9F, .UndefValue, .ConstantInt 0x13, .ConstantInt 0x14,
      .ConstantInt 0x15, .ConstantInt 0x16, .ConstantInt 0x17, .ConstantInt 0x18,
      .ConstantInt 0x19, .ConstantInt 0x1A, .ConstantInt 0x1B, .ConstantInt 0x1C,
      .ConstantInt 0x1D, .ConstantInt 0x1E, .ConstantInt 0x1F]⟩

/-- The constant `exVpperm` with byte 7 replaced by `0x23`: operation 1 (invert source
byte), index 3. -/
def exVppermInvert : Constant :=
  ⟨true, true, 8,
    [.ConstantInt 0x05, .ConstantInt 0x9F, .UndefValue, .ConstantInt 0x13, .ConstantInt 0x14,
      .ConstantInt 0x15, .ConstantInt 0x16, .ConstantInt 0x23, .ConstantInt 0x18,
      .ConstantInt 0x19, .ConstantInt 0x1A, .ConstantInt 0x1B, .ConstantInt 0x1C,
      .ConstantInt 0x1D, .ConstantInt 0x1E, .ConstantInt 0x1F]⟩

/-- The constant `<4 x i32> <4, 8, 5, undef>`: raw values equal to the element count and
to twice the element count. -/
def exWrap : Constant :=
  ⟨true, true, 32, [.ConstantInt 4, .ConstantInt 8, .ConstantInt 5, .UndefValue]⟩

/-- The constant `<2 x float> <float 1.0, float 2.0>`: a 64-bit vector whose elements are
not integers. -/
def exTwoFloats : Constant := ⟨true, false, 32, [.other, .other]⟩

/-- The constant `<4 x float>` of four floating-point literals: a 128-bit vector whose
elements are not integers. -/
def exFourFloats : Constant := ⟨true, false, 32, [.other, .other, .other, .other]⟩

/-- A constant is not a vector of integers: it is not a vector, or its element type is not
an integer type, or one of its elements is neither an integer literal nor undef. -/
def Constant.notIntVector (C : Constant) : Prop :=
  C.isVectorTy = false ∨ C.isIntegerEltTy = false ∨ ∃ j : Nat, C.Elts[j]? = some Elt.other

/-- A 512-bit constant: eight 64-bit elements equal to 0. -/
def exEightQuads : Constant :=
  ⟨true, true, 64,
    [.ConstantInt 0, .ConstantInt 0, .ConstantInt 0, .ConstantInt 0,
      .ConstantInt 0, .ConstantInt 0, .ConstantInt 0, .ConstantInt 0]⟩

/-- The constant `<3 x i32> <1, 2, 3>`: a non-power-of-two element count, 96 bits. -/
def exThreeInts : Constant :=
  ⟨true, true, 32, [.ConstantInt 1, .ConstantInt 2, .ConstantInt 3]⟩

/-- The specification's `UndefBits` of a constant. -/
def undefImage (C : Constant) : Nat :=
  flatImage C.ScalarSizeInBits (eltUndef C.ScalarSizeInBits) C.Elts

/-- The part of `extractConstantMask` after the packing loop (source lines 71-96), as a
function of the size of the constant, the two bit images and the requested width. -/
def sliceImages (CstSizeInBits UndefBits MaskBits MaskEltSizeInBits : Nat) :
    Option Extracted :=
  if MaskEltSizeInBits = 0 then none
  else if CstSizeInBits % MaskEltSizeInBits ≠ 0 then none
  else
    match sliceLoop UndefBits MaskBits MaskEltSizeInBits
        (CstSizeInBits / MaskEltSizeInBits) 0 [] [] with
    | none => none
    | some (UndefElts, RawMask) => some (.decoded UndefElts RawMask)

/-- The constant `<4 x i32> <0x23456789, 0x1, undef, undef>`: `exTwoQuads` with each
64-bit element split into its low and high 32-bit halves. -/
def exTwoQuadsSplit : Constant :=
  ⟨true, true, 32, [.ConstantInt 0x23456789, .ConstantInt 0x1, .UndefValue, .UndefValue]⟩

/-- Every entry of `mask` that is neither sentinel is a non-negative index strictly below
`bound`. -/
def IndicesBelow (mask : List Int) (bound : Nat) : Prop :=
  ∀ (i : Nat) (e : Int), mask[i]? = some e →
    e ≠ SM_SentinelUndef → e ≠ SM_SentinelZero → 0 ≤ e ∧ e < (bound : Int)

/-- Entry `i` of `mask` is `SM_SentinelUndef` exactly when slice `i` of the constant at
width `M` is entirely undefined. -/
def UndefExactlyAt (C : Constant) (M : Nat) (mask : List Int) : Prop :=
  ∀ (i : Nat) (e : Int), mask[i]? = some e → (e = SM_SentinelUndef ↔ sliceAllUndef C M i)

/-! ## The same source built with `NDEBUG`: every `assert` compiled out

The definitions above are the source with its asserts in force. The ones below are the
same functions with every `assert` removed, as the preprocessor removes them under
`NDEBUG`; the loops are shared. What is left of `none` is the division by a zero element
width. -/

/-- Modelled from the spec: `APInt::getZExtValue` of `llvm/ADT/APInt.h` (not among the
source files) with its assert compiled out: the low 64-bit word of the value. -/
def APInt.getZExtValueNDEBUG (x : Nat) : Nat := x % 2 ^ 64

/-- The second loop of `extractConstantMask` (source lines 79-94) under `NDEBUG`. -/
def sliceLoopNDEBUG (UndefBits MaskBits MaskEltSizeInBits : Nat) :
    Nat → Nat → List Bool → List Nat → List Bool × List Nat
  | 0, _, UndefElts, RawMask => (UndefElts, RawMask)
  | n + 1, i, UndefElts, RawMask =>
    let EltUndef :=
      APInt.zextOrTrunc MaskEltSizeInBits (APInt.lshr UndefBits (i * MaskEltSizeInBits))
    if APInt.isAllOnesValue MaskEltSizeInBits EltUndef then
      sliceLoopNDEBUG UndefBits MaskBits MaskEltSizeInBits n (i + 1)
        (UndefElts ++ [true]) (RawMask ++ [0])
    else
      let EltBits :=
        APInt.zextOrTrunc MaskEltSizeInBits (APInt.lshr MaskBits (i * MaskEltSizeInBits))
      sliceLoopNDEBUG UndefBits MaskBits MaskEltSizeInBits n (i + 1)
        (UndefElts ++ [false]) (RawMask ++ [APInt.getZExtValueNDEBUG EltBits])

/-- `extractConstantMask` (source lines 27-97) under `NDEBUG`: the assert on the alignment
of the size (lines 72-73) is gone, and `NumMaskElts` is the rounded-down quotient. -/
def extractConstantMaskNDEBUG (C : Constant) (MaskEltSizeInBits : Nat) : Option Extracted :=
  if !C.isVectorTy then some .notDecodable
  else if !C.isIntegerEltTy then some .notDecodable
  else
    let CstSizeInBits := C.getPrimitiveSizeInBits
    let CstEltSizeInBits := C.getScalarSizeInBits
    match packElts CstSizeInBits CstEltSizeInBits C.Elts 0 0 0 with
    | none => some .notDecodable
    | some (UndefBits, MaskBits) =>
      if MaskEltSizeInBits = 0 then none
      else
        let NumMaskElts := CstSizeInBits / MaskEltSizeInBits
        let (UndefElts, RawMask) :=
          sliceLoopNDEBUG UndefBits MaskBits MaskEltSizeInBits NumMaskElts 0 [] []
        some (.decoded UndefElts RawMask)

/-- `DecodePSHUFBMask` (source lines 99-136) under `NDEBUG`. -/
def DecodePSHUFBMaskNDEBUG (C : Constant) (ShuffleMask : List Int) : Option (List Int) :=
  match extractConstantMaskNDEBUG C 8 with
  | none => none
  | some .notDecodable => some ShuffleMask
  | some (.decoded UndefElts RawMask) =>
    let NumElts := RawMask.length
    some (pshufbLoop UndefElts RawMask NumElts 0 ShuffleMask)

/-- `DecodeVPERMILPMask` (source lines 138-173) under `NDEBUG`. -/
def DecodeVPERMILPMaskNDEBUG (C : Constant) (ElSize : Nat) (ShuffleMask : List Int) :
    Option (List Int) :=
  match extractConstantMaskNDEBUG C ElSize with
  | none => none
  | some .notDecodable => some ShuffleMask
  | some (.decoded UndefElts RawMask) =>
    let NumElts := RawMask.length
    if ElSize = 0 then none
    else
      let NumEltsPerLane := 128 / ElSize
      some (vpermilpLoop ElSize NumEltsPerLane UndefElts RawMask NumElts 0 ShuffleMask)

/-- `DecodeVPERMIL2PMask` (source lines 175-227) under `NDEBUG`. -/
def DecodeVPERMIL2PMaskNDEBUG (C : Constant) (M2Z ElSize : Nat) (ShuffleMask : List Int) :
    Option (List Int) :=
  match extractConstantMaskNDEBUG C ElSize with
  | none => none
  | some .notDecodable => some ShuffleMask
  | some (.decoded UndefElts RawMask) =>
    let NumElts := RawMask.length
    if ElSize = 0 then none
    else
      let NumEltsPerLane := 128 / ElSize
      some (vpermil2pLoop M2Z ElSize NumElts NumEltsPerLane UndefElts RawMask NumElts 0
        ShuffleMask)

/-- `DecodeVPPERMMask` (source lines 229-276) under `NDEBUG`. -/
def DecodeVPPERMMaskNDEBUG (C : Constant) (ShuffleMask : List Int) : Option (List Int) :=
  match extractConstantMaskNDEBUG C 8 with
  | none => none
  | some .notDecodable => some ShuffleMask
  | some (.decoded UndefElts RawMask) =>
    let NumElts := RawMask.length
    some (vppermLoop UndefElts RawMask NumElts 0 ShuffleMask)

/-- `DecodeVPERMVMask` (source lines 278-304) under `NDEBUG`. -/
def DecodeVPERMVMaskNDEBUG (C : Constant) (ElSize : Nat) (ShuffleMask : List Int) :
    Option (List Int) :=
  match extractConstantMaskNDEBUG C ElSize with
  | none => none
  | some .notDecodable => some ShuffleMask
  | some (.decoded UndefElts RawMask) =>
    let NumElts := RawMask.length
    some (vpermvLoop NumElts UndefElts RawMask NumElts 0 ShuffleMask)

/-- `DecodeVPERMV3Mask` (source lines 306-332) under `NDEBUG`. -/
def DecodeVPERMV3MaskNDEBUG (C : Constant) (ElSize : Nat) (ShuffleMask : List Int) :
    Option (List Int) :=
  match extractConstantMaskNDEBUG C ElSize with
  | none => none
  | some .notDecodable => some ShuffleMask
  | some (.decoded UndefElts RawMask) =>
    let NumElts := RawMask.length
    some (vpermv3Loop NumElts UndefElts RawMask NumElts 0 ShuffleMask)

/-- The constant `<4 x i64> <1, 0, 7, 0>`: 256 bits, two 128-bit slices with values 1
and 7. -/
def exFourQuads : Constant :=
  ⟨true, true, 64, [.ConstantInt 1, .ConstantInt 0, .ConstantInt 7, .ConstantInt 0]⟩

/-! ## Lemmas on the flat images -/

theorem flatImage_lt (W : Nat) (f : Elt → Nat) (es : List Elt)
    (hf : ∀ e ∈ es, f e < 2 ^ W) : flatImage W f es < 2 ^ (es.length * W) := by
  induction es with
  | nil => simp [flatImage]
  | cons e rest ih =>
    have h1 : f e < 2 ^ W := hf e (List.mem_cons_self _ _)
    have h2 := ih (fun x hx => hf x (List.mem_cons_of_mem _ hx))
    have h3 : 2 ^ ((rest.length + 1) * W) = 2 ^ W * 2 ^ (rest.length * W) := by
      rw [← Nat.pow_add]; congr 1; ring
    simp only [flatImage, List.length_cons, h3]
    have h4 : 2 ^ W * (flatImage W f rest + 1) ≤ 2 ^ W * 2 ^ (rest.length * W) :=
      Nat.mul_le_mul_left _ h2
    have h5 : 2 ^ W * (flatImage W f rest + 1) = 2 ^ W * flatImage W f rest + 2 ^ W := by ring
    omega

theorem testBit_flatImage (W : Nat) (hW : 0 < W) (f : Elt → Nat) (es : List Elt)
    (hf : ∀ e ∈ es, f e < 2 ^ W) (b : Nat) :
    (flatImage W f es).testBit b =
      match es[b / W]? with
      | some e => (f e).testBit (b % W)
      | none => false := by
  induction es generalizing b with
  | nil => simp [flatImage]
  | cons e rest ih =>
    have h1 : f e < 2 ^ W := hf e (List.mem_cons_self _ _)
    have h2 := ih (fun x hx => hf x (List.mem_cons_of_mem _ hx))
    have h3 : flatImage W f (e :: rest) = 2 ^ W * flatImage W f rest + f e := by
      simp only [flatImage]; omega
    rw [h3, Nat.testBit_mul_pow_two_add _ h1]
    by_cases hb : b < W
    · simp [hb, Nat.div_eq_of_lt hb, Nat.mod_eq_of_lt hb]
    · have hb2 : W ≤ b := Nat.le_of_not_lt hb
      have h4 : b / W = (b - W) / W + 1 := by
        conv_lhs => rw [show b = (b - W) + W from by omega]
        rw [Nat.add_div_right _ hW]
      have h5 : b % W = (b - W) % W := by
        conv_lhs => rw [show b = (b - W) + W from by omega]
        rw [Nat.add_mod_right]
      simp only [hb, if_false, h2, h4, h5, List.getElem?_cons_succ]

theorem mod_two_pow_eq_ones_iff (x M : Nat) :
    x % 2 ^ M = 2 ^ M - 1 ↔ ∀ k, k < M → x.testBit k = true := by
  constructor
  · intro h k hk
    have := congrArg (fun y => Nat.testBit y k) h
    simpa [Nat.testBit_mod_two_pow, hk] using this
  · intro h
    apply Nat.eq_of_testBit_eq
    intro k
    rw [Nat.testBit_mod_two_pow, Nat.testBit_two_pow_sub_one]
    by_cases hk : k < M
    · simp [hk, h k hk]
    · simp [hk]

theorem or_shl_eq (S W i acc x : Nat) (hx : x < 2 ^ W) (hacc : acc < 2 ^ (i * W))
    (hS : (i + 1) * W ≤ S) :
    acc ||| APInt.shl S (x % 2 ^ S) (i * W) = acc + 2 ^ (i * W) * x ∧
      acc + 2 ^ (i * W) * x < 2 ^ ((i + 1) * W) := by
  have hpow : 2 ^ ((i + 1) * W) = 2 ^ (i * W) * 2 ^ W := by
    rw [← Nat.pow_add]; congr 1; ring
  have hle : 2 ^ ((i + 1) * W) ≤ 2 ^ S := Nat.pow_le_pow_right (by norm_num) hS
  have hWS : 2 ^ W ≤ 2 ^ S := Nat.pow_le_pow_right (by norm_num) (by nlinarith)
  have hbound : acc + 2 ^ (i * W) * x < 2 ^ ((i + 1) * W) := by
    have h1 : 2 ^ (i * W) * (x + 1) ≤ 2 ^ (i * W) * 2 ^ W := Nat.mul_le_mul_left _ hx
    have h2 : 2 ^ (i * W) * (x + 1) = 2 ^ (i * W) * x + 2 ^ (i * W) := by ring
    omega
  refine ⟨?_, hbound⟩
  have hx1 : x % 2 ^ S = x := Nat.mod_eq_of_lt (lt_of_lt_of_le hx hWS)
  have hsh : APInt.shl S x (i * W) = 2 ^ (i * W) * x := by
    unfold APInt.shl
    rw [Nat.shiftLeft_eq, Nat.mul_comm]
    exact Nat.mod_eq_of_lt (by omega)
  rw [hx1, hsh, Nat.lor_comm, ← Nat.mul_add_lt_is_or hacc, Nat.add_comm]

theorem packElts_eq (S W : Nat) (es : List Elt) (i UndefBits MaskBits : Nat)
    (hes : ∀ e ∈ es, e ≠ Elt.other) (hv : ∀ e ∈ es, eltValue e < 2 ^ W)
    (hS : (i + es.length) * W ≤ S)
    (hU : UndefBits < 2 ^ (i * W)) (hM : MaskBits < 2 ^ (i * W)) :
    packElts S W es i UndefBits MaskBits =
      some (UndefBits + 2 ^ (i * W) * flatImage W (eltUndef W) es,
        MaskBits + 2 ^ (i * W) * flatImage W eltValue es) := by
  induction es generalizing i UndefBits MaskBits with
  | nil => simp [packElts, flatImage]
  | cons e rest ih =>
    have hS1 : (i + 1) * W ≤ S := by
      simp only [List.length_cons] at hS
      nlinarith
    have hS2 : (i + 1 + rest.length) * W ≤ S := by
      simp only [List.length_cons] at hS
      have : i + 1 + rest.length = i + (rest.length + 1) := by omega
      rw [this]; exact hS
    have hpow : 2 ^ ((i + 1) * W) = 2 ^ (i * W) * 2 ^ W := by
      rw [← Nat.pow_add]; congr 1; ring
    have hmono : 2 ^ (i * W) ≤ 2 ^ ((i + 1) * W) :=
      Nat.pow_le_pow_right (by norm_num) (by nlinarith)
    have hes1 := fun x hx => hes x (List.mem_cons_of_mem _ hx)
    have hv1 := fun x hx => hv x (List.mem_cons_of_mem _ hx)
    cases e with
    | other => exact absurd rfl (hes _ (List.mem_cons_self _ _))
    | UndefValue =>
      have hx : 2 ^ W - 1 < 2 ^ W := Nat.sub_lt (Nat.pos_pow_of_pos W (by norm_num)) (by norm_num)
      obtain ⟨h1, h2⟩ := or_shl_eq S W i UndefBits (2 ^ W - 1) hx hU hS1
      simp only [packElts, APInt.getLowBitsSet, h1]
      rw [ih (i + 1) _ _ hes1 hv1 hS2 h2 (lt_of_lt_of_le hM hmono)]
      simp only [flatImage, eltUndef, eltValue, hpow]
      congr 2 <;> ring
    | ConstantInt v =>
      have hx : v < 2 ^ W := hv _ (List.mem_cons_self _ _)
      obtain ⟨h1, h2⟩ := or_shl_eq S W i MaskBits v hx hM hS1
      simp only [packElts, APInt.zextOrTrunc, h1]
      rw [ih (i + 1) _ _ hes1 hv1 hS2 (lt_of_lt_of_le hU hmono) h2]
      simp only [flatImage, eltUndef, eltValue, hpow]
      congr 2 <;> ring

theorem sliceLoop_eq (UndefBits MaskBits M : Nat) (hM : M ≤ 64) (n i : Nat)
    (UndefElts : List Bool) (RawMask : List Nat) :
    sliceLoop UndefBits MaskBits M n i UndefElts RawMask =
      some (UndefElts ++ (List.range' i n).map (sliceUndefFlag UndefBits M),
        RawMask ++ (List.range' i n).map (sliceRawValue UndefBits MaskBits M)) := by
  induction n generalizing i UndefElts RawMask with
  | zero => simp [sliceLoop]
  | succ n ih =>
    have hlt : APInt.zextOrTrunc M (APInt.lshr MaskBits (i * M)) < 2 ^ 64 := by
      unfold APInt.zextOrTrunc
      exact lt_of_lt_of_le (Nat.mod_lt _ (Nat.pos_pow_of_pos M (by norm_num)))
        (Nat.pow_le_pow_right (by norm_num) hM)
    by_cases h : sliceUndefFlag UndefBits M i = true
    · have h' := h
      unfold sliceUndefFlag at h'
      simp [sliceLoop, h', ih, List.range'_succ, sliceRawValue, h]
    · have h' := h
      unfold sliceUndefFlag at h'
      simp only [Bool.not_eq_true] at h h'
      have hz : APInt.getZExtValue (APInt.zextOrTrunc M (APInt.lshr MaskBits (i * M))) =
          some (APInt.zextOrTrunc M (APInt.lshr MaskBits (i * M))) := by
        unfold APInt.getZExtValue
        rw [if_pos hlt]
      simp [sliceLoop, h', ih, List.range'_succ, sliceRawValue, h, hz]

theorem testBit_undefImage (W : Nat) (hW : 0 < W) (es : List Elt) (b : Nat) :
    (flatImage W (eltUndef W) es).testBit b = true ↔ es[b / W]? = some Elt.UndefValue := by
  have hx : 2 ^ W - 1 < 2 ^ W := Nat.sub_lt (Nat.pos_pow_of_pos W (by norm_num)) (by norm_num)
  have hf : ∀ e ∈ es, eltUndef W e < 2 ^ W := by
    intro e _
    cases e <;> simp [eltUndef, hx, Nat.pos_pow_of_pos]
  rw [testBit_flatImage W hW _ es hf b]
  cases h : es[b / W]? with
  | none => simp
  | some e =>
    cases e <;> simp [eltUndef, Nat.testBit_two_pow_sub_one, Nat.mod_lt _ hW]

theorem sliceUndefFlag_undefImage (C : Constant) (hW : 0 < C.ScalarSizeInBits) (M i : Nat) :
    sliceUndefFlag (flatImage C.ScalarSizeInBits (eltUndef C.ScalarSizeInBits) C.Elts) M i
      = decide (sliceAllUndef C M i) := by
  rw [Bool.eq_iff_iff]
  simp only [sliceUndefFlag, APInt.isAllOnesValue, APInt.zextOrTrunc, APInt.lshr, beq_iff_eq,
    decide_eq_true_eq, mod_two_pow_eq_ones_iff, Nat.testBit_shiftRight, sliceAllUndef,
    bitInUndefElt, testBit_undefImage _ hW]

theorem Constant.WellTyped_iff (C : Constant) :
    C.WellTyped = true ↔ 0 < C.Elts.length ∧ 0 < C.ScalarSizeInBits ∧
      ∀ e ∈ C.Elts, eltValue e < 2 ^ C.ScalarSizeInBits := by
  unfold Constant.WellTyped
  simp only [Bool.and_eq_true, decide_eq_true_eq, List.all_eq_true, and_assoc]
  refine and_congr_right fun _ => and_congr_right fun _ => forall_congr' fun e => ?_
  cases e <;> simp [eltValue, Nat.pos_pow_of_pos]

theorem Constant.allIntOrUndef_iff (C : Constant) :
    C.allIntOrUndef = true ↔ ∀ e ∈ C.Elts, e ≠ Elt.other := by
  simp [Constant.allIntOrUndef]

/-- What `extractConstantMask` returns on a vector of integer literals and undefs, in
closed form. -/
theorem extractConstantMask_eq (C : Constant) (M : Nat)
    (hvec : C.isVectorTy = true) (hint : C.isIntegerEltTy = true)
    (hwt : C.WellTyped = true) (helts : C.allIntOrUndef = true)
    (hM : M ≤ 64) (hdvd : M ∣ C.Elts.length * C.ScalarSizeInBits) :
    extractConstantMask C M =
      some (.decoded
        ((List.range (C.Elts.length * C.ScalarSizeInBits / M)).map
          fun i => decide (sliceAllUndef C M i))
        ((List.range (C.Elts.length * C.ScalarSizeInBits / M)).map
          fun i => if sliceAllUndef C M i then 0 else sliceValue C M i)) := by
  obtain ⟨hN, hW, hv⟩ := (Constant.WellTyped_iff C).1 hwt
  have hes := (Constant.allIntOrUndef_iff C).1 helts
  have hpos : 0 < C.Elts.length * C.ScalarSizeInBits := Nat.mul_pos hN hW
  have hM0 : M ≠ 0 := by
    rintro rfl
    have := Nat.eq_zero_of_zero_dvd hdvd
    omega
  have hmod : C.Elts.length * C.ScalarSizeInBits % M = 0 := Nat.mod_eq_zero_of_dvd hdvd
  have hpack := packElts_eq (C.Elts.length * C.ScalarSizeInBits) C.ScalarSizeInBits C.Elts 0 0 0
    hes hv (by simp) (by simp) (by simp)
  simp only [Nat.zero_mul, Nat.pow_zero, Nat.one_mul, Nat.zero_add] at hpack
  simp only [extractConstantMask, hvec, hint, Constant.getPrimitiveSizeInBits,
    Constant.getScalarSizeInBits, hpack, hM0, hmod, sliceLoop_eq _ _ _ hM,
    Bool.not_true, if_true, if_false, Bool.false_eq_true, ne_eq, not_true_eq_false,
    List.nil_append, ← List.range_eq_range']
  congr 2
  · apply List.map_congr_left
    intro i _
    exact sliceUndefFlag_undefImage C hW M i
  · apply List.map_congr_left
    intro i _
    simp only [sliceRawValue, sliceUndefFlag_undefImage C hW M i, decide_eq_true_eq,
      APInt.zextOrTrunc, APInt.lshr, Nat.shiftRight_eq_div_pow, sliceValue, valueImage]

theorem Constant.IntVector_iff (C : Constant) :
    C.IntVector = true ↔ C.isVectorTy = true ∧ C.isIntegerEltTy = true ∧
      C.WellTyped = true ∧ C.allIntOrUndef = true := by
  simp [Constant.IntVector, and_assoc]

/-- The closed form of `extractConstantMask` on a decodable constant. -/
theorem extractConstantMask_intVector (C : Constant) (M : Nat) (hC : C.IntVector = true)
    (hM : M ≤ 64) (hdvd : M ∣ C.Elts.length * C.ScalarSizeInBits) :
    extractConstantMask C M =
      some (.decoded
        ((List.range (C.Elts.length * C.ScalarSizeInBits / M)).map
          fun i => decide (sliceAllUndef C M i))
        ((List.range (C.Elts.length * C.ScalarSizeInBits / M)).map
          fun i => if sliceAllUndef C M i then 0 else sliceValue C M i)) := by
  obtain ⟨hvec, hint, hwt, helts⟩ := (Constant.IntVector_iff C).1 hC
  exact extractConstantMask_eq C M hvec hint hwt helts hM hdvd

/-! ## `extractConstantMask`: the claims -/

/-- C9: on a vector constant of `N` integer elements of width `W`, each an integer literal
or undef, and a requested width `M ≤ 64` dividing `N * W`, `extractConstantMask` succeeds
with `N * W / M` slices; `UndefElts[i]` is true if and only if every one of the bits
`[i * M, (i + 1) * M)` of the flattened constant lies inside an undef source element, and
otherwise `RawMask[i]` is the `M`-bit value formed by these bits of the flattened value
image. -/
theorem extractConstantMask_slices (C : Constant) (M : Nat) (hC : C.IntVector = true)
    (hM : M ≤ 64) (hdvd : M ∣ C.Elts.length * C.ScalarSizeInBits) :
    ∃ UndefElts RawMask,
      extractConstantMask C M = some (.decoded UndefElts RawMask) ∧
      UndefElts.length = C.Elts.length * C.ScalarSizeInBits / M ∧
      RawMask.length = C.Elts.length * C.ScalarSizeInBits / M ∧
      ∀ i, i < C.Elts.length * C.ScalarSizeInBits / M →
        (UndefElts[i]? = some true ↔ sliceAllUndef C M i) ∧
        (UndefElts[i]? = some false ↔ ¬ sliceAllUndef C M i) ∧
        (¬ sliceAllUndef C M i → RawMask[i]? = some (sliceValue C M i)) := by
  refine ⟨_, _, extractConstantMask_intVector C M hC hM hdvd, by simp, by simp, ?_⟩
  intro i hi
  simp only [List.getElem?_map, List.getElem?_range hi, Option.map_some', Option.some.injEq,
    decide_eq_true_eq, decide_eq_false_iff_not, true_and]
  intro h
  simp [h]

/-- C9, at `<2 x i64> <0x123456789, undef>` sliced at 32 bits: the hypotheses hold there,
the call returns flags `[false, false, true, true]` and raw values
`[0x23456789, 1, 0, 0]`, and the theorem applies. -/
theorem extractConstantMask_slices_witness :
    (exTwoQuads.IntVector = true ∧ 32 ≤ 64 ∧
      32 ∣ exTwoQuads.Elts.length * exTwoQuads.ScalarSizeInBits) ∧
    extractConstantMask exTwoQuads 32 =
      some (.decoded [false, false, true, true] [0x23456789, 1, 0, 0]) ∧
    ∃ UndefElts RawMask,
      extractConstantMask exTwoQuads 32 = some (.decoded UndefElts RawMask) ∧
      UndefElts.length = exTwoQuads.Elts.length * exTwoQuads.ScalarSizeInBits / 32 ∧
      RawMask.length = exTwoQuads.Elts.length * exTwoQuads.ScalarSizeInBits / 32 ∧
      ∀ i, i < exTwoQuads.Elts.length * exTwoQuads.ScalarSizeInBits / 32 →
        (UndefElts[i]? = some true ↔ sliceAllUndef exTwoQuads 32 i) ∧
        (UndefElts[i]? = some false ↔ ¬ sliceAllUndef exTwoQuads 32 i) ∧
        (¬ sliceAllUndef exTwoQuads 32 i → RawMask[i]? = some (sliceValue exTwoQuads 32 i)) :=
  ⟨⟨by decide, by decide, by decide⟩, by decide,
    extractConstantMask_slices exTwoQuads 32 (by decide) (by decide) (by decide)⟩

theorem getD_map_range {α : Type} (f : Nat → α) (n i : Nat) (d : α) (hi : i < n) :
    ((List.range n).map f).getD i d = f i := by
  simp [List.getElem?_range hi]

theorem and_two_pow_ne_zero_iff (e k : Nat) : e &&& 2 ^ k ≠ 0 ↔ e.testBit k = true := by
  constructor
  · intro h
    by_contra hk
    apply h
    apply Nat.eq_of_testBit_eq
    intro j
    simp only [Nat.testBit_and, Nat.testBit_two_pow, Nat.zero_testBit]
    by_cases hj : k = j
    · subst hj; simpa using hk
    · simp [hj]
  · intro h h0
    have := congrArg (fun x => Nat.testBit x k) h0
    simp [Nat.testBit_and, Nat.testBit_two_pow_self, h] at this

theorem toInt_of_lt (x : Nat) (hx : x < 2 ^ 31) : toInt x = (x : Int) := by
  have h1 : x % 2 ^ 32 = x := Nat.mod_eq_of_lt (by omega)
  unfold toInt
  rw [h1, if_pos hx]
  rfl

theorem and_notU32_15 : ∀ i, i < 64 → i &&& notU32 0xf = i / 16 * 16 := by decide

theorem pshufbLoop_eq (UndefElts : List Bool) (RawMask : List Nat) (n i : Nat)
    (ShuffleMask : List Int) :
    pshufbLoop UndefElts RawMask n i ShuffleMask =
      ShuffleMask ++ (List.range' i n).map (pshufbEntry UndefElts RawMask) := by
  induction n generalizing i ShuffleMask with
  | zero => simp [pshufbLoop]
  | succ n ih =>
    simp only [pshufbLoop, ih, List.range'_succ, List.map_cons, pshufbEntry]
    split_ifs <;> simp

theorem pshufbEntry_eq (C : Constant) (n i : Nat) (hi : i < n) (hn : n ≤ 64) :
    pshufbEntry ((List.range n).map fun i => decide (sliceAllUndef C 8 i))
      ((List.range n).map fun i => if sliceAllUndef C 8 i then 0 else sliceValue C 8 i) i
      = pshufbSpec C i := by
  unfold pshufbEntry pshufbSpec
  rw [getD_map_range _ _ _ _ hi, getD_map_range _ _ _ _ hi]
  by_cases h : sliceAllUndef C 8 i
  · simp [h]
  · have h16 : sliceValue C 8 i &&& 0xf < 16 := by
      have := Nat.and_pow_two_sub_one_eq_mod (sliceValue C 8 i) 4
      norm_num at this
      rw [this]
      exact Nat.mod_lt _ (by norm_num)
    have hb : i / 16 * 16 ≤ i := Nat.div_mul_le_self i 16
    simp only [h, decide_False, Bool.false_eq_true, if_false, Nat.one_shiftLeft,
      and_two_pow_ne_zero_iff, and_notU32_15 i (by omega)]
    split_ifs
    · rfl
    · exact toInt_of_lt _ (by omega)

theorem DecodePSHUFBMask_intVector (C : Constant) (hC : C.IntVector = true)
    (hsize : C.getPrimitiveSizeInBits = 128 ∨ C.getPrimitiveSizeInBits = 256 ∨
      C.getPrimitiveSizeInBits = 512) (ShuffleMask : List Int) :
    DecodePSHUFBMask C ShuffleMask =
      some (ShuffleMask ++ (List.range (C.getPrimitiveSizeInBits / 8)).map (pshufbSpec C)) := by
  obtain ⟨hvec, _, _, _⟩ := (Constant.IntVector_iff C).1 hC
  have hS : C.getPrimitiveSizeInBits = C.Elts.length * C.ScalarSizeInBits := by
    simp [Constant.getPrimitiveSizeInBits, hvec]
  have hdvd : 8 ∣ C.Elts.length * C.ScalarSizeInBits := by
    rw [← hS]; rcases hsize with h | h | h <;> rw [h] <;> decide
  have hex := extractConstantMask_intVector C 8 hC (by norm_num) hdvd
  rw [← hS] at hex
  have hn : C.getPrimitiveSizeInBits / 8 ≤ 64 := by
    rcases hsize with h | h | h <;> rw [h] <;> decide
  have hcnt : (C.getPrimitiveSizeInBits / 8 == 16 || C.getPrimitiveSizeInBits / 8 == 32 ||
      C.getPrimitiveSizeInBits / 8 == 64) = true := by
    rcases hsize with h | h | h <;> rw [h] <;> decide
  have hsz : (C.getPrimitiveSizeInBits == 128 || C.getPrimitiveSizeInBits == 256 ||
      C.getPrimitiveSizeInBits == 512) = true := by
    rcases hsize with h | h | h <;> rw [h] <;> decide
  simp only [DecodePSHUFBMask, hsz, hex, List.length_map, List.length_range, hcnt,
    Bool.not_true, Bool.false_eq_true, if_false, pshufbLoop_eq, ← List.range_eq_range',
    Option.some.injEq, List.append_cancel_left_eq]
  apply List.map_congr_left
  intro i hi
  exact pshufbEntry_eq C _ i (List.mem_range.1 hi) hn

theorem and_three (x : Nat) : x &&& 3 = x % 4 := by
  have := Nat.and_pow_two_sub_one_eq_mod x 2
  norm_num at this
  exact this

theorem shiftRight_one_and_one (x : Nat) : (x >>> 1) &&& 1 = x / 2 % 2 := by
  rw [Nat.and_one_is_mod, Nat.shiftRight_eq_div_pow, Nat.pow_one]

theorem and_notU32_lane32 : ∀ i, i < 16 → i &&& notU32 (subU32 (128 / 32) 1) = i / 4 * 4 := by
  decide

theorem and_notU32_lane64 : ∀ i, i < 16 → i &&& notU32 (subU32 (128 / 64) 1) = i / 2 * 2 := by
  decide

theorem intVector_size (C : Constant) (hC : C.IntVector = true) :
    C.getPrimitiveSizeInBits = C.Elts.length * C.ScalarSizeInBits := by
  obtain ⟨hvec, _, _, _⟩ := (Constant.IntVector_iff C).1 hC
  simp [Constant.getPrimitiveSizeInBits, hvec]

theorem extractConstantMask_size (C : Constant) (M : Nat) (hC : C.IntVector = true)
    (hM : M ≤ 64) (hdvd : M ∣ C.getPrimitiveSizeInBits) :
    extractConstantMask C M =
      some (.decoded
        ((List.range (C.getPrimitiveSizeInBits / M)).map
          fun i => decide (sliceAllUndef C M i))
        ((List.range (C.getPrimitiveSizeInBits / M)).map
          fun i => if sliceAllUndef C M i then 0 else sliceValue C M i)) := by
  rw [intVector_size C hC] at hdvd ⊢
  exact extractConstantMask_intVector C M hC hM hdvd

theorem vpermilpLoop_eq (ElSize NumEltsPerLane : Nat) (UndefElts : List Bool)
    (RawMask : List Nat) (n i : Nat) (ShuffleMask : List Int) :
    vpermilpLoop ElSize NumEltsPerLane UndefElts RawMask n i ShuffleMask =
      ShuffleMask ++
        (List.range' i n).map (vpermilpEntry ElSize NumEltsPerLane UndefElts RawMask) := by
  induction n generalizing i ShuffleMask with
  | zero => simp [vpermilpLoop]
  | succ n ih =>
    simp only [vpermilpLoop, ih, List.range'_succ, List.map_cons, vpermilpEntry]
    split_ifs <;> simp

theorem vpermilpEntry_eq (C : Constant) (ElSize n i : Nat) (hEl : ElSize = 32 ∨ ElSize = 64)
    (hi : i < n) (hn : n ≤ 16) :
    vpermilpEntry ElSize (128 / ElSize)
      ((List.range n).map fun i => decide (sliceAllUndef C ElSize i))
      ((List.range n).map fun i => if sliceAllUndef C ElSize i then 0 else sliceValue C ElSize i)
      i = vpermilpSpec C ElSize i := by
  unfold vpermilpEntry vpermilpSpec
  rw [getD_map_range _ _ _ _ hi, getD_map_range _ _ _ _ hi]
  by_cases h : sliceAllUndef C ElSize i
  · simp [h]
  · rcases hEl with rfl | rfl
    · have hb : i / 4 * 4 ≤ i := Nat.div_mul_le_self i 4
      have hm : sliceValue C 32 i % 4 < 4 := Nat.mod_lt _ (by norm_num)
      simp only [h, decide_False, Bool.false_eq_true, if_false, and_notU32_lane32 i (by omega),
        and_three, laneBase, localSelector]
      norm_num
      exact toInt_of_lt _ (by omega)
    · have hb : i / 2 * 2 ≤ i := Nat.div_mul_le_self i 2
      have hm : sliceValue C 64 i / 2 % 2 < 2 := Nat.mod_lt _ (by norm_num)
      simp only [h, decide_False, Bool.false_eq_true, if_false, and_notU32_lane64 i (by omega),
        shiftRight_one_and_one, laneBase, localSelector]
      norm_num
      exact toInt_of_lt _ (by omega)

theorem DecodeVPERMILPMask_intVector (C : Constant) (ElSize : Nat) (hC : C.IntVector = true)
    (hsize : C.getPrimitiveSizeInBits = 128 ∨ C.getPrimitiveSizeInBits = 256 ∨
      C.getPrimitiveSizeInBits = 512) (hEl : ElSize = 32 ∨ ElSize = 64)
    (ShuffleMask : List Int) :
    DecodeVPERMILPMask C ElSize ShuffleMask =
      some (ShuffleMask ++
        (List.range (C.getPrimitiveSizeInBits / ElSize)).map (vpermilpSpec C ElSize)) := by
  have hdvd : ElSize ∣ C.getPrimitiveSizeInBits := by
    rcases hsize with h | h | h <;> rw [h] <;> rcases hEl with rfl | rfl <;> decide
  have hM : ElSize ≤ 64 := by rcases hEl with rfl | rfl <;> decide
  have hex := extractConstantMask_size C ElSize hC hM hdvd
  have hn : C.getPrimitiveSizeInBits / ElSize ≤ 16 := by
    rcases hsize with h | h | h <;> rw [h] <;> rcases hEl with rfl | rfl <;> decide
  have hcnt : (C.getPrimitiveSizeInBits / ElSize == 2 || C.getPrimitiveSizeInBits / ElSize == 4
      || C.getPrimitiveSizeInBits / ElSize == 8 || C.getPrimitiveSizeInBits / ElSize == 16)
      = true := by
    rcases hsize with h | h | h <;> rw [h] <;> rcases hEl with rfl | rfl <;> decide
  have hsz : (C.getPrimitiveSizeInBits == 128 || C.getPrimitiveSizeInBits == 256 ||
      C.getPrimitiveSizeInBits == 512) = true := by
    rcases hsize with h | h | h <;> rw [h] <;> decide
  have hel : (ElSize == 32 || ElSize == 64) = true := by
    rcases hEl with rfl | rfl <;> decide
  simp only [DecodeVPERMILPMask, hsz, hel, hex, List.length_map, List.length_range, hcnt,
    Bool.not_true, Bool.false_eq_true, if_false, vpermilpLoop_eq, ← List.range_eq_range',
    Option.some.injEq, List.append_cancel_left_eq]
  apply List.map_congr_left
  intro i hi
  exact vpermilpEntry_eq C ElSize _ i hEl (List.mem_range.1 hi) hn

theorem shiftRight_and_one (x k : Nat) : (x >>> k) &&& 1 = x / 2 ^ k % 2 := by
  rw [Nat.and_one_is_mod, Nat.shiftRight_eq_div_pow]

theorem mod_two_ne_iff (a b : Nat) :
    a % 2 ≠ b % 2 ↔ decide (a % 2 = 1) ≠ decide (b % 2 = 1) := by
  rcases Nat.mod_two_eq_zero_or_one a with ha | ha <;>
    rcases Nat.mod_two_eq_zero_or_one b with hb | hb <;> simp [ha, hb]

theorem m2z_cond_iff (M2Z Selector : Nat) :
    ((M2Z &&& 0x2) ≠ 0 ∧ ((Selector >>> 3) &&& 0x1) ≠ (M2Z &&& 0x1)) ↔
      m2zZeroes M2Z Selector := by
  unfold m2zZeroes
  have h1 : (M2Z &&& 0x2) ≠ 0 ↔ M2Z.testBit 1 = true := by
    have := and_two_pow_ne_zero_iff M2Z 1
    simpa using this
  have h2 : ((Selector >>> 3) &&& 0x1) ≠ (M2Z &&& 0x1) ↔
      Selector.testBit 3 ≠ M2Z.testBit 0 := by
    rw [shiftRight_and_one, Nat.and_one_is_mod, @Nat.testBit_to_div_mod 3 Selector,
      @Nat.testBit_to_div_mod 0 M2Z, mod_two_ne_iff]
    simp
  rw [h1, h2]

theorem and_notU32_lane32_8 : ∀ i, i < 8 → i &&& notU32 (subU32 (128 / 32) 1) = i / 4 * 4 := by
  decide

theorem and_notU32_lane64_8 : ∀ i, i < 8 → i &&& notU32 (subU32 (128 / 64) 1) = i / 2 * 2 := by
  decide

theorem vpermil2pLoop_eq (M2Z ElSize NumElts NumEltsPerLane : Nat) (UndefElts : List Bool)
    (RawMask : List Nat) (n i : Nat) (ShuffleMask : List Int) :
    vpermil2pLoop M2Z ElSize NumElts NumEltsPerLane UndefElts RawMask n i ShuffleMask =
      ShuffleMask ++ (List.range' i n).map
        (vpermil2pEntry M2Z ElSize NumElts NumEltsPerLane UndefElts RawMask) := by
  induction n generalizing i ShuffleMask with
  | zero => simp [vpermil2pLoop]
  | succ n ih =>
    simp only [vpermil2pLoop, ih, List.range'_succ, List.map_cons, vpermil2pEntry]
    split_ifs <;> simp

theorem vpermil2pEntry_eq (C : Constant) (M2Z ElSize n i : Nat)
    (hEl : ElSize = 32 ∨ ElSize = 64) (hi : i < n) (hn : n ≤ 8) :
    vpermil2pEntry M2Z ElSize n (128 / ElSize)
      ((List.range n).map fun i => decide (sliceAllUndef C ElSize i))
      ((List.range n).map fun i => if sliceAllUndef C ElSize i then 0 else sliceValue C ElSize i)
      i = vpermil2pSpec C M2Z ElSize n i := by
  unfold vpermil2pEntry vpermil2pSpec
  rw [getD_map_range _ _ _ _ hi, getD_map_range _ _ _ _ hi]
  by_cases h : sliceAllUndef C ElSize i
  · simp [h]
  · simp only [h, decide_False, Bool.false_eq_true, if_false, m2z_cond_iff]
    by_cases hz : m2zZeroes M2Z (sliceValue C ElSize i)
    · simp [hz]
    · have hs : sliceValue C ElSize i / 4 % 2 * n ≤ 8 := by
        have : sliceValue C ElSize i / 4 % 2 < 2 := Nat.mod_lt _ (by norm_num)
        nlinarith
      rcases hEl with rfl | rfl
      · have hb : i / 4 * 4 ≤ i := Nat.div_mul_le_self i 4
        have hm : sliceValue C 32 i % 4 < 4 := Nat.mod_lt _ (by norm_num)
        simp only [hz, if_false, and_notU32_lane32_8 i (by omega), and_three,
          shiftRight_and_one, laneBase, localSelector]
        norm_num
        exact toInt_of_lt _ (by omega)
      · have hb : i / 2 * 2 ≤ i := Nat.div_mul_le_self i 2
        have hm : sliceValue C 64 i / 2 % 2 < 2 := Nat.mod_lt _ (by norm_num)
        simp only [hz, if_false, and_notU32_lane64_8 i (by omega),
          shiftRight_and_one, laneBase, localSelector]
        norm_num
        exact toInt_of_lt _ (by omega)

theorem DecodeVPERMIL2PMask_intVector (C : Constant) (M2Z ElSize : Nat)
    (hC : C.IntVector = true)
    (hsize : C.getPrimitiveSizeInBits = 128 ∨ C.getPrimitiveSizeInBits = 256)
    (hEl : ElSize = 32 ∨ ElSize = 64) (ShuffleMask : List Int) :
    DecodeVPERMIL2PMask C M2Z ElSize ShuffleMask =
      some (ShuffleMask ++ (List.range (C.getPrimitiveSizeInBits / ElSize)).map
        (vpermil2pSpec C M2Z ElSize (C.getPrimitiveSizeInBits / ElSize))) := by
  have hdvd : ElSize ∣ C.getPrimitiveSizeInBits := by
    rcases hsize with h | h <;> rw [h] <;> rcases hEl with rfl | rfl <;> decide
  have hM : ElSize ≤ 64 := by rcases hEl with rfl | rfl <;> decide
  have hex := extractConstantMask_size C ElSize hC hM hdvd
  have hn : C.getPrimitiveSizeInBits / ElSize ≤ 8 := by
    rcases hsize with h | h <;> rw [h] <;> rcases hEl with rfl | rfl <;> decide
  have hcnt : (C.getPrimitiveSizeInBits / ElSize == 2 || C.getPrimitiveSizeInBits / ElSize == 4
      || C.getPrimitiveSizeInBits / ElSize == 8) = true := by
    rcases hsize with h | h <;> rw [h] <;> rcases hEl with rfl | rfl <;> decide
  have hsz : (C.getPrimitiveSizeInBits == 128 || C.getPrimitiveSizeInBits == 256) = true := by
    rcases hsize with h | h <;> rw [h] <;> decide
  have hel : ElSize ≠ 0 := by rcases hEl with rfl | rfl <;> decide
  simp only [DecodeVPERMIL2PMask, hsz, hel, hex, List.length_map, List.length_range, hcnt,
    Bool.not_true, Bool.false_eq_true, if_false, vpermil2pLoop_eq, ← List.range_eq_range',
    Option.some.injEq, List.append_cancel_left_eq]
  apply List.map_congr_left
  intro i hi
  exact vpermil2pEntry_eq C M2Z ElSize _ i hEl (List.mem_range.1 hi) hn

theorem vpermil2pSpec_getElem? (C : Constant) (M2Z ElSize n i : Nat) (hi : i < n) :
    ((List.range n).map (vpermil2pSpec C M2Z ElSize n))[i]? =
      some (vpermil2pSpec C M2Z ElSize n i) := by
  simp [List.getElem?_range hi]

theorem m2zZeroes_two (raw : Nat) : m2zZeroes 2 raw ↔ raw.testBit 3 = true := by
  have h1 : Nat.testBit 2 1 = true := by decide
  have h0 : Nat.testBit 2 0 = false := by decide
  simp [m2zZeroes, h1, h0]

theorem m2zZeroes_three (raw : Nat) : m2zZeroes 3 raw ↔ raw.testBit 3 = false := by
  have h1 : Nat.testBit 3 1 = true := by decide
  have h0 : Nat.testBit 3 0 = true := by decide
  simp [m2zZeroes, h1, h0]

theorem shiftRight_five_and_seven (x : Nat) : (x >>> 5) &&& 7 = permuteOp x := by
  have := Nat.and_pow_two_sub_one_eq_mod (x >>> 5) 3
  norm_num at this
  rw [this, Nat.shiftRight_eq_div_pow]
  rfl

theorem and_thirtyOne_lt (x : Nat) : x &&& 0x1F < 32 := by
  have := Nat.and_pow_two_sub_one_eq_mod x 5
  norm_num at this
  rw [this]
  exact Nat.mod_lt _ (by norm_num)

theorem vppermLoop_eq (UndefElts : List Bool) (RawMask : List Nat) (n i : Nat)
    (ShuffleMask : List Int)
    (hok : ∀ j, i ≤ j → j < i + n → vppermAborts UndefElts RawMask j = false) :
    vppermLoop UndefElts RawMask n i ShuffleMask =
      ShuffleMask ++ (List.range' i n).map (vppermEntry UndefElts RawMask) := by
  induction n generalizing i ShuffleMask with
  | zero => simp [vppermLoop]
  | succ n ih =>
    have hrest : ∀ j, i + 1 ≤ j → j < i + 1 + n →
        vppermAborts UndefElts RawMask j = false := fun j h1 h2 => hok j (by omega) (by omega)
    have hi := hok i (Nat.le_refl _) (by omega)
    simp only [vppermLoop, ih _ _ hrest, List.range'_succ, List.map_cons, vppermEntry]
    unfold vppermAborts at hi
    generalize UndefElts.getD i false = u at hi ⊢
    generalize ((RawMask.getD i 0 >>> 5) &&& 0x7) = op at hi ⊢
    cases u <;> by_cases h4 : op = 4 <;> by_cases h0 : op = 0 <;> simp_all

theorem vppermLoop_abort (UndefElts : List Bool) (RawMask : List Nat) (n i : Nat)
    (ShuffleMask : List Int)
    (hbad : ∃ j, i ≤ j ∧ j < i + n ∧ vppermAborts UndefElts RawMask j = true) :
    vppermLoop UndefElts RawMask n i ShuffleMask = [] := by
  induction n generalizing i ShuffleMask with
  | zero =>
    obtain ⟨j, h1, h2, _⟩ := hbad
    omega
  | succ n ih =>
    obtain ⟨j, h1, h2, hj⟩ := hbad
    have hrest : j ≠ i → ∃ j, i + 1 ≤ j ∧ j < i + 1 + n ∧
        vppermAborts UndefElts RawMask j = true :=
      fun hne => ⟨j, by omega, by omega, hj⟩
    have hcase : vppermAborts UndefElts RawMask i = true ∨ j ≠ i := by
      by_cases hji : j = i
      · left; rw [← hji]; exact hj
      · right; exact hji
    simp only [vppermLoop]
    rcases hcase with hi | hne
    · unfold vppermAborts at hi
      generalize UndefElts.getD i false = u at hi ⊢
      generalize ((RawMask.getD i 0 >>> 5) &&& 0x7) = op at hi ⊢
      cases u <;> by_cases h4 : op = 4 <;> by_cases h0 : op = 0 <;> simp_all
    · have hr := hrest hne
      split_ifs
      · exact ih _ _ hr
      · exact ih _ _ hr
      · rfl
      · exact ih _ _ hr

theorem vppermAborts_eq (C : Constant) (n i : Nat) (hi : i < n) :
    vppermAborts ((List.range n).map fun i => decide (sliceAllUndef C 8 i))
      ((List.range n).map fun i => if sliceAllUndef C 8 i then 0 else sliceValue C 8 i) i
      = decide (¬ sliceAllUndef C 8 i ∧ permuteOp (sliceValue C 8 i) ≠ 4 ∧
          permuteOp (sliceValue C 8 i) ≠ 0) := by
  unfold vppermAborts
  rw [getD_map_range _ _ _ _ hi, getD_map_range _ _ _ _ hi]
  by_cases h : sliceAllUndef C 8 i
  · simp [h]
  · simp only [h, decide_False, Bool.not_false, if_false, shiftRight_five_and_seven,
      Bool.true_and, not_false_eq_true, true_and]
    by_cases h4 : permuteOp (sliceValue C 8 i) = 4 <;>
      by_cases h0 : permuteOp (sliceValue C 8 i) = 0 <;> simp [h4, h0]

theorem vppermEntry_eq (C : Constant) (n i : Nat) (hi : i < n) :
    vppermEntry ((List.range n).map fun i => decide (sliceAllUndef C 8 i))
      ((List.range n).map fun i => if sliceAllUndef C 8 i then 0 else sliceValue C 8 i) i
      = vppermSpec C i := by
  unfold vppermEntry vppermSpec
  rw [getD_map_range _ _ _ _ hi, getD_map_range _ _ _ _ hi]
  by_cases h : sliceAllUndef C 8 i
  · simp [h]
  · simp only [h, decide_False, Bool.false_eq_true, if_false, shiftRight_five_and_seven,
      beq_iff_eq]
    split_ifs
    · rfl
    · exact toInt_of_lt _ (by have := and_thirtyOne_lt (sliceValue C 8 i); omega)

/-- `DecodeVPPERMMask` on a decodable 128-bit constant: the extraction and the two asserts
pass, and the result is what the loop over the sixteen bytes leaves. -/
theorem DecodeVPPERMMask_intVector (C : Constant) (hC : C.IntVector = true)
    (hsize : C.getPrimitiveSizeInBits = 128) (ShuffleMask : List Int) :
    DecodeVPPERMMask C ShuffleMask =
      some (vppermLoop ((List.range 16).map fun i => decide (sliceAllUndef C 8 i))
        ((List.range 16).map fun i => if sliceAllUndef C 8 i then 0 else sliceValue C 8 i)
        16 0 ShuffleMask) := by
  have hdvd : 8 ∣ C.getPrimitiveSizeInBits := by rw [hsize]; decide
  have hex := extractConstantMask_size C 8 hC (by norm_num) hdvd
  rw [hsize] at hex
  norm_num at hex
  simp [DecodeVPPERMMask, hsize, hex]

theorem and_subU32_one (x n : Nat)
    (hn : n = 2 ∨ n = 4 ∨ n = 8 ∨ n = 16 ∨ n = 32 ∨ n = 64 ∨ n = 128) :
    x &&& subU32 n 1 = x % n := by
  rcases hn with rfl | rfl | rfl | rfl | rfl | rfl | rfl
  · exact Nat.and_pow_two_sub_one_eq_mod x 1
  · exact Nat.and_pow_two_sub_one_eq_mod x 2
  · exact Nat.and_pow_two_sub_one_eq_mod x 3
  · exact Nat.and_pow_two_sub_one_eq_mod x 4
  · exact Nat.and_pow_two_sub_one_eq_mod x 5
  · exact Nat.and_pow_two_sub_one_eq_mod x 6
  · exact Nat.and_pow_two_sub_one_eq_mod x 7

theorem vpermvLoop_eq (NumElts : Nat) (UndefElts : List Bool) (RawMask : List Nat)
    (n i : Nat) (ShuffleMask : List Int) :
    vpermvLoop NumElts UndefElts RawMask n i ShuffleMask =
      ShuffleMask ++ (List.range' i n).map (vpermvEntry NumElts UndefElts RawMask) := by
  induction n generalizing i ShuffleMask with
  | zero => simp [vpermvLoop]
  | succ n ih =>
    simp only [vpermvLoop, ih, List.range'_succ, List.map_cons, vpermvEntry]
    split_ifs <;> simp

theorem vpermv3Loop_eq (NumElts : Nat) (UndefElts : List Bool) (RawMask : List Nat)
    (n i : Nat) (ShuffleMask : List Int) :
    vpermv3Loop NumElts UndefElts RawMask n i ShuffleMask =
      ShuffleMask ++ (List.range' i n).map (vpermv3Entry NumElts UndefElts RawMask) := by
  induction n generalizing i ShuffleMask with
  | zero => simp [vpermv3Loop]
  | succ n ih =>
    simp only [vpermv3Loop, ih, List.range'_succ, List.map_cons, vpermv3Entry]
    split_ifs <;> simp

theorem vpermvEntry_eq (C : Constant) (ElSize n i : Nat) (hi : i < n)
    (hn : n = 2 ∨ n = 4 ∨ n = 8 ∨ n = 16 ∨ n = 32 ∨ n = 64) :
    vpermvEntry n ((List.range n).map fun i => decide (sliceAllUndef C ElSize i))
      ((List.range n).map fun i => if sliceAllUndef C ElSize i then 0 else sliceValue C ElSize i)
      i = vpermvSpec C ElSize n i := by
  unfold vpermvEntry vpermvSpec
  rw [getD_map_range _ _ _ _ hi, getD_map_range _ _ _ _ hi]
  by_cases h : sliceAllUndef C ElSize i
  · simp [h]
  · have hn' : n = 2 ∨ n = 4 ∨ n = 8 ∨ n = 16 ∨ n = 32 ∨ n = 64 ∨ n = 128 := by omega
    have hlt : sliceValue C ElSize i % n < n := Nat.mod_lt _ (by omega)
    simp only [h, decide_False, Bool.false_eq_true, if_false, and_subU32_one _ _ hn']
    exact toInt_of_lt _ (by omega)

theorem vpermv3Entry_eq (C : Constant) (ElSize n i : Nat) (hi : i < n)
    (hn : n = 2 ∨ n = 4 ∨ n = 8 ∨ n = 16 ∨ n = 32 ∨ n = 64) :
    vpermv3Entry n ((List.range n).map fun i => decide (sliceAllUndef C ElSize i))
      ((List.range n).map fun i => if sliceAllUndef C ElSize i then 0 else sliceValue C ElSize i)
      i = vpermvSpec C ElSize (2 * n) i := by
  unfold vpermv3Entry vpermvSpec
  rw [getD_map_range _ _ _ _ hi, getD_map_range _ _ _ _ hi]
  by_cases h : sliceAllUndef C ElSize i
  · simp [h]
  · have hn' : n * 2 = 2 ∨ n * 2 = 4 ∨ n * 2 = 8 ∨ n * 2 = 16 ∨ n * 2 = 32 ∨ n * 2 = 64 ∨
        n * 2 = 128 := by omega
    have hlt : sliceValue C ElSize i % (n * 2) < n * 2 := Nat.mod_lt _ (by omega)
    simp only [h, decide_False, Bool.false_eq_true, if_false, and_subU32_one _ _ hn',
      Nat.mul_comm 2 n]
    exact toInt_of_lt _ (by omega)

theorem crossLane_count (S ElSize : Nat) (hsize : S = 128 ∨ S = 256 ∨ S = 512)
    (hEl : ElSize = 8 ∨ ElSize = 16 ∨ ElSize = 32 ∨ ElSize = 64) :
    ElSize ∣ S ∧ ElSize ≤ 64 ∧
      (S / ElSize = 2 ∨ S / ElSize = 4 ∨ S / ElSize = 8 ∨ S / ElSize = 16 ∨
        S / ElSize = 32 ∨ S / ElSize = 64) := by
  rcases hsize with rfl | rfl | rfl <;> rcases hEl with rfl | rfl | rfl | rfl <;> decide

theorem DecodeVPERMVMask_intVector (C : Constant) (ElSize : Nat) (hC : C.IntVector = true)
    (hsize : C.getPrimitiveSizeInBits = 128 ∨ C.getPrimitiveSizeInBits = 256 ∨
      C.getPrimitiveSizeInBits = 512)
    (hEl : ElSize = 8 ∨ ElSize = 16 ∨ ElSize = 32 ∨ ElSize = 64) (ShuffleMask : List Int) :
    DecodeVPERMVMask C ElSize ShuffleMask =
      some (ShuffleMask ++ (List.range (C.getPrimitiveSizeInBits / ElSize)).map
        (vpermvSpec C ElSize (C.getPrimitiveSizeInBits / ElSize))) := by
  obtain ⟨hdvd, hM, hn⟩ := crossLane_count _ ElSize hsize hEl
  have hex := extractConstantMask_size C ElSize hC hM hdvd
  have hsz : (C.getPrimitiveSizeInBits == 128 || C.getPrimitiveSizeInBits == 256 ||
      C.getPrimitiveSizeInBits == 512) = true := by
    rcases hsize with h | h | h <;> rw [h] <;> decide
  have hel : (ElSize == 8 || ElSize == 16 || ElSize == 32 || ElSize == 64) = true := by
    rcases hEl with rfl | rfl | rfl | rfl <;> decide
  simp only [DecodeVPERMVMask, hsz, hel, hex, List.length_map, List.length_range,
    Bool.not_true, Bool.false_eq_true, if_false, vpermvLoop_eq, ← List.range_eq_range',
    Option.some.injEq, List.append_cancel_left_eq]
  apply List.map_congr_left
  intro i hi
  exact vpermvEntry_eq C ElSize _ i (List.mem_range.1 hi) hn

theorem DecodeVPERMV3Mask_intVector (C : Constant) (ElSize : Nat) (hC : C.IntVector = true)
    (hsize : C.getPrimitiveSizeInBits = 128 ∨ C.getPrimitiveSizeInBits = 256 ∨
      C.getPrimitiveSizeInBits = 512)
    (hEl : ElSize = 8 ∨ ElSize = 16 ∨ ElSize = 32 ∨ ElSize = 64) (ShuffleMask : List Int) :
    DecodeVPERMV3Mask C ElSize ShuffleMask =
      some (ShuffleMask ++ (List.range (C.getPrimitiveSizeInBits / ElSize)).map
        (vpermvSpec C ElSize (2 * (C.getPrimitiveSizeInBits / ElSize)))) := by
  obtain ⟨hdvd, hM, hn⟩ := crossLane_count _ ElSize hsize hEl
  have hex := extractConstantMask_size C ElSize hC hM hdvd
  have hsz : (C.getPrimitiveSizeInBits == 128 || C.getPrimitiveSizeInBits == 256 ||
      C.getPrimitiveSizeInBits == 512) = true := by
    rcases hsize with h | h | h <;> rw [h] <;> decide
  have hel : (ElSize == 8 || ElSize == 16 || ElSize == 32 || ElSize == 64) = true := by
    rcases hEl with rfl | rfl | rfl | rfl <;> decide
  simp only [DecodeVPERMV3Mask, hsz, hel, hex, List.length_map, List.length_range,
    Bool.not_true, Bool.false_eq_true, if_false, vpermv3Loop_eq, ← List.range_eq_range',
    Option.some.injEq, List.append_cancel_left_eq]
  apply List.map_congr_left
  intro i hi
  exact vpermv3Entry_eq C ElSize _ i (List.mem_range.1 hi) hn

/-! ## The decoders: the claims -/

/-- C1: on every 128-, 256- or 512-bit vector-of-integers constant whose elements are all
integer literals or undef, `DecodePSHUFBMask` with an empty output container produces one
entry per byte position `i`: `SM_SentinelUndef` if byte `i` is entirely undefined,
otherwise `SM_SentinelZero` if bit 7 of the byte is set, otherwise `i` rounded down to a
multiple of 16 plus `byte & 0xF`. In particular the 16-byte constant
`[0x00, 0x81, undef, 0x03, ..., 0x0F]` decodes to `[0, ZERO, UNDEF, 3, ..., 15]`. -/
theorem DecodePSHUFBMask_entries :
    (∀ C : Constant, C.IntVector = true →
      (C.getPrimitiveSizeInBits = 128 ∨ C.getPrimitiveSizeInBits = 256 ∨
        C.getPrimitiveSizeInBits = 512) →
      DecodePSHUFBMask C [] =
        some ((List.range (C.getPrimitiveSizeInBits / 8)).map fun i =>
          if sliceAllUndef C 8 i then SM_SentinelUndef
          else if (sliceValue C 8 i).testBit 7 then SM_SentinelZero
          else ((i / 16 * 16 + (sliceValue C 8 i &&& 0xF) : Nat) : Int))) ∧
    DecodePSHUFBMask exPshufb [] =
      some [0, SM_SentinelZero, SM_SentinelUndef, 3, 4, 5, 6, 7, 8, 9, 10, 11, 12, 13, 14, 15] := by
  refine ⟨fun C hC hsize => ?_, by decide⟩
  rw [DecodePSHUFBMask_intVector C hC hsize []]
  rfl

/-- C1, at the 16-byte constant of the claim: it is a 128-bit vector of integer literals
and undefs, and the general statement gives its sixteen entries. -/
theorem DecodePSHUFBMask_entries_witness :
    (exPshufb.IntVector = true ∧ exPshufb.getPrimitiveSizeInBits = 128) ∧
    DecodePSHUFBMask exPshufb [] =
      some ((List.range (exPshufb.getPrimitiveSizeInBits / 8)).map fun i =>
        if sliceAllUndef exPshufb 8 i then SM_SentinelUndef
        else if (sliceValue exPshufb 8 i).testBit 7 then SM_SentinelZero
        else ((i / 16 * 16 + (sliceValue exPshufb 8 i &&& 0xF) : Nat) : Int)) :=
  ⟨⟨by decide, by decide⟩,
    DecodePSHUFBMask_entries.1 exPshufb (by decide) (Or.inl (by decide))⟩

/-- C2: with `ElSize` 32 or 64, on every decodable 128-, 256- or 512-bit constant,
`DecodeVPERMILPMask` with an empty output container produces one entry per `ElSize`-bit
slice `i`: `SM_SentinelUndef` if the slice is entirely undefined, otherwise
`laneBase + localSelector`, where `laneBase` is `i` rounded down to a multiple of
`128 / ElSize` and `localSelector` is bit 1 of the raw value for 64-bit elements and bits
0-1 for 32-bit elements. In particular eight 32-bit elements all equal to 2 decode to
`[2, 2, 2, 2, 6, 6, 6, 6]`. -/
theorem DecodeVPERMILPMask_entries :
    (∀ (C : Constant) (ElSize : Nat), C.IntVector = true →
      (C.getPrimitiveSizeInBits = 128 ∨ C.getPrimitiveSizeInBits = 256 ∨
        C.getPrimitiveSizeInBits = 512) →
      (ElSize = 32 ∨ ElSize = 64) →
      DecodeVPERMILPMask C ElSize [] =
        some ((List.range (C.getPrimitiveSizeInBits / ElSize)).map fun i =>
          if sliceAllUndef C ElSize i then SM_SentinelUndef
          else ((i / (128 / ElSize) * (128 / ElSize) +
            (if ElSize = 64 then sliceValue C ElSize i / 2 % 2
              else sliceValue C ElSize i % 4) : Nat) : Int))) ∧
    DecodeVPERMILPMask exVpermilp 32 [] = some [2, 2, 2, 2, 6, 6, 6, 6] := by
  refine ⟨fun C ElSize hC hsize hEl => ?_, by decide⟩
  rw [DecodeVPERMILPMask_intVector C ElSize hC hsize hEl []]
  rfl

/-- C2, at the 256-bit constant of eight 32-bit elements equal to 2. -/
theorem DecodeVPERMILPMask_entries_witness :
    (exVpermilp.IntVector = true ∧ exVpermilp.getPrimitiveSizeInBits = 256) ∧
    DecodeVPERMILPMask exVpermilp 32 [] =
      some ((List.range (exVpermilp.getPrimitiveSizeInBits / 32)).map fun i =>
        if sliceAllUndef exVpermilp 32 i then SM_SentinelUndef
        else ((i / (128 / 32) * (128 / 32) +
          (if 32 = 64 then sliceValue exVpermilp 32 i / 2 % 2
            else sliceValue exVpermilp 32 i % 4) : Nat) : Int)) :=
  ⟨⟨by decide, by decide⟩,
    DecodeVPERMILPMask_entries.1 exVpermilp 32 (by decide) (Or.inr (Or.inl (by decide)))
      (Or.inl rfl)⟩

/-- C3: in `DecodeVPERMIL2PMask` (128- or 256-bit decodable constant, `ElSize` 32 or 64),
for every defined raw element and every `M2Z`, the emitted entry is `SM_SentinelZero` if
and only if bit 1 of `M2Z` is 1 and the match bit (bit 3 of the raw value) differs from
bit 0 of `M2Z`; in every other case the entry is a source index, a natural number, and so
not `SM_SentinelZero`. -/
theorem DecodeVPERMIL2PMask_zero_policy (C : Constant) (M2Z ElSize i : Nat)
    (hC : C.IntVector = true)
    (hsize : C.getPrimitiveSizeInBits = 128 ∨ C.getPrimitiveSizeInBits = 256)
    (hEl : ElSize = 32 ∨ ElSize = 64) (hi : i < C.getPrimitiveSizeInBits / ElSize)
    (hdef : ¬ sliceAllUndef C ElSize i) :
    ∃ mask, DecodeVPERMIL2PMask C M2Z ElSize [] = some mask ∧
      (mask[i]? = some SM_SentinelZero ↔
        (M2Z.testBit 1 = true ∧ (sliceValue C ElSize i).testBit 3 ≠ M2Z.testBit 0)) ∧
      (¬ (M2Z.testBit 1 = true ∧ (sliceValue C ElSize i).testBit 3 ≠ M2Z.testBit 0) →
        ∃ idx : Nat, mask[i]? = some (idx : Int) ∧ (idx : Int) ≠ SM_SentinelZero) := by
  refine ⟨_, DecodeVPERMIL2PMask_intVector C M2Z ElSize hC hsize hEl [], ?_, ?_⟩
  · rw [List.nil_append, vpermil2pSpec_getElem? _ _ _ _ _ hi]
    unfold vpermil2pSpec
    by_cases hz : m2zZeroes M2Z (sliceValue C ElSize i)
    · simp only [hdef, if_false, hz, if_true, true_iff]
      exact hz
    · simp only [hdef, if_false, hz, if_false, Option.some.injEq]
      constructor
      · intro h
        unfold SM_SentinelZero at h
        omega
      · intro h
        exact absurd h hz
  · intro hz
    have hz' : ¬ m2zZeroes M2Z (sliceValue C ElSize i) := hz
    refine ⟨laneBase ElSize i + localSelector ElSize (sliceValue C ElSize i) +
      sliceValue C ElSize i / 4 % 2 * (C.getPrimitiveSizeInBits / ElSize), ?_, ?_⟩
    · rw [List.nil_append, vpermil2pSpec_getElem? _ _ _ _ _ hi]
      unfold vpermil2pSpec
      simp only [hdef, if_false, hz']
    · unfold SM_SentinelZero
      omega

/-- C3, at `<4 x i32> <0, 8, 0, 8>` with `M2Z = 0b10`, element 1 (match bit set). -/
theorem DecodeVPERMIL2PMask_zero_policy_witness :
    (exMatchBits.IntVector = true ∧ exMatchBits.getPrimitiveSizeInBits = 128 ∧
      1 < exMatchBits.getPrimitiveSizeInBits / 32 ∧ ¬ sliceAllUndef exMatchBits 32 1) ∧
    ∃ mask, DecodeVPERMIL2PMask exMatchBits 2 32 [] = some mask ∧
      (mask[1]? = some SM_SentinelZero ↔
        (Nat.testBit 2 1 = true ∧ (sliceValue exMatchBits 32 1).testBit 3 ≠ Nat.testBit 2 0)) ∧
      (¬ (Nat.testBit 2 1 = true ∧ (sliceValue exMatchBits 32 1).testBit 3 ≠ Nat.testBit 2 0) →
        ∃ idx : Nat, mask[1]? = some (idx : Int) ∧ (idx : Int) ≠ SM_SentinelZero) :=
  ⟨⟨by decide, by decide, by decide, by decide⟩,
    DecodeVPERMIL2PMask_zero_policy exMatchBits 2 32 1 (by decide) (Or.inl (by decide))
      (Or.inl rfl) (by decide) (by decide)⟩

/-- C4, as stated, fails on `<4 x i32> <0, 8, 0, 8>`: with `M2Z = 0b10` the elements
with match bit 0 decode to a source index (0, not `SM_SentinelZero`) and the elements with
match bit 1 decode to `SM_SentinelZero`; with `M2Z = 0b11` the elements with match bit 0
decode to `SM_SentinelZero`. -/
theorem DecodeVPERMIL2PMask_m2z_cases_counterexample :
    (sliceValue exMatchBits 32 0).testBit 3 = false ∧
    (sliceValue exMatchBits 32 1).testBit 3 = true ∧
    DecodeVPERMIL2PMask exMatchBits 2 32 [] = some [0, SM_SentinelZero, 0, SM_SentinelZero] ∧
    DecodeVPERMIL2PMask exMatchBits 3 32 [] = some [SM_SentinelZero, 0, SM_SentinelZero, 0] ∧
    (0 : Int) ≠ SM_SentinelZero := by
  decide

/-- C4, amended: in `DecodeVPERMIL2PMask` (128- or 256-bit decodable constant, `ElSize` 32
or 64), for a defined raw element, (i) with `M2Z = 0b10` and match bit 0 the emitted entry
is a source index, not zero; (ii) with `M2Z = 0b11` and match bit 0 the emitted entry is
`SM_SentinelZero`; (iii) with `M2Z = 0b10` and match bit 1 the emitted entry is
`SM_SentinelZero`. -/
theorem DecodeVPERMIL2PMask_m2z_cases (C : Constant) (ElSize i : Nat)
    (hC : C.IntVector = true)
    (hsize : C.getPrimitiveSizeInBits = 128 ∨ C.getPrimitiveSizeInBits = 256)
    (hEl : ElSize = 32 ∨ ElSize = 64) (hi : i < C.getPrimitiveSizeInBits / ElSize)
    (hdef : ¬ sliceAllUndef C ElSize i) :
    ∃ mask10 mask11,
      DecodeVPERMIL2PMask C 0b10 ElSize [] = some mask10 ∧
      DecodeVPERMIL2PMask C 0b11 ElSize [] = some mask11 ∧
      ((sliceValue C ElSize i).testBit 3 = false →
        (∃ idx : Nat, mask10[i]? = some (idx : Int) ∧ (idx : Int) ≠ SM_SentinelZero) ∧
        mask11[i]? = some SM_SentinelZero) ∧
      ((sliceValue C ElSize i).testBit 3 = true → mask10[i]? = some SM_SentinelZero) := by
  refine ⟨_, _, DecodeVPERMIL2PMask_intVector C 2 ElSize hC hsize hEl [],
    DecodeVPERMIL2PMask_intVector C 3 ElSize hC hsize hEl [], ?_, ?_⟩
  · intro hm
    have h2 : ¬ m2zZeroes 2 (sliceValue C ElSize i) := by
      rw [m2zZeroes_two, hm]; simp
    have h3 : m2zZeroes 3 (sliceValue C ElSize i) := (m2zZeroes_three _).2 hm
    refine ⟨⟨laneBase ElSize i + localSelector ElSize (sliceValue C ElSize i) +
      sliceValue C ElSize i / 4 % 2 * (C.getPrimitiveSizeInBits / ElSize), ?_, ?_⟩, ?_⟩
    · rw [List.nil_append, vpermil2pSpec_getElem? _ _ _ _ _ hi]
      unfold vpermil2pSpec
      simp only [hdef, if_false, h2]
    · unfold SM_SentinelZero
      omega
    · rw [List.nil_append, vpermil2pSpec_getElem? _ _ _ _ _ hi]
      unfold vpermil2pSpec
      simp only [hdef, if_false, h3, if_true]
  · intro hm
    have h2 : m2zZeroes 2 (sliceValue C ElSize i) := (m2zZeroes_two _).2 hm
    rw [List.nil_append, vpermil2pSpec_getElem? _ _ _ _ _ hi]
    unfold vpermil2pSpec
    simp only [hdef, if_false, h2, if_true]

/-- C4 amended, at `<4 x i32> <0, 8, 0, 8>`, element 0 (match bit clear). -/
theorem DecodeVPERMIL2PMask_m2z_cases_witness :
    (exMatchBits.IntVector = true ∧ exMatchBits.getPrimitiveSizeInBits = 128 ∧
      0 < exMatchBits.getPrimitiveSizeInBits / 32 ∧ ¬ sliceAllUndef exMatchBits 32 0) ∧
    ∃ mask10 mask11,
      DecodeVPERMIL2PMask exMatchBits 0b10 32 [] = some mask10 ∧
      DecodeVPERMIL2PMask exMatchBits 0b11 32 [] = some mask11 ∧
      ((sliceValue exMatchBits 32 0).testBit 3 = false →
        (∃ idx : Nat, mask10[0]? = some (idx : Int) ∧ (idx : Int) ≠ SM_SentinelZero) ∧
        mask11[0]? = some SM_SentinelZero) ∧
      ((sliceValue exMatchBits 32 0).testBit 3 = true → mask10[0]? = some SM_SentinelZero) :=
  ⟨⟨by decide, by decide, by decide, by decide⟩,
    DecodeVPERMIL2PMask_m2z_cases exMatchBits 32 0 (by decide) (Or.inl (by decide))
      (Or.inl rfl) (by decide) (by decide)⟩

/-- C5: on every decodable 128-bit constant in which every defined byte has operation code
(bits 5-7) 0 or 4, `DecodeVPPERMMask` with an empty output container produces exactly 16
entries; entry `i` is `SM_SentinelUndef` if byte `i` is entirely undefined,
`SM_SentinelZero` if the operation code is 4, and otherwise the 5-bit index
`byte & 0x1F`. -/
theorem DecodeVPPERMMask_entries (C : Constant) (hC : C.IntVector = true)
    (hsize : C.getPrimitiveSizeInBits = 128)
    (hops : ∀ i, i < 16 → ¬ sliceAllUndef C 8 i →
      permuteOp (sliceValue C 8 i) = 0 ∨ permuteOp (sliceValue C 8 i) = 4) :
    ∃ mask, DecodeVPPERMMask C [] = some mask ∧ mask.length = 16 ∧
      ∀ i, i < 16 →
        mask[i]? = some
          (if sliceAllUndef C 8 i then SM_SentinelUndef
           else if permuteOp (sliceValue C 8 i) = 4 then SM_SentinelZero
           else ((sliceValue C 8 i &&& 0x1F : Nat) : Int)) := by
  have hok : ∀ j, 0 ≤ j → j < 0 + 16 →
      vppermAborts ((List.range 16).map fun i => decide (sliceAllUndef C 8 i))
        ((List.range 16).map fun i => if sliceAllUndef C 8 i then 0 else sliceValue C 8 i) j
        = false := by
    intro j _ hj
    have hj' : j < 16 := by omega
    rw [vppermAborts_eq C 16 j hj', decide_eq_false_iff_not]
    rintro ⟨hd, h4, h0⟩
    rcases hops j hj' hd with h | h
    · exact h0 h
    · exact h4 h
  have hloop := vppermLoop_eq _ _ 16 0 [] hok
  refine ⟨_, DecodeVPPERMMask_intVector C hC hsize [], ?_, ?_⟩
  · rw [hloop]; simp
  · intro i hi
    rw [hloop, List.nil_append, ← List.range_eq_range', List.getElem?_map,
      List.getElem?_range hi, Option.map_some', vppermEntry_eq C 16 i hi]
    rfl

/-- C5, at a 16-byte constant with operations 0 and 4 and one undef byte. -/
theorem DecodeVPPERMMask_entries_witness :
    (exVpperm.IntVector = true ∧ exVpperm.getPrimitiveSizeInBits = 128 ∧
      ∀ i, i < 16 → ¬ sliceAllUndef exVpperm 8 i →
        permuteOp (sliceValue exVpperm 8 i) = 0 ∨ permuteOp (sliceValue exVpperm 8 i) = 4) ∧
    DecodeVPPERMMask exVpperm [] =
      some [5, SM_SentinelZero, SM_SentinelUndef, 19, 20, 21, 22, 23, 24, 25, 26, 27, 28, 29,
        30, 31] ∧
    ∃ mask, DecodeVPPERMMask exVpperm [] = some mask ∧ mask.length = 16 ∧
      ∀ i, i < 16 →
        mask[i]? = some
          (if sliceAllUndef exVpperm 8 i then SM_SentinelUndef
           else if permuteOp (sliceValue exVpperm 8 i) = 4 then SM_SentinelZero
           else ((sliceValue exVpperm 8 i &&& 0x1F : Nat) : Int)) :=
  ⟨⟨by decide, by decide, by decide⟩, by decide,
    DecodeVPPERMMask_entries exVpperm (by decide) (by decide) (by decide)⟩

/-- C6: on every decodable 128-bit constant in which at least one defined byte, at any of
the 16 positions, has an operation code (bits 5-7) other than 0 and 4, the output mask
after `DecodeVPPERMMask` is empty, whatever the other bytes are and whatever the container
held before. -/
theorem DecodeVPPERMMask_abort (C : Constant) (ShuffleMask : List Int) (i : Nat)
    (hC : C.IntVector = true) (hsize : C.getPrimitiveSizeInBits = 128) (hi : i < 16)
    (hdef : ¬ sliceAllUndef C 8 i)
    (hop : permuteOp (sliceValue C 8 i) ≠ 0 ∧ permuteOp (sliceValue C 8 i) ≠ 4) :
    DecodeVPPERMMask C ShuffleMask = some [] := by
  rw [DecodeVPPERMMask_intVector C hC hsize ShuffleMask, vppermLoop_abort]
  refine ⟨i, Nat.zero_le _, by omega, ?_⟩
  rw [vppermAborts_eq C 16 i hi, decide_eq_true_eq]
  exact ⟨hdef, hop.2, hop.1⟩

/-- C6, at a 16-byte constant whose byte 7 is `0x23` (operation 1, invert). -/
theorem DecodeVPPERMMask_abort_witness :
    (exVppermInvert.IntVector = true ∧ exVppermInvert.getPrimitiveSizeInBits = 128 ∧
      ¬ sliceAllUndef exVppermInvert 8 7 ∧ permuteOp (sliceValue exVppermInvert 8 7) = 1) ∧
    DecodeVPPERMMask exVppermInvert [] = some [] :=
  ⟨⟨by decide, by decide, by decide, by decide⟩,
    DecodeVPPERMMask_abort exVppermInvert [] 7 (by decide) (by decide) (by decide)
      (by decide) (by decide)⟩

/-- C7: with `ElSize` in 8, 16, 32, 64, on every decodable 128-, 256- or 512-bit constant
with `count = totalBits / ElSize` slices, `DecodeVPERMVMask` emits for each defined slice
the raw value modulo `count` and `SM_SentinelUndef` for each entirely undefined slice; a
raw value exactly equal to `count` decodes to index 0, as in `<4 x i32> <4, 8, 5, undef>`,
which decodes to `[0, 0, 1, UNDEF]`. -/
theorem DecodeVPERMVMask_entries :
    (∀ (C : Constant) (ElSize : Nat), C.IntVector = true →
      (C.getPrimitiveSizeInBits = 128 ∨ C.getPrimitiveSizeInBits = 256 ∨
        C.getPrimitiveSizeInBits = 512) →
      (ElSize = 8 ∨ ElSize = 16 ∨ ElSize = 32 ∨ ElSize = 64) →
      ∃ mask, DecodeVPERMVMask C ElSize [] = some mask ∧
        mask = (List.range (C.getPrimitiveSizeInBits / ElSize)).map (fun i =>
          if sliceAllUndef C ElSize i then SM_SentinelUndef
          else ((sliceValue C ElSize i % (C.getPrimitiveSizeInBits / ElSize) : Nat) : Int)) ∧
        ∀ i, i < C.getPrimitiveSizeInBits / ElSize → ¬ sliceAllUndef C ElSize i →
          sliceValue C ElSize i = C.getPrimitiveSizeInBits / ElSize → mask[i]? = some 0) ∧
    DecodeVPERMVMask exWrap 32 [] = some [0, 0, 1, SM_SentinelUndef] := by
  refine ⟨fun C ElSize hC hsize hEl => ?_, by decide⟩
  refine ⟨_, DecodeVPERMVMask_intVector C ElSize hC hsize hEl [], rfl, ?_⟩
  intro i hi hdef hraw
  rw [List.nil_append, List.getElem?_map, List.getElem?_range hi, Option.map_some']
  unfold vpermvSpec
  rw [if_neg hdef, hraw, Nat.mod_self]
  rfl

/-- C7, at `<4 x i32> <4, 8, 5, undef>` with `ElSize = 32`. -/
theorem DecodeVPERMVMask_entries_witness :
    (exWrap.IntVector = true ∧ exWrap.getPrimitiveSizeInBits = 128) ∧
    ∃ mask, DecodeVPERMVMask exWrap 32 [] = some mask ∧
      mask = (List.range (exWrap.getPrimitiveSizeInBits / 32)).map (fun i =>
        if sliceAllUndef exWrap 32 i then SM_SentinelUndef
        else ((sliceValue exWrap 32 i % (exWrap.getPrimitiveSizeInBits / 32) : Nat) : Int)) ∧
      ∀ i, i < exWrap.getPrimitiveSizeInBits / 32 → ¬ sliceAllUndef exWrap 32 i →
        sliceValue exWrap 32 i = exWrap.getPrimitiveSizeInBits / 32 → mask[i]? = some 0 :=
  ⟨⟨by decide, by decide⟩,
    DecodeVPERMVMask_entries.1 exWrap 32 (by decide) (Or.inl (by decide))
      (Or.inr (Or.inr (Or.inl rfl)))⟩

/-- C8: with `ElSize` in 8, 16, 32, 64, on every decodable 128-, 256- or 512-bit constant
with `count = totalBits / ElSize` slices, `DecodeVPERMV3Mask` emits for each defined slice
the raw value modulo `2 * count` and `SM_SentinelUndef` for each entirely undefined slice;
a raw value exactly equal to `2 * count` decodes to index 0 and a raw value equal to
`count` decodes to `count`, as in `<4 x i32> <4, 8, 5, undef>`, which decodes to
`[4, 0, 5, UNDEF]`. -/
theorem DecodeVPERMV3Mask_entries :
    (∀ (C : Constant) (ElSize : Nat), C.IntVector = true →
      (C.getPrimitiveSizeInBits = 128 ∨ C.getPrimitiveSizeInBits = 256 ∨
        C.getPrimitiveSizeInBits = 512) →
      (ElSize = 8 ∨ ElSize = 16 ∨ ElSize = 32 ∨ ElSize = 64) →
      ∃ mask, DecodeVPERMV3Mask C ElSize [] = some mask ∧
        mask = (List.range (C.getPrimitiveSizeInBits / ElSize)).map (fun i =>
          if sliceAllUndef C ElSize i then SM_SentinelUndef
          else ((sliceValue C ElSize i % (2 * (C.getPrimitiveSizeInBits / ElSize)) : Nat)
            : Int)) ∧
        ∀ i, i < C.getPrimitiveSizeInBits / ElSize → ¬ sliceAllUndef C ElSize i →
          (sliceValue C ElSize i = 2 * (C.getPrimitiveSizeInBits / ElSize) →
            mask[i]? = some 0) ∧
          (sliceValue C ElSize i = C.getPrimitiveSizeInBits / ElSize →
            mask[i]? = some ((C.getPrimitiveSizeInBits / ElSize : Nat) : Int))) ∧
    DecodeVPERMV3Mask exWrap 32 [] = some [4, 0, 5, SM_SentinelUndef] := by
  refine ⟨fun C ElSize hC hsize hEl => ?_, by decide⟩
  obtain ⟨_, _, hn⟩ := crossLane_count _ ElSize hsize hEl
  refine ⟨_, DecodeVPERMV3Mask_intVector C ElSize hC hsize hEl [], rfl, ?_⟩
  intro i hi hdef
  rw [List.nil_append, List.getElem?_map, List.getElem?_range hi, Option.map_some']
  unfold vpermvSpec
  rw [if_neg hdef]
  constructor
  · intro hraw
    rw [hraw, Nat.mod_self]
    rfl
  · intro hraw
    rw [hraw, Nat.mod_eq_of_lt (by omega)]

/-- C8, at `<4 x i32> <4, 8, 5, undef>` with `ElSize = 32`. -/
theorem DecodeVPERMV3Mask_entries_witness :
    (exWrap.IntVector = true ∧ exWrap.getPrimitiveSizeInBits = 128) ∧
    ∃ mask, DecodeVPERMV3Mask exWrap 32 [] = some mask ∧
      mask = (List.range (exWrap.getPrimitiveSizeInBits / 32)).map (fun i =>
        if sliceAllUndef exWrap 32 i then SM_SentinelUndef
        else ((sliceValue exWrap 32 i % (2 * (exWrap.getPrimitiveSizeInBits / 32)) : Nat)
          : Int)) ∧
      ∀ i, i < exWrap.getPrimitiveSizeInBits / 32 → ¬ sliceAllUndef exWrap 32 i →
        (sliceValue exWrap 32 i = 2 * (exWrap.getPrimitiveSizeInBits / 32) →
          mask[i]? = some 0) ∧
        (sliceValue exWrap 32 i = exWrap.getPrimitiveSizeInBits / 32 →
          mask[i]? = some ((exWrap.getPrimitiveSizeInBits / 32 : Nat) : Int)) :=
  ⟨⟨by decide, by decide⟩,
    DecodeVPERMV3Mask_entries.1 exWrap 32 (by decide) (Or.inl (by decide))
      (Or.inr (Or.inr (Or.inl rfl)))⟩

/-! ## Failure of the extraction -/

theorem packElts_eq_none_iff (S W : Nat) (es : List Elt) (i UndefBits MaskBits : Nat) :
    packElts S W es i UndefBits MaskBits = none ↔ ∃ e ∈ es, e = Elt.other := by
  induction es generalizing i UndefBits MaskBits with
  | nil => simp [packElts]
  | cons e rest ih =>
    cases e with
    | other => simp [packElts]
    | UndefValue => simp [packElts, ih]
    | ConstantInt v => simp [packElts, ih]

theorem sliceLoop_length (UndefBits MaskBits M : Nat) (n i : Nat)
    (UndefElts : List Bool) (RawMask : List Nat) (U : List Bool) (R : List Nat)
    (h : sliceLoop UndefBits MaskBits M n i UndefElts RawMask = some (U, R)) :
    U.length = UndefElts.length + n ∧ R.length = RawMask.length + n := by
  induction n generalizing i UndefElts RawMask with
  | zero =>
    simp only [sliceLoop, Option.some.injEq, Prod.mk.injEq] at h
    obtain ⟨rfl, rfl⟩ := h
    simp
  | succ n ih =>
    simp only [sliceLoop] at h
    split at h
    · have := ih _ _ _ h
      simp only [List.length_append, List.length_singleton] at this
      omega
    · split at h
      · cases h
      · have := ih _ _ _ h
        simp only [List.length_append, List.length_singleton] at this
        omega

/-- When `extractConstantMask` returns true, both outputs have one entry per slice of the
requested width. -/
theorem extractConstantMask_decoded_length (C : Constant) (M : Nat) (U : List Bool)
    (R : List Nat) (h : extractConstantMask C M = some (.decoded U R)) :
    U.length = C.getPrimitiveSizeInBits / M ∧ R.length = C.getPrimitiveSizeInBits / M := by
  unfold extractConstantMask at h
  by_cases hvec : C.isVectorTy = true
  · by_cases hint : C.isIntegerEltTy = true
    · simp only [hvec, hint, Bool.not_true, Bool.false_eq_true, if_false] at h
      split at h
      · cases h
      · split at h
        · cases h
        · split at h
          · cases h
          · split at h
            · cases h
            · rename_i hs
              simp only [Option.some.injEq, Extracted.decoded.injEq] at h
              obtain ⟨rfl, rfl⟩ := h
              have := sliceLoop_length _ _ _ _ _ _ _ _ _ hs
              simpa using this
    · simp [hvec, hint] at h
  · simp [hvec] at h

/-- With a nonzero requested width of at most 64 bits that divides the size of the
constant, `extractConstantMask` returns: no assert fires. -/
theorem extractConstantMask_returns (C : Constant) (M : Nat) (hM0 : M ≠ 0) (hM : M ≤ 64)
    (hdvd : M ∣ C.getPrimitiveSizeInBits) :
    extractConstantMask C M = some .notDecodable ∨
      ∃ U R, extractConstantMask C M = some (.decoded U R) := by
  unfold extractConstantMask
  by_cases hvec : C.isVectorTy = true
  · by_cases hint : C.isIntegerEltTy = true
    · simp only [hvec, hint, Bool.not_true, Bool.false_eq_true, if_false]
      cases hp : packElts C.getPrimitiveSizeInBits C.getScalarSizeInBits C.Elts 0 0 0 with
      | none => left; rfl
      | some p =>
        right
        obtain ⟨UndefBits, MaskBits⟩ := p
        have hmod : C.getPrimitiveSizeInBits % M = 0 := Nat.mod_eq_zero_of_dvd hdvd
        simp [hM0, hmod, sliceLoop_eq _ _ _ hM]
    · left; simp [hvec, hint]
  · left; simp [hvec]

/-- A constant that is not a vector of integer literals and undefs. -/
theorem extractConstantMask_notDecodable_iff (C : Constant) (M : Nat) :
    extractConstantMask C M = some .notDecodable ↔
      (C.isVectorTy = false ∨ C.isIntegerEltTy = false ∨ ∃ e ∈ C.Elts, e = Elt.other) := by
  unfold extractConstantMask
  by_cases hvec : C.isVectorTy = true
  · by_cases hint : C.isIntegerEltTy = true
    · simp only [hvec, hint, Bool.not_true, Bool.false_eq_true, if_false, false_or]
      rw [← packElts_eq_none_iff C.getPrimitiveSizeInBits C.getScalarSizeInBits C.Elts 0 0 0]
      cases hp : packElts C.getPrimitiveSizeInBits C.getScalarSizeInBits C.Elts 0 0 0 with
      | none => simp
      | some p =>
        obtain ⟨UndefBits, MaskBits⟩ := p
        simp only [reduceCtorEq, iff_false]
        split_ifs
        · simp
        · simp
        · split <;> simp
    · simp [hvec, hint]
  · simp [hvec]

/-- C11: `extractConstantMask` returns false if and only if the constant is not a vector,
or its element type is not an integer type, or at least one of its elements is neither an
integer literal nor an undef marker; hence one such element at any position makes the whole
extraction fail, whatever the other elements are. -/
theorem extractConstantMask_fails_iff :
    (∀ (C : Constant) (M : Nat),
      extractConstantMask C M = some .notDecodable ↔
        (C.isVectorTy = false ∨ C.isIntegerEltTy = false ∨
          ∃ j : Nat, C.Elts[j]? = some Elt.other)) ∧
    (∀ (W M : Nat) (front back : List Elt),
      extractConstantMask ⟨true, true, W, front ++ Elt.other :: back⟩ M
        = some .notDecodable) := by
  have key : ∀ (C : Constant) (M : Nat),
      extractConstantMask C M = some .notDecodable ↔
        (C.isVectorTy = false ∨ C.isIntegerEltTy = false ∨
          ∃ j : Nat, C.Elts[j]? = some Elt.other) := by
    intro C M
    rw [extractConstantMask_notDecodable_iff]
    have : (∃ e ∈ C.Elts, e = Elt.other) ↔ ∃ j : Nat, C.Elts[j]? = some Elt.other := by
      constructor
      · rintro ⟨e, he, rfl⟩
        exact List.mem_iff_getElem?.1 he
      · rintro ⟨j, hj⟩
        exact ⟨_, List.getElem?_mem hj, rfl⟩
    rw [this]
  refine ⟨key, ?_⟩
  intro W M front back
  rw [key]
  right; right
  refine ⟨front.length, ?_⟩
  rw [List.getElem?_append_right (Nat.le_refl _), Nat.sub_self]
  simp

/-- C11, at concrete constants: a bad element in the middle of otherwise valid elements
fails the extraction, and a vector of literals and undefs does not fail. -/
theorem extractConstantMask_fails_iff_witness :
    extractConstantMask
      ⟨true, true, 32, [Elt.ConstantInt 1] ++ Elt.other :: [Elt.UndefValue, Elt.ConstantInt 2]⟩
      32 = some .notDecodable ∧
    extractConstantMask exTwoQuads 32 ≠ some .notDecodable :=
  ⟨extractConstantMask_fails_iff.2 32 32 [Elt.ConstantInt 1]
    [Elt.UndefValue, Elt.ConstantInt 2], by decide⟩

/-! ## The decoders on an arbitrary constant of an accepted size -/

theorem DecodePSHUFBMask_notDecodable (C : Constant) (P : List Int)
    (hsize : C.getPrimitiveSizeInBits = 128 ∨ C.getPrimitiveSizeInBits = 256 ∨
      C.getPrimitiveSizeInBits = 512)
    (h : extractConstantMask C 8 = some .notDecodable) :
    DecodePSHUFBMask C P = some P := by
  have hsz : (C.getPrimitiveSizeInBits == 128 || C.getPrimitiveSizeInBits == 256 ||
      C.getPrimitiveSizeInBits == 512) = true := by
    rcases hsize with h | h | h <;> rw [h] <;> decide
  simp [DecodePSHUFBMask, hsz, h]

theorem DecodePSHUFBMask_decoded (C : Constant) (P : List Int) (U : List Bool) (R : List Nat)
    (hsize : C.getPrimitiveSizeInBits = 128 ∨ C.getPrimitiveSizeInBits = 256 ∨
      C.getPrimitiveSizeInBits = 512)
    (h : extractConstantMask C 8 = some (.decoded U R)) :
    DecodePSHUFBMask C P =
      some (P ++ (List.range (C.getPrimitiveSizeInBits / 8)).map (pshufbEntry U R)) := by
  have hlen := (extractConstantMask_decoded_length C 8 U R h).2
  have hsz : (C.getPrimitiveSizeInBits == 128 || C.getPrimitiveSizeInBits == 256 ||
      C.getPrimitiveSizeInBits == 512) = true := by
    rcases hsize with h | h | h <;> rw [h] <;> decide
  have hcnt : (C.getPrimitiveSizeInBits / 8 == 16 || C.getPrimitiveSizeInBits / 8 == 32 ||
      C.getPrimitiveSizeInBits / 8 == 64) = true := by
    rcases hsize with h | h | h <;> rw [h] <;> decide
  simp only [DecodePSHUFBMask, hsz, h, hlen, hcnt, Bool.not_true, Bool.false_eq_true,
    if_false, pshufbLoop_eq, ← List.range_eq_range']

theorem DecodeVPERMILPMask_notDecodable (C : Constant) (ElSize : Nat) (P : List Int)
    (hsize : C.getPrimitiveSizeInBits = 128 ∨ C.getPrimitiveSizeInBits = 256 ∨
      C.getPrimitiveSizeInBits = 512) (hEl : ElSize = 32 ∨ ElSize = 64)
    (h : extractConstantMask C ElSize = some .notDecodable) :
    DecodeVPERMILPMask C ElSize P = some P := by
  have hsz : (C.getPrimitiveSizeInBits == 128 || C.getPrimitiveSizeInBits == 256 ||
      C.getPrimitiveSizeInBits == 512) = true := by
    rcases hsize with h | h | h <;> rw [h] <;> decide
  have hel : (ElSize == 32 || ElSize == 64) = true := by
    rcases hEl with rfl | rfl <;> decide
  simp [DecodeVPERMILPMask, hsz, hel, h]

theorem DecodeVPERMILPMask_decoded (C : Constant) (ElSize : Nat) (P : List Int)
    (U : List Bool) (R : List Nat)
    (hsize : C.getPrimitiveSizeInBits = 128 ∨ C.getPrimitiveSizeInBits = 256 ∨
      C.getPrimitiveSizeInBits = 512) (hEl : ElSize = 32 ∨ ElSize = 64)
    (h : extractConstantMask C ElSize = some (.decoded U R)) :
    DecodeVPERMILPMask C ElSize P =
      some (P ++ (List.range (C.getPrimitiveSizeInBits / ElSize)).map
        (vpermilpEntry ElSize (128 / ElSize) U R)) := by
  have hlen := (extractConstantMask_decoded_length C ElSize U R h).2
  have hsz : (C.getPrimitiveSizeInBits == 128 || C.getPrimitiveSizeInBits == 256 ||
      C.getPrimitiveSizeInBits == 512) = true := by
    rcases hsize with h | h | h <;> rw [h] <;> decide
  have hel : (ElSize == 32 || ElSize == 64) = true := by
    rcases hEl with rfl | rfl <;> decide
  have hcnt : (C.getPrimitiveSizeInBits / ElSize == 2 || C.getPrimitiveSizeInBits / ElSize == 4
      || C.getPrimitiveSizeInBits / ElSize == 8 || C.getPrimitiveSizeInBits / ElSize == 16)
      = true := by
    rcases hsize with h | h | h <;> rw [h] <;> rcases hEl with rfl | rfl <;> decide
  simp only [DecodeVPERMILPMask, hsz, hel, h, hlen, hcnt, Bool.not_true, Bool.false_eq_true,
    if_false, vpermilpLoop_eq, ← List.range_eq_range']

theorem DecodeVPERMIL2PMask_notDecodable (C : Constant) (M2Z ElSize : Nat) (P : List Int)
    (hsize : C.getPrimitiveSizeInBits = 128 ∨ C.getPrimitiveSizeInBits = 256)
    (h : extractConstantMask C ElSize = some .notDecodable) :
    DecodeVPERMIL2PMask C M2Z ElSize P = some P := by
  have hsz : (C.getPrimitiveSizeInBits == 128 || C.getPrimitiveSizeInBits == 256) = true := by
    rcases hsize with h | h <;> rw [h] <;> decide
  simp [DecodeVPERMIL2PMask, hsz, h]

theorem DecodeVPERMIL2PMask_decoded (C : Constant) (M2Z ElSize : Nat) (P : List Int)
    (U : List Bool) (R : List Nat)
    (hsize : C.getPrimitiveSizeInBits = 128 ∨ C.getPrimitiveSizeInBits = 256)
    (hEl : ElSize = 32 ∨ ElSize = 64)
    (h : extractConstantMask C ElSize = some (.decoded U R)) :
    DecodeVPERMIL2PMask C M2Z ElSize P =
      some (P ++ (List.range (C.getPrimitiveSizeInBits / ElSize)).map
        (vpermil2pEntry M2Z ElSize (C.getPrimitiveSizeInBits / ElSize) (128 / ElSize) U R)) := by
  have hlen := (extractConstantMask_decoded_length C ElSize U R h).2
  have hsz : (C.getPrimitiveSizeInBits == 128 || C.getPrimitiveSizeInBits == 256) = true := by
    rcases hsize with h | h <;> rw [h] <;> decide
  have hel : ElSize ≠ 0 := by rcases hEl with rfl | rfl <;> decide
  have hcnt : (C.getPrimitiveSizeInBits / ElSize == 2 || C.getPrimitiveSizeInBits / ElSize == 4
      || C.getPrimitiveSizeInBits / ElSize == 8) = true := by
    rcases hsize with h | h <;> rw [h] <;> rcases hEl with rfl | rfl <;> decide
  simp only [DecodeVPERMIL2PMask, hsz, hel, h, hlen, hcnt, Bool.not_true, Bool.false_eq_true,
    if_false, vpermil2pLoop_eq, ← List.range_eq_range']

theorem DecodeVPPERMMask_notDecodable (C : Constant) (P : List Int)
    (hsize : C.getPrimitiveSizeInBits = 128)
    (h : extractConstantMask C 8 = some .notDecodable) :
    DecodeVPPERMMask C P = some P := by
  simp [DecodeVPPERMMask, hsize, h]

theorem DecodeVPPERMMask_decoded (C : Constant) (P : List Int) (U : List Bool) (R : List Nat)
    (hsize : C.getPrimitiveSizeInBits = 128)
    (h : extractConstantMask C 8 = some (.decoded U R)) :
    DecodeVPPERMMask C P = some (vppermLoop U R 16 0 P) := by
  have hlen := (extractConstantMask_decoded_length C 8 U R h).2
  rw [hsize] at hlen
  norm_num at hlen
  simp [DecodeVPPERMMask, hsize, h, hlen]

theorem DecodeVPERMVMask_notDecodable (C : Constant) (ElSize : Nat) (P : List Int)
    (hsize : C.getPrimitiveSizeInBits = 128 ∨ C.getPrimitiveSizeInBits = 256 ∨
      C.getPrimitiveSizeInBits = 512)
    (hEl : ElSize = 8 ∨ ElSize = 16 ∨ ElSize = 32 ∨ ElSize = 64)
    (h : extractConstantMask C ElSize = some .notDecodable) :
    DecodeVPERMVMask C ElSize P = some P := by
  have hsz : (C.getPrimitiveSizeInBits == 128 || C.getPrimitiveSizeInBits == 256 ||
      C.getPrimitiveSizeInBits == 512) = true := by
    rcases hsize with h | h | h <;> rw [h] <;> decide
  have hel : (ElSize == 8 || ElSize == 16 || ElSize == 32 || ElSize == 64) = true := by
    rcases hEl with rfl | rfl | rfl | rfl <;> decide
  simp [DecodeVPERMVMask, hsz, hel, h]

theorem DecodeVPERMVMask_decoded (C : Constant) (ElSize : Nat) (P : List Int)
    (U : List Bool) (R : List Nat)
    (hsize : C.getPrimitiveSizeInBits = 128 ∨ C.getPrimitiveSizeInBits = 256 ∨
      C.getPrimitiveSizeInBits = 512)
    (hEl : ElSize = 8 ∨ ElSize = 16 ∨ ElSize = 32 ∨ ElSize = 64)
    (h : extractConstantMask C ElSize = some (.decoded U R)) :
    DecodeVPERMVMask C ElSize P =
      some (P ++ (List.range (C.getPrimitiveSizeInBits / ElSize)).map
        (vpermvEntry (C.getPrimitiveSizeInBits / ElSize) U R)) := by
  have hlen := (extractConstantMask_decoded_length C ElSize U R h).2
  have hsz : (C.getPrimitiveSizeInBits == 128 || C.getPrimitiveSizeInBits == 256 ||
      C.getPrimitiveSizeInBits == 512) = true := by
    rcases hsize with h | h | h <;> rw [h] <;> decide
  have hel : (ElSize == 8 || ElSize == 16 || ElSize == 32 || ElSize == 64) = true := by
    rcases hEl with rfl | rfl | rfl | rfl <;> decide
  simp only [DecodeVPERMVMask, hsz, hel, h, hlen, Bool.not_true, Bool.false_eq_true,
    if_false, vpermvLoop_eq, ← List.range_eq_range']

theorem DecodeVPERMV3Mask_notDecodable (C : Constant) (ElSize : Nat) (P : List Int)
    (hsize : C.getPrimitiveSizeInBits = 128 ∨ C.getPrimitiveSizeInBits = 256 ∨
      C.getPrimitiveSizeInBits = 512)
    (hEl : ElSize = 8 ∨ ElSize = 16 ∨ ElSize = 32 ∨ ElSize = 64)
    (h : extractConstantMask C ElSize = some .notDecodable) :
    DecodeVPERMV3Mask C ElSize P = some P := by
  have hsz : (C.getPrimitiveSizeInBits == 128 || C.getPrimitiveSizeInBits == 256 ||
      C.getPrimitiveSizeInBits == 512) = true := by
    rcases hsize with h | h | h <;> rw [h] <;> decide
  have hel : (ElSize == 8 || ElSize == 16 || ElSize == 32 || ElSize == 64) = true := by
    rcases hEl with rfl | rfl | rfl | rfl <;> decide
  simp [DecodeVPERMV3Mask, hsz, hel, h]

theorem DecodeVPERMV3Mask_decoded (C : Constant) (ElSize : Nat) (P : List Int)
    (U : List Bool) (R : List Nat)
    (hsize : C.getPrimitiveSizeInBits = 128 ∨ C.getPrimitiveSizeInBits = 256 ∨
      C.getPrimitiveSizeInBits = 512)
    (hEl : ElSize = 8 ∨ ElSize = 16 ∨ ElSize = 32 ∨ ElSize = 64)
    (h : extractConstantMask C ElSize = some (.decoded U R)) :
    DecodeVPERMV3Mask C ElSize P =
      some (P ++ (List.range (C.getPrimitiveSizeInBits / ElSize)).map
        (vpermv3Entry (C.getPrimitiveSizeInBits / ElSize) U R)) := by
  have hlen := (extractConstantMask_decoded_length C ElSize U R h).2
  have hsz : (C.getPrimitiveSizeInBits == 128 || C.getPrimitiveSizeInBits == 256 ||
      C.getPrimitiveSizeInBits == 512) = true := by
    rcases hsize with h | h | h <;> rw [h] <;> decide
  have hel : (ElSize == 8 || ElSize == 16 || ElSize == 32 || ElSize == 64) = true := by
    rcases hEl with rfl | rfl | rfl | rfl <;> decide
  simp only [DecodeVPERMV3Mask, hsz, hel, h, hlen, Bool.not_true, Bool.false_eq_true,
    if_false, vpermv3Loop_eq, ← List.range_eq_range']

/-- The extraction returns for the byte decoders on a constant of an accepted size. -/
theorem extractConstantMask_returns_byte (C : Constant)
    (hsize : C.getPrimitiveSizeInBits = 128 ∨ C.getPrimitiveSizeInBits = 256 ∨
      C.getPrimitiveSizeInBits = 512) :
    extractConstantMask C 8 = some .notDecodable ∨
      ∃ U R, extractConstantMask C 8 = some (.decoded U R) := by
  apply extractConstantMask_returns C 8 (by decide) (by decide)
  rcases hsize with h | h | h <;> rw [h] <;> decide

/-- The extraction returns for the cross-lane decoders on a constant of an accepted size
at an accepted element width. -/
theorem extractConstantMask_returns_elt (C : Constant) (ElSize : Nat)
    (hsize : C.getPrimitiveSizeInBits = 128 ∨ C.getPrimitiveSizeInBits = 256 ∨
      C.getPrimitiveSizeInBits = 512)
    (hEl : ElSize = 8 ∨ ElSize = 16 ∨ ElSize = 32 ∨ ElSize = 64) :
    extractConstantMask C ElSize = some .notDecodable ∨
      ∃ U R, extractConstantMask C ElSize = some (.decoded U R) := by
  obtain ⟨hdvd, hM, _⟩ := crossLane_count _ ElSize hsize hEl
  apply extractConstantMask_returns C ElSize _ hM hdvd
  rcases hEl with rfl | rfl | rfl | rfl <;> decide

theorem vppermLoop_length (U : List Bool) (R : List Nat) (n i : Nat) (P : List Int)
    (hok : ∀ j, i ≤ j → j < i + n → vppermAborts U R j = false) :
    (vppermLoop U R n i P).length = P.length + n := by
  rw [vppermLoop_eq U R n i P hok]
  simp

/-! ## Mask length and frame -/

/-- C12: every decoder, called with an empty output container on a constant satisfying its
size preconditions, returns a mask whose length is 0 or exactly
`totalBits / requestedElementWidth` (8 for the byte decoders, `ElSize` otherwise); the
length is exactly `totalBits / requestedElementWidth` whenever the extraction succeeds,
except that `DecodeVPPERMMask` returns length 0 when an iteration aborts. -/
theorem decoders_length_all_or_nothing :
    (∀ C : Constant,
      (C.getPrimitiveSizeInBits = 128 ∨ C.getPrimitiveSizeInBits = 256 ∨
        C.getPrimitiveSizeInBits = 512) →
      ∃ mask, DecodePSHUFBMask C [] = some mask ∧
        (mask.length = 0 ∨ mask.length = C.getPrimitiveSizeInBits / 8) ∧
        ((∃ U R, extractConstantMask C 8 = some (.decoded U R)) →
          mask.length = C.getPrimitiveSizeInBits / 8)) ∧
    (∀ (C : Constant) (ElSize : Nat),
      (C.getPrimitiveSizeInBits = 128 ∨ C.getPrimitiveSizeInBits = 256 ∨
        C.getPrimitiveSizeInBits = 512) → (ElSize = 32 ∨ ElSize = 64) →
      ∃ mask, DecodeVPERMILPMask C ElSize [] = some mask ∧
        (mask.length = 0 ∨ mask.length = C.getPrimitiveSizeInBits / ElSize) ∧
        ((∃ U R, extractConstantMask C ElSize = some (.decoded U R)) →
          mask.length = C.getPrimitiveSizeInBits / ElSize)) ∧
    (∀ (C : Constant) (M2Z ElSize : Nat),
      (C.getPrimitiveSizeInBits = 128 ∨ C.getPrimitiveSizeInBits = 256) →
      (ElSize = 32 ∨ ElSize = 64) →
      ∃ mask, DecodeVPERMIL2PMask C M2Z ElSize [] = some mask ∧
        (mask.length = 0 ∨ mask.length = C.getPrimitiveSizeInBits / ElSize) ∧
        ((∃ U R, extractConstantMask C ElSize = some (.decoded U R)) →
          mask.length = C.getPrimitiveSizeInBits / ElSize)) ∧
    (∀ C : Constant, C.getPrimitiveSizeInBits = 128 →
      ∃ mask, DecodeVPPERMMask C [] = some mask ∧
        (mask.length = 0 ∨ mask.length = C.getPrimitiveSizeInBits / 8) ∧
        (∀ U R, extractConstantMask C 8 = some (.decoded U R) →
          ((∀ j, j < 16 → vppermAborts U R j = false) →
            mask.length = C.getPrimitiveSizeInBits / 8) ∧
          ((∃ j, j < 16 ∧ vppermAborts U R j = true) → mask.length = 0))) ∧
    (∀ (C : Constant) (ElSize : Nat),
      (C.getPrimitiveSizeInBits = 128 ∨ C.getPrimitiveSizeInBits = 256 ∨
        C.getPrimitiveSizeInBits = 512) →
      (ElSize = 8 ∨ ElSize = 16 ∨ ElSize = 32 ∨ ElSize = 64) →
      ∃ mask, DecodeVPERMVMask C ElSize [] = some mask ∧
        (mask.length = 0 ∨ mask.length = C.getPrimitiveSizeInBits / ElSize) ∧
        ((∃ U R, extractConstantMask C ElSize = some (.decoded U R)) →
          mask.length = C.getPrimitiveSizeInBits / ElSize)) ∧
    (∀ (C : Constant) (ElSize : Nat),
      (C.getPrimitiveSizeInBits = 128 ∨ C.getPrimitiveSizeInBits = 256 ∨
        C.getPrimitiveSizeInBits = 512) →
      (ElSize = 8 ∨ ElSize = 16 ∨ ElSize = 32 ∨ ElSize = 64) →
      ∃ mask, DecodeVPERMV3Mask C ElSize [] = some mask ∧
        (mask.length = 0 ∨ mask.length = C.getPrimitiveSizeInBits / ElSize) ∧
        ((∃ U R, extractConstantMask C ElSize = some (.decoded U R)) →
          mask.length = C.getPrimitiveSizeInBits / ElSize)) := by
  refine ⟨?_, ?_, ?_, ?_, ?_, ?_⟩
  · intro C hsize
    rcases extractConstantMask_returns_byte C hsize with h | ⟨U, R, h⟩
    · refine ⟨_, DecodePSHUFBMask_notDecodable C [] hsize h, Or.inl rfl, ?_⟩
      rintro ⟨U, R, h'⟩
      rw [h] at h'
      cases h'
    · refine ⟨_, DecodePSHUFBMask_decoded C [] U R hsize h, Or.inr (by simp), ?_⟩
      intro _
      simp
  · intro C ElSize hsize hEl
    have hEl' : ElSize = 8 ∨ ElSize = 16 ∨ ElSize = 32 ∨ ElSize = 64 := by omega
    rcases extractConstantMask_returns_elt C ElSize hsize hEl' with h | ⟨U, R, h⟩
    · refine ⟨_, DecodeVPERMILPMask_notDecodable C ElSize [] hsize hEl h, Or.inl rfl, ?_⟩
      rintro ⟨U, R, h'⟩
      rw [h] at h'
      cases h'
    · refine ⟨_, DecodeVPERMILPMask_decoded C ElSize [] U R hsize hEl h, Or.inr (by simp), ?_⟩
      intro _
      simp
  · intro C M2Z ElSize hsize hEl
    have hEl' : ElSize = 8 ∨ ElSize = 16 ∨ ElSize = 32 ∨ ElSize = 64 := by omega
    have hsize' : C.getPrimitiveSizeInBits = 128 ∨ C.getPrimitiveSizeInBits = 256 ∨
        C.getPrimitiveSizeInBits = 512 := by omega
    rcases extractConstantMask_returns_elt C ElSize hsize' hEl' with h | ⟨U, R, h⟩
    · refine ⟨_, DecodeVPERMIL2PMask_notDecodable C M2Z ElSize [] hsize h, Or.inl rfl, ?_⟩
      rintro ⟨U, R, h'⟩
      rw [h] at h'
      cases h'
    · refine ⟨_, DecodeVPERMIL2PMask_decoded C M2Z ElSize [] U R hsize hEl h,
        Or.inr (by simp), ?_⟩
      intro _
      simp
  · intro C hsize
    rcases extractConstantMask_returns_byte C (Or.inl hsize) with h | ⟨U, R, h⟩
    · refine ⟨_, DecodeVPPERMMask_notDecodable C [] hsize h, Or.inl rfl, ?_⟩
      intro U R h'
      rw [h] at h'
      cases h'
    · have hfull : (∀ j, j < 16 → vppermAborts U R j = false) →
          (vppermLoop U R 16 0 []).length = C.getPrimitiveSizeInBits / 8 := by
        intro hok
        rw [vppermLoop_length U R 16 0 [] (fun j _ hj => hok j (by omega)), hsize]
        rfl
      have hempty : (∃ j, j < 16 ∧ vppermAborts U R j = true) →
          (vppermLoop U R 16 0 []).length = 0 := by
        rintro ⟨j, hj, hbad⟩
        rw [vppermLoop_abort U R 16 0 [] ⟨j, Nat.zero_le _, by omega, hbad⟩]
        rfl
      refine ⟨_, DecodeVPPERMMask_decoded C [] U R hsize h, ?_, ?_⟩
      · by_cases hex : ∃ j, j < 16 ∧ vppermAborts U R j = true
        · exact Or.inl (hempty hex)
        · right
          apply hfull
          intro j hj
          by_contra hne
          exact hex ⟨j, hj, by simpa using hne⟩
      · intro U' R' h'
        rw [h] at h'
        simp only [Option.some.injEq, Extracted.decoded.injEq] at h'
        obtain ⟨rfl, rfl⟩ := h'
        exact ⟨hfull, hempty⟩
  · intro C ElSize hsize hEl
    rcases extractConstantMask_returns_elt C ElSize hsize hEl with h | ⟨U, R, h⟩
    · refine ⟨_, DecodeVPERMVMask_notDecodable C ElSize [] hsize hEl h, Or.inl rfl, ?_⟩
      rintro ⟨U, R, h'⟩
      rw [h] at h'
      cases h'
    · refine ⟨_, DecodeVPERMVMask_decoded C ElSize [] U R hsize hEl h, Or.inr (by simp), ?_⟩
      intro _
      simp
  · intro C ElSize hsize hEl
    rcases extractConstantMask_returns_elt C ElSize hsize hEl with h | ⟨U, R, h⟩
    · refine ⟨_, DecodeVPERMV3Mask_notDecodable C ElSize [] hsize hEl h, Or.inl rfl, ?_⟩
      rintro ⟨U, R, h'⟩
      rw [h] at h'
      cases h'
    · refine ⟨_, DecodeVPERMV3Mask_decoded C ElSize [] U R hsize hEl h, Or.inr (by simp), ?_⟩
      intro _
      simp

/-- C12, at `<4 x i32> <4, 8, 5, undef>` decoded by `DecodeVPERMVMask` at 32 bits: four
entries. -/
theorem decoders_length_all_or_nothing_witness :
    (exWrap.getPrimitiveSizeInBits = 128 ∧ exWrap.getPrimitiveSizeInBits / 32 = 4) ∧
    ∃ mask, DecodeVPERMVMask exWrap 32 [] = some mask ∧
      (mask.length = 0 ∨ mask.length = exWrap.getPrimitiveSizeInBits / 32) ∧
      ((∃ U R, extractConstantMask exWrap 32 = some (.decoded U R)) →
        mask.length = exWrap.getPrimitiveSizeInBits / 32) :=
  ⟨⟨by decide, by decide⟩,
    decoders_length_all_or_nothing.2.2.2.2.1 exWrap 32 (Or.inl (by decide))
      (Or.inr (Or.inr (Or.inl rfl)))⟩

theorem extractConstantMask_notIntVector (C : Constant) (M : Nat) (hC : C.notIntVector) :
    extractConstantMask C M = some .notDecodable := by
  rw [extractConstantMask_notDecodable_iff]
  rcases hC with h | h | ⟨j, hj⟩
  · exact Or.inl h
  · exact Or.inr (Or.inl h)
  · exact Or.inr (Or.inr ⟨_, List.getElem?_mem hj, rfl⟩)

/-- C14, as stated, fails in the abort case of `DecodeVPPERMMask`: on a constant whose
byte 7 has operation 1, a container holding `[1, 2, 3]` on entry is empty afterwards, not
`[1, 2, 3]`. -/
theorem decoders_frame_counterexample :
    (exVppermInvert.IntVector = true ∧ exVppermInvert.getPrimitiveSizeInBits = 128 ∧
      ¬ sliceAllUndef exVppermInvert 8 7 ∧ permuteOp (sliceValue exVppermInvert 8 7) = 1) ∧
    DecodeVPPERMMask exVppermInvert [1, 2, 3] = some [] ∧
    DecodeVPPERMMask exVppermInvert [1, 2, 3] ≠ some [1, 2, 3] := by
  decide

/-- C14, amended: for every decoder and every initial content `P` of the output container,
when the extraction fails the call appends nothing and the container equals `P`
afterwards; in the abort case of `DecodeVPPERMMask` the whole container is cleared, so it
is empty afterwards whatever `P` was. -/
theorem decoders_frame (C : Constant) (P : List Int) :
    ((C.getPrimitiveSizeInBits = 128 ∨ C.getPrimitiveSizeInBits = 256 ∨
        C.getPrimitiveSizeInBits = 512) →
      extractConstantMask C 8 = some .notDecodable → DecodePSHUFBMask C P = some P) ∧
    (∀ ElSize, (C.getPrimitiveSizeInBits = 128 ∨ C.getPrimitiveSizeInBits = 256 ∨
        C.getPrimitiveSizeInBits = 512) → (ElSize = 32 ∨ ElSize = 64) →
      extractConstantMask C ElSize = some .notDecodable →
      DecodeVPERMILPMask C ElSize P = some P) ∧
    (∀ M2Z ElSize, (C.getPrimitiveSizeInBits = 128 ∨ C.getPrimitiveSizeInBits = 256) →
      extractConstantMask C ElSize = some .notDecodable →
      DecodeVPERMIL2PMask C M2Z ElSize P = some P) ∧
    (C.getPrimitiveSizeInBits = 128 → extractConstantMask C 8 = some .notDecodable →
      DecodeVPPERMMask C P = some P) ∧
    (∀ ElSize, (C.getPrimitiveSizeInBits = 128 ∨ C.getPrimitiveSizeInBits = 256 ∨
        C.getPrimitiveSizeInBits = 512) →
      (ElSize = 8 ∨ ElSize = 16 ∨ ElSize = 32 ∨ ElSize = 64) →
      extractConstantMask C ElSize = some .notDecodable →
      DecodeVPERMVMask C ElSize P = some P) ∧
    (∀ ElSize, (C.getPrimitiveSizeInBits = 128 ∨ C.getPrimitiveSizeInBits = 256 ∨
        C.getPrimitiveSizeInBits = 512) →
      (ElSize = 8 ∨ ElSize = 16 ∨ ElSize = 32 ∨ ElSize = 64) →
      extractConstantMask C ElSize = some .notDecodable →
      DecodeVPERMV3Mask C ElSize P = some P) ∧
    (C.getPrimitiveSizeInBits = 128 →
      ∀ U R, extractConstantMask C 8 = some (.decoded U R) →
        (∃ j, j < 16 ∧ vppermAborts U R j = true) → DecodeVPPERMMask C P = some []) := by
  refine ⟨?_, ?_, ?_, ?_, ?_, ?_, ?_⟩
  · exact fun hsize h => DecodePSHUFBMask_notDecodable C P hsize h
  · exact fun ElSize hsize hEl h => DecodeVPERMILPMask_notDecodable C ElSize P hsize hEl h
  · exact fun M2Z ElSize hsize h => DecodeVPERMIL2PMask_notDecodable C M2Z ElSize P hsize h
  · exact fun hsize h => DecodeVPPERMMask_notDecodable C P hsize h
  · exact fun ElSize hsize hEl h => DecodeVPERMVMask_notDecodable C ElSize P hsize hEl h
  · exact fun ElSize hsize hEl h => DecodeVPERMV3Mask_notDecodable C ElSize P hsize hEl h
  · rintro hsize U R h ⟨j, hj, hbad⟩
    rw [DecodeVPPERMMask_decoded C P U R hsize h,
      vppermLoop_abort U R 16 0 P ⟨j, Nat.zero_le _, by omega, hbad⟩]

/-- C14 amended, at `<4 x float>` with the container holding `[1, 2, 3]`: the extraction
fails and the container is left as it was. -/
theorem decoders_frame_witness :
    (exFourFloats.getPrimitiveSizeInBits = 128 ∧
      extractConstantMask exFourFloats 8 = some .notDecodable) ∧
    DecodePSHUFBMask exFourFloats [1, 2, 3] = some [1, 2, 3] :=
  ⟨⟨by decide, by decide⟩,
    (decoders_frame exFourFloats [1, 2, 3]).1 (Or.inl (by decide)) (by decide)⟩

/-! ## The asserts on the shape -/

theorem beq_or2 (n a b : Nat) : (n == a || n == b) = true ↔ (n = a ∨ n = b) := by
  simp

theorem beq_or3 (n a b c : Nat) :
    (n == a || n == b || n == c) = true ↔ (n = a ∨ n = b ∨ n = c) := by
  simp [or_assoc]

theorem beq_or4 (n a b c d : Nat) :
    (n == a || n == b || n == c || n == d) = true ↔ (n = a ∨ n = b ∨ n = c ∨ n = d) := by
  simp [or_assoc]

theorem DecodePSHUFBMask_bad_size (C : Constant) (P : List Int)
    (h : ¬ (C.getPrimitiveSizeInBits = 128 ∨ C.getPrimitiveSizeInBits = 256 ∨
      C.getPrimitiveSizeInBits = 512)) :
    DecodePSHUFBMask C P = none := by
  have hsz : (C.getPrimitiveSizeInBits == 128 || C.getPrimitiveSizeInBits == 256 ||
      C.getPrimitiveSizeInBits == 512) = false :=
    Bool.eq_false_iff.2 fun hb => h ((beq_or3 _ _ _ _).1 hb)
  simp [DecodePSHUFBMask, hsz]

theorem DecodeVPERMILPMask_bad_shape (C : Constant) (ElSize : Nat) (P : List Int)
    (h : ¬ ((C.getPrimitiveSizeInBits = 128 ∨ C.getPrimitiveSizeInBits = 256 ∨
      C.getPrimitiveSizeInBits = 512) ∧ (ElSize = 32 ∨ ElSize = 64))) :
    DecodeVPERMILPMask C ElSize P = none := by
  unfold DecodeVPERMILPMask
  by_cases hsz : (C.getPrimitiveSizeInBits == 128 || C.getPrimitiveSizeInBits == 256 ||
      C.getPrimitiveSizeInBits == 512) = true
  · by_cases hel : (ElSize == 32 || ElSize == 64) = true
    · exact absurd ⟨(beq_or3 _ _ _ _).1 hsz, (beq_or2 _ _ _).1 hel⟩ h
    · simp [hsz, hel]
  · simp [hsz]

theorem DecodeVPERMIL2PMask_bad_size (C : Constant) (M2Z ElSize : Nat) (P : List Int)
    (h : ¬ (C.getPrimitiveSizeInBits = 128 ∨ C.getPrimitiveSizeInBits = 256)) :
    DecodeVPERMIL2PMask C M2Z ElSize P = none := by
  have hsz : (C.getPrimitiveSizeInBits == 128 || C.getPrimitiveSizeInBits == 256) = false :=
    Bool.eq_false_iff.2 fun hb => h ((beq_or2 _ _ _).1 hb)
  simp [DecodeVPERMIL2PMask, hsz]

theorem DecodeVPERMIL2PMask_bad_count (C : Constant) (M2Z ElSize : Nat) (P : List Int)
    (U : List Bool) (R : List Nat)
    (hex : extractConstantMask C ElSize = some (.decoded U R))
    (h : ¬ (C.getPrimitiveSizeInBits / ElSize = 2 ∨ C.getPrimitiveSizeInBits / ElSize = 4 ∨
      C.getPrimitiveSizeInBits / ElSize = 8)) :
    DecodeVPERMIL2PMask C M2Z ElSize P = none := by
  have hlen := (extractConstantMask_decoded_length C ElSize U R hex).2
  have hcnt : (C.getPrimitiveSizeInBits / ElSize == 2 || C.getPrimitiveSizeInBits / ElSize == 4
      || C.getPrimitiveSizeInBits / ElSize == 8) = false :=
    Bool.eq_false_iff.2 fun hb => h ((beq_or3 _ _ _ _).1 hb)
  unfold DecodeVPERMIL2PMask
  simp only [hex, hlen, hcnt, Bool.not_false, if_true]
  split_ifs <;> rfl

theorem DecodeVPPERMMask_bad_size (C : Constant) (P : List Int)
    (h : C.getPrimitiveSizeInBits ≠ 128) : DecodeVPPERMMask C P = none := by
  simp [DecodeVPPERMMask, h]

theorem DecodeVPERMVMask_bad_shape (C : Constant) (ElSize : Nat) (P : List Int)
    (h : ¬ ((C.getPrimitiveSizeInBits = 128 ∨ C.getPrimitiveSizeInBits = 256 ∨
      C.getPrimitiveSizeInBits = 512) ∧
      (ElSize = 8 ∨ ElSize = 16 ∨ ElSize = 32 ∨ ElSize = 64))) :
    DecodeVPERMVMask C ElSize P = none := by
  unfold DecodeVPERMVMask
  by_cases hsz : (C.getPrimitiveSizeInBits == 128 || C.getPrimitiveSizeInBits == 256 ||
      C.getPrimitiveSizeInBits == 512) = true
  · by_cases hel : (ElSize == 8 || ElSize == 16 || ElSize == 32 || ElSize == 64) = true
    · exact absurd ⟨(beq_or3 _ _ _ _).1 hsz, (beq_or4 _ _ _ _ _).1 hel⟩ h
    · simp [hsz, hel]
  · simp [hsz]

theorem DecodeVPERMV3Mask_bad_shape (C : Constant) (ElSize : Nat) (P : List Int)
    (h : ¬ ((C.getPrimitiveSizeInBits = 128 ∨ C.getPrimitiveSizeInBits = 256 ∨
      C.getPrimitiveSizeInBits = 512) ∧
      (ElSize = 8 ∨ ElSize = 16 ∨ ElSize = 32 ∨ ElSize = 64))) :
    DecodeVPERMV3Mask C ElSize P = none := by
  unfold DecodeVPERMV3Mask
  by_cases hsz : (C.getPrimitiveSizeInBits == 128 || C.getPrimitiveSizeInBits == 256 ||
      C.getPrimitiveSizeInBits == 512) = true
  · by_cases hel : (ElSize == 8 || ElSize == 16 || ElSize == 32 || ElSize == 64) = true
    · exact absurd ⟨(beq_or3 _ _ _ _).1 hsz, (beq_or4 _ _ _ _ _).1 hel⟩ h
    · simp [hsz, hel]
  · simp [hsz]

theorem size_not_accepted_of_count (C : Constant) (hvec : C.isVectorTy = true)
    (hcount : ¬ ∃ k, C.Elts.length = 2 ^ k) :
    ¬ (C.getPrimitiveSizeInBits = 128 ∨ C.getPrimitiveSizeInBits = 256 ∨
      C.getPrimitiveSizeInBits = 512) := by
  intro hsize
  apply hcount
  have hS : C.getPrimitiveSizeInBits = C.Elts.length * C.ScalarSizeInBits := by
    simp [Constant.getPrimitiveSizeInBits, hvec]
  have hpow : ∃ n, C.Elts.length * C.ScalarSizeInBits = 2 ^ n := by
    rcases hsize with h | h | h
    · exact ⟨7, by rw [← hS, h]; norm_num⟩
    · exact ⟨8, by rw [← hS, h]; norm_num⟩
    · exact ⟨9, by rw [← hS, h]; norm_num⟩
  obtain ⟨n, hn⟩ := hpow
  have hdvd : C.Elts.length ∣ 2 ^ n := ⟨C.ScalarSizeInBits, hn.symm⟩
  obtain ⟨k, _, hk⟩ := (Nat.dvd_prime_pow Nat.prime_two).1 hdvd
  exact ⟨k, hk⟩

/-! ## What a returned mask looks like -/

theorem and_fifteen (x : Nat) : x &&& 0xf = x % 16 := by
  have := Nat.and_pow_two_sub_one_eq_mod x 4
  norm_num at this
  exact this

theorem and_thirtyOne (x : Nat) : x &&& 0x1F = x % 32 := by
  have := Nat.and_pow_two_sub_one_eq_mod x 5
  norm_num at this
  exact this

theorem pshufbEntry_cases (U : List Bool) (R : List Nat) (i : Nat) (hi : i < 64) :
    pshufbEntry U R i = SM_SentinelUndef ∨ pshufbEntry U R i = SM_SentinelZero ∨
      ∃ idx : Nat, pshufbEntry U R i = (idx : Int) ∧ idx / 16 = i / 16 := by
  unfold pshufbEntry
  dsimp only
  by_cases hu : U.getD i false = true
  · left; rw [if_pos hu]
  · right
    rw [if_neg hu]
    by_cases hz : R.getD i 0 &&& (1 <<< 7) ≠ 0
    · left; rw [if_pos hz]
    · right
      rw [if_neg hz]
      have h16 : R.getD i 0 % 16 < 16 := Nat.mod_lt _ (by norm_num)
      refine ⟨_, toInt_of_lt _ ?_, ?_⟩ <;> rw [and_notU32_15 i hi, and_fifteen] <;> omega

theorem vpermilpEntry_cases (ElSize : Nat) (U : List Bool) (R : List Nat) (i : Nat)
    (hEl : ElSize = 32 ∨ ElSize = 64) (hi : i < 16) :
    vpermilpEntry ElSize (128 / ElSize) U R i = SM_SentinelUndef ∨
      ∃ idx : Nat, vpermilpEntry ElSize (128 / ElSize) U R i = (idx : Int) ∧
        idx / (128 / ElSize) = i / (128 / ElSize) := by
  unfold vpermilpEntry
  dsimp only
  by_cases hu : U.getD i false = true
  · left; rw [if_pos hu]
  · right
    rw [if_neg hu]
    rcases hEl with rfl | rfl
    · have h4 : R.getD i 0 % 4 < 4 := Nat.mod_lt _ (by norm_num)
      rw [if_neg (by decide)]
      refine ⟨_, toInt_of_lt _ ?_, ?_⟩ <;> rw [and_notU32_lane32 i hi, and_three] <;> omega
    · have h2 : R.getD i 0 / 2 % 2 < 2 := Nat.mod_lt _ (by norm_num)
      rw [if_pos (by decide)]
      refine ⟨_, toInt_of_lt _ ?_, ?_⟩ <;>
        rw [and_notU32_lane64 i hi, shiftRight_one_and_one] <;> omega

theorem vpermil2pEntry_cases (M2Z ElSize S : Nat) (U : List Bool) (R : List Nat) (i : Nat)
    (hsize : S = 128 ∨ S = 256) (hEl : ElSize = 32 ∨ ElSize = 64) (hi : i < S / ElSize) :
    vpermil2pEntry M2Z ElSize (S / ElSize) (128 / ElSize) U R i = SM_SentinelUndef ∨
      vpermil2pEntry M2Z ElSize (S / ElSize) (128 / ElSize) U R i = SM_SentinelZero ∨
      ∃ idx : Nat, vpermil2pEntry M2Z ElSize (S / ElSize) (128 / ElSize) U R i = (idx : Int) ∧
        idx < 2 * (S / ElSize) := by
  unfold vpermil2pEntry
  dsimp only
  by_cases hu : U.getD i false = true
  · left; rw [if_pos hu]
  · right
    rw [if_neg hu]
    by_cases hz : (M2Z &&& 0x2) ≠ 0 ∧ ((R.getD i 0 >>> 3) &&& 0x1) ≠ (M2Z &&& 0x1)
    · left; rw [if_pos hz]
    · right
      rw [if_neg hz]
      have hsrc : R.getD i 0 / 2 ^ 2 % 2 < 2 := Nat.mod_lt _ (by norm_num)
      have h4 : R.getD i 0 % 4 < 4 := Nat.mod_lt _ (by norm_num)
      have h2 : R.getD i 0 / 2 ^ 1 % 2 < 2 := Nat.mod_lt _ (by norm_num)
      rcases hsize with rfl | rfl <;> rcases hEl with rfl | rfl
      · have hi' : i < 4 := hi
        rw [if_neg (by decide)]
        refine ⟨_, toInt_of_lt _ ?_, ?_⟩ <;>
          rw [and_notU32_lane32_8 i (by omega), and_three, shiftRight_and_one] <;>
          norm_num <;> omega
      · have hi' : i < 2 := hi
        rw [if_pos (by decide)]
        refine ⟨_, toInt_of_lt _ ?_, ?_⟩ <;>
          rw [and_notU32_lane64_8 i (by omega), shiftRight_and_one, shiftRight_and_one] <;>
          norm_num <;> omega
      · have hi' : i < 8 := hi
        rw [if_neg (by decide)]
        refine ⟨_, toInt_of_lt _ ?_, ?_⟩ <;>
          rw [and_notU32_lane32_8 i (by omega), and_three, shiftRight_and_one] <;>
          norm_num <;> omega
      · have hi' : i < 4 := hi
        rw [if_pos (by decide)]
        refine ⟨_, toInt_of_lt _ ?_, ?_⟩ <;>
          rw [and_notU32_lane64_8 i (by omega), shiftRight_and_one, shiftRight_and_one] <;>
          norm_num <;> omega

theorem vppermEntry_cases (U : List Bool) (R : List Nat) (i : Nat) :
    vppermEntry U R i = SM_SentinelUndef ∨ vppermEntry U R i = SM_SentinelZero ∨
      ∃ idx : Nat, vppermEntry U R i = (idx : Int) ∧ idx < 32 := by
  unfold vppermEntry
  dsimp only
  by_cases hu : U.getD i false = true
  · left; rw [if_pos hu]
  · right
    rw [if_neg hu]
    by_cases hz : (((R.getD i 0 >>> 5) &&& 0x7) == 4) = true
    · left; rw [if_pos hz]
    · right
      rw [if_neg hz]
      have h32 : R.getD i 0 % 32 < 32 := Nat.mod_lt _ (by norm_num)
      refine ⟨_, toInt_of_lt _ ?_, ?_⟩ <;> rw [and_thirtyOne] <;> omega

theorem vpermvEntry_cases (n : Nat) (U : List Bool) (R : List Nat) (i : Nat)
    (hn : n = 2 ∨ n = 4 ∨ n = 8 ∨ n = 16 ∨ n = 32 ∨ n = 64) :
    vpermvEntry n U R i = SM_SentinelUndef ∨
      ∃ idx : Nat, vpermvEntry n U R i = (idx : Int) ∧ idx < n := by
  unfold vpermvEntry
  by_cases hu : U.getD i false = true
  · left; rw [if_pos hu]
  · right
    rw [if_neg hu]
    have hn' : n = 2 ∨ n = 4 ∨ n = 8 ∨ n = 16 ∨ n = 32 ∨ n = 64 ∨ n = 128 := by omega
    have hlt : R.getD i 0 % n < n := Nat.mod_lt _ (by omega)
    refine ⟨_, toInt_of_lt _ ?_, ?_⟩ <;> rw [and_subU32_one _ _ hn'] <;> omega

theorem vpermv3Entry_cases (n : Nat) (U : List Bool) (R : List Nat) (i : Nat)
    (hn : n = 2 ∨ n = 4 ∨ n = 8 ∨ n = 16 ∨ n = 32 ∨ n = 64) :
    vpermv3Entry n U R i = SM_SentinelUndef ∨
      ∃ idx : Nat, vpermv3Entry n U R i = (idx : Int) ∧ idx < 2 * n := by
  unfold vpermv3Entry
  by_cases hu : U.getD i false = true
  · left; rw [if_pos hu]
  · right
    rw [if_neg hu]
    have hn' : n * 2 = 2 ∨ n * 2 = 4 ∨ n * 2 = 8 ∨ n * 2 = 16 ∨ n * 2 = 32 ∨ n * 2 = 64 ∨
        n * 2 = 128 := by omega
    have hlt : R.getD i 0 % (n * 2) < n * 2 := Nat.mod_lt _ (by omega)
    refine ⟨_, toInt_of_lt _ ?_, ?_⟩ <;> rw [and_subU32_one _ _ hn'] <;> omega

theorem getElem?_map_range {α : Type} (f : Nat → α) (n i : Nat) (e : α)
    (h : ((List.range n).map f)[i]? = some e) : i < n ∧ e = f i := by
  by_cases hi : i < n
  · rw [List.getElem?_map, List.getElem?_range hi] at h
    simp only [Option.map_some', Option.some.injEq] at h
    exact ⟨hi, h.symm⟩
  · rw [List.getElem?_eq_none (by simpa using hi)] at h
    cases h

theorem DecodePSHUFBMask_some (C : Constant) (mask : List Int)
    (h : DecodePSHUFBMask C [] = some mask) :
    (C.getPrimitiveSizeInBits = 128 ∨ C.getPrimitiveSizeInBits = 256 ∨
      C.getPrimitiveSizeInBits = 512) ∧
    (mask = [] ∨ ∃ U R, mask = (List.range (C.getPrimitiveSizeInBits / 8)).map
      (pshufbEntry U R)) := by
  by_cases hsize : C.getPrimitiveSizeInBits = 128 ∨ C.getPrimitiveSizeInBits = 256 ∨
      C.getPrimitiveSizeInBits = 512
  · refine ⟨hsize, ?_⟩
    rcases extractConstantMask_returns_byte C hsize with hx | ⟨U, R, hx⟩
    · rw [DecodePSHUFBMask_notDecodable C [] hsize hx] at h
      exact Or.inl (Option.some.inj h).symm
    · rw [DecodePSHUFBMask_decoded C [] U R hsize hx] at h
      exact Or.inr ⟨U, R, (Option.some.inj h).symm⟩
  · rw [DecodePSHUFBMask_bad_size C [] hsize] at h
    cases h

theorem DecodeVPERMILPMask_some (C : Constant) (ElSize : Nat) (mask : List Int)
    (h : DecodeVPERMILPMask C ElSize [] = some mask) :
    ((C.getPrimitiveSizeInBits = 128 ∨ C.getPrimitiveSizeInBits = 256 ∨
      C.getPrimitiveSizeInBits = 512) ∧ (ElSize = 32 ∨ ElSize = 64)) ∧
    (mask = [] ∨ ∃ U R, mask = (List.range (C.getPrimitiveSizeInBits / ElSize)).map
      (vpermilpEntry ElSize (128 / ElSize) U R)) := by
  by_cases hshape : (C.getPrimitiveSizeInBits = 128 ∨ C.getPrimitiveSizeInBits = 256 ∨
      C.getPrimitiveSizeInBits = 512) ∧ (ElSize = 32 ∨ ElSize = 64)
  · refine ⟨hshape, ?_⟩
    obtain ⟨hsize, hEl⟩ := hshape
    have hEl' : ElSize = 8 ∨ ElSize = 16 ∨ ElSize = 32 ∨ ElSize = 64 := by omega
    rcases extractConstantMask_returns_elt C ElSize hsize hEl' with hx | ⟨U, R, hx⟩
    · rw [DecodeVPERMILPMask_notDecodable C ElSize [] hsize hEl hx] at h
      exact Or.inl (Option.some.inj h).symm
    · rw [DecodeVPERMILPMask_decoded C ElSize [] U R hsize hEl hx] at h
      exact Or.inr ⟨U, R, (Option.some.inj h).symm⟩
  · rw [DecodeVPERMILPMask_bad_shape C ElSize [] hshape] at h
    cases h

theorem DecodeVPERMIL2PMask_some (C : Constant) (M2Z ElSize : Nat) (mask : List Int)
    (hEl : ElSize = 32 ∨ ElSize = 64)
    (h : DecodeVPERMIL2PMask C M2Z ElSize [] = some mask) :
    (C.getPrimitiveSizeInBits = 128 ∨ C.getPrimitiveSizeInBits = 256) ∧
    (mask = [] ∨ ∃ U R, mask = (List.range (C.getPrimitiveSizeInBits / ElSize)).map
      (vpermil2pEntry M2Z ElSize (C.getPrimitiveSizeInBits / ElSize) (128 / ElSize) U R)) := by
  by_cases hsize : C.getPrimitiveSizeInBits = 128 ∨ C.getPrimitiveSizeInBits = 256
  · refine ⟨hsize, ?_⟩
    have hEl' : ElSize = 8 ∨ ElSize = 16 ∨ ElSize = 32 ∨ ElSize = 64 := by omega
    have hsize' : C.getPrimitiveSizeInBits = 128 ∨ C.getPrimitiveSizeInBits = 256 ∨
        C.getPrimitiveSizeInBits = 512 := by omega
    rcases extractConstantMask_returns_elt C ElSize hsize' hEl' with hx | ⟨U, R, hx⟩
    · rw [DecodeVPERMIL2PMask_notDecodable C M2Z ElSize [] hsize hx] at h
      exact Or.inl (Option.some.inj h).symm
    · rw [DecodeVPERMIL2PMask_decoded C M2Z ElSize [] U R hsize hEl hx] at h
      exact Or.inr ⟨U, R, (Option.some.inj h).symm⟩
  · rw [DecodeVPERMIL2PMask_bad_size C M2Z ElSize [] hsize] at h
    cases h

theorem DecodeVPPERMMask_some (C : Constant) (mask : List Int)
    (h : DecodeVPPERMMask C [] = some mask) :
    C.getPrimitiveSizeInBits = 128 ∧
    (mask = [] ∨ ∃ U R, mask = (List.range 16).map (vppermEntry U R)) := by
  by_cases hsize : C.getPrimitiveSizeInBits = 128
  · refine ⟨hsize, ?_⟩
    rcases extractConstantMask_returns_byte C (Or.inl hsize) with hx | ⟨U, R, hx⟩
    · rw [DecodeVPPERMMask_notDecodable C [] hsize hx] at h
      exact Or.inl (Option.some.inj h).symm
    · rw [DecodeVPPERMMask_decoded C [] U R hsize hx] at h
      by_cases hbad : ∃ j, 0 ≤ j ∧ j < 0 + 16 ∧ vppermAborts U R j = true
      · rw [vppermLoop_abort U R 16 0 [] hbad] at h
        exact Or.inl (Option.some.inj h).symm
      · have hok : ∀ j, 0 ≤ j → j < 0 + 16 → vppermAborts U R j = false := by
          intro j h0 hj
          by_contra hne
          exact hbad ⟨j, h0, hj, by simpa using hne⟩
        rw [vppermLoop_eq U R 16 0 [] hok, List.nil_append, ← List.range_eq_range'] at h
        exact Or.inr ⟨U, R, (Option.some.inj h).symm⟩
  · rw [DecodeVPPERMMask_bad_size C [] hsize] at h
    cases h

theorem DecodeVPERMVMask_some (C : Constant) (ElSize : Nat) (mask : List Int)
    (h : DecodeVPERMVMask C ElSize [] = some mask) :
    ((C.getPrimitiveSizeInBits = 128 ∨ C.getPrimitiveSizeInBits = 256 ∨
      C.getPrimitiveSizeInBits = 512) ∧
      (ElSize = 8 ∨ ElSize = 16 ∨ ElSize = 32 ∨ ElSize = 64)) ∧
    (mask = [] ∨ ∃ U R, mask = (List.range (C.getPrimitiveSizeInBits / ElSize)).map
      (vpermvEntry (C.getPrimitiveSizeInBits / ElSize) U R)) := by
  by_cases hshape : (C.getPrimitiveSizeInBits = 128 ∨ C.getPrimitiveSizeInBits = 256 ∨
      C.getPrimitiveSizeInBits = 512) ∧
      (ElSize = 8 ∨ ElSize = 16 ∨ ElSize = 32 ∨ ElSize = 64)
  · refine ⟨hshape, ?_⟩
    obtain ⟨hsize, hEl⟩ := hshape
    rcases extractConstantMask_returns_elt C ElSize hsize hEl with hx | ⟨U, R, hx⟩
    · rw [DecodeVPERMVMask_notDecodable C ElSize [] hsize hEl hx] at h
      exact Or.inl (Option.some.inj h).symm
    · rw [DecodeVPERMVMask_decoded C ElSize [] U R hsize hEl hx] at h
      exact Or.inr ⟨U, R, (Option.some.inj h).symm⟩
  · rw [DecodeVPERMVMask_bad_shape C ElSize [] hshape] at h
    cases h

theorem DecodeVPERMV3Mask_some (C : Constant) (ElSize : Nat) (mask : List Int)
    (h : DecodeVPERMV3Mask C ElSize [] = some mask) :
    ((C.getPrimitiveSizeInBits = 128 ∨ C.getPrimitiveSizeInBits = 256 ∨
      C.getPrimitiveSizeInBits = 512) ∧
      (ElSize = 8 ∨ ElSize = 16 ∨ ElSize = 32 ∨ ElSize = 64)) ∧
    (mask = [] ∨ ∃ U R, mask = (List.range (C.getPrimitiveSizeInBits / ElSize)).map
      (vpermv3Entry (C.getPrimitiveSizeInBits / ElSize) U R)) := by
  by_cases hshape : (C.getPrimitiveSizeInBits = 128 ∨ C.getPrimitiveSizeInBits = 256 ∨
      C.getPrimitiveSizeInBits = 512) ∧
      (ElSize = 8 ∨ ElSize = 16 ∨ ElSize = 32 ∨ ElSize = 64)
  · refine ⟨hshape, ?_⟩
    obtain ⟨hsize, hEl⟩ := hshape
    rcases extractConstantMask_returns_elt C ElSize hsize hEl with hx | ⟨U, R, hx⟩
    · rw [DecodeVPERMV3Mask_notDecodable C ElSize [] hsize hEl hx] at h
      exact Or.inl (Option.some.inj h).symm
    · rw [DecodeVPERMV3Mask_decoded C ElSize [] U R hsize hEl hx] at h
      exact Or.inr ⟨U, R, (Option.some.inj h).symm⟩
  · rw [DecodeVPERMV3Mask_bad_shape C ElSize [] hshape] at h
    cases h

/-! ## Lanes and index ranges -/

/-- C15: every non-sentinel entry of `DecodePSHUFBMask` at position `i` is an index in the
same 16-entry lane as `i`; every entry of `DecodeVPERMILPMask` other than
`SM_SentinelUndef` is an index in the same lane of `128 / ElSize` entries as its position,
and `DecodeVPERMILPMask` never emits `SM_SentinelZero`. -/
theorem decoders_in_lane :
    (∀ (C : Constant) (mask : List Int), DecodePSHUFBMask C [] = some mask →
      ∀ (i : Nat) (e : Int), mask[i]? = some e →
        e ≠ SM_SentinelUndef → e ≠ SM_SentinelZero →
        ∃ idx : Nat, e = (idx : Int) ∧ idx / 16 = i / 16) ∧
    (∀ (C : Constant) (ElSize : Nat) (mask : List Int),
      DecodeVPERMILPMask C ElSize [] = some mask →
      ∀ (i : Nat) (e : Int), mask[i]? = some e →
        e ≠ SM_SentinelZero ∧
        (e ≠ SM_SentinelUndef →
          ∃ idx : Nat, e = (idx : Int) ∧ idx / (128 / ElSize) = i / (128 / ElSize))) := by
  constructor
  · intro C mask h i e he hu hz
    obtain ⟨hsize, hm⟩ := DecodePSHUFBMask_some C mask h
    rcases hm with rfl | ⟨U, R, rfl⟩
    · simp at he
    · obtain ⟨hi, rfl⟩ := getElem?_map_range _ _ _ _ he
      have hi64 : i < 64 := by
        rcases hsize with hs | hs | hs <;> rw [hs] at hi <;> omega
      rcases pshufbEntry_cases U R i hi64 with h1 | h1 | h1
      · exact absurd h1 hu
      · exact absurd h1 hz
      · exact h1
  · intro C ElSize mask h i e he
    obtain ⟨⟨hsize, hEl⟩, hm⟩ := DecodeVPERMILPMask_some C ElSize mask h
    rcases hm with rfl | ⟨U, R, rfl⟩
    · simp at he
    · obtain ⟨hi, rfl⟩ := getElem?_map_range _ _ _ _ he
      have hi16 : i < 16 := by
        rcases hsize with hs | hs | hs <;> rw [hs] at hi <;>
          rcases hEl with rfl | rfl <;> omega
      rcases vpermilpEntry_cases ElSize U R i hEl hi16 with h1 | ⟨idx, h1, h2⟩
      · refine ⟨?_, fun hne => absurd h1 hne⟩
        rw [h1]
        decide
      · refine ⟨?_, fun _ => ⟨idx, h1, h2⟩⟩
        rw [h1]
        unfold SM_SentinelZero
        omega

/-- C15, at the 16-byte example (entry 3 is index 3, lane 0) and at eight 32-bit elements
equal to 2 (entry 5 is index 6, lane 1). -/
theorem decoders_in_lane_witness :
    (DecodePSHUFBMask exPshufb [] =
        some [0, SM_SentinelZero, SM_SentinelUndef, 3, 4, 5, 6, 7, 8, 9, 10, 11, 12, 13, 14, 15]
      ∧ ∃ idx : Nat, (3 : Int) = (idx : Int) ∧ idx / 16 = 3 / 16) ∧
    (DecodeVPERMILPMask exVpermilp 32 [] = some [2, 2, 2, 2, 6, 6, 6, 6] ∧
      (6 : Int) ≠ SM_SentinelZero ∧
      ((6 : Int) ≠ SM_SentinelUndef →
        ∃ idx : Nat, (6 : Int) = (idx : Int) ∧ idx / (128 / 32) = 5 / (128 / 32))) :=
  ⟨⟨by decide,
      decoders_in_lane.1 exPshufb
        [0, SM_SentinelZero, SM_SentinelUndef, 3, 4, 5, 6, 7, 8, 9, 10, 11, 12, 13, 14, 15]
        (by decide) 3 3 (by decide) (by decide) (by decide)⟩,
    ⟨by decide,
      decoders_in_lane.2 exVpermilp 32 [2, 2, 2, 2, 6, 6, 6, 6] (by decide) 5 6 (by decide)⟩⟩

theorem vpermilpSpec_getElem? (C : Constant) (ElSize n i : Nat) (hi : i < n) :
    ((List.range n).map (vpermilpSpec C ElSize))[i]? = some (vpermilpSpec C ElSize i) := by
  simp [List.getElem?_range hi]

theorem not_m2zZeroes_of_top_clear (M2Z raw : Nat) (h : M2Z.testBit 1 = false) :
    ¬ m2zZeroes M2Z raw := by
  rintro ⟨h1, _⟩
  rw [h] at h1
  cases h1

theorem testBit_two_iff (raw : Nat) :
    (raw.testBit 2 = true ↔ raw / 4 % 2 = 1) ∧ (raw.testBit 2 = false ↔ raw / 4 % 2 = 0) := by
  rw [@Nat.testBit_to_div_mod 2 raw]
  have h : raw / 2 ^ 2 = raw / 4 := by norm_num
  rw [h]
  rcases Nat.mod_two_eq_zero_or_one (raw / 4) with h0 | h1
  · simp [h0]
  · simp [h1]

/-- C17: in `DecodeVPERMIL2PMask` (128- or 256-bit decodable constant, `ElSize` 32 or 64),
with `NumElts = totalBits / ElSize`, a defined raw element at position `i` that the `M2Z`
policy does not zero is decoded to `laneBase + localSelector + src * NumElts`, where
`laneBase` is `i` rounded down to a multiple of `128 / ElSize`, `localSelector` is bit 1 of
the selector for `ElSize = 64` and bits 0-1 for `ElSize = 32`, and `src` is bit 2 of the
selector. Hence with the top bit of `M2Z` clear, the entry coincides with the entry of
`DecodeVPERMILPMask` when bit 2 is clear and is that entry plus `NumElts` when bit 2 is
set. -/
theorem DecodeVPERMIL2PMask_index (C : Constant) (M2Z ElSize i : Nat)
    (hC : C.IntVector = true)
    (hsize : C.getPrimitiveSizeInBits = 128 ∨ C.getPrimitiveSizeInBits = 256)
    (hEl : ElSize = 32 ∨ ElSize = 64) (hi : i < C.getPrimitiveSizeInBits / ElSize)
    (hdef : ¬ sliceAllUndef C ElSize i) :
    ∃ mask2 mask1,
      DecodeVPERMIL2PMask C M2Z ElSize [] = some mask2 ∧
      DecodeVPERMILPMask C ElSize [] = some mask1 ∧
      (¬ (M2Z.testBit 1 = true ∧ (sliceValue C ElSize i).testBit 3 ≠ M2Z.testBit 0) →
        mask2[i]? = some
          ((i / (128 / ElSize) * (128 / ElSize) +
            (if ElSize = 64 then sliceValue C ElSize i / 2 % 2 else sliceValue C ElSize i % 4) +
            sliceValue C ElSize i / 4 % 2 * (C.getPrimitiveSizeInBits / ElSize) : Nat) : Int)) ∧
      (M2Z.testBit 1 = false → (sliceValue C ElSize i).testBit 2 = false →
        mask2[i]? = mask1[i]?) ∧
      (M2Z.testBit 1 = false → (sliceValue C ElSize i).testBit 2 = true →
        ∃ e1 : Int, mask1[i]? = some e1 ∧
          mask2[i]? = some (e1 + ((C.getPrimitiveSizeInBits / ElSize : Nat) : Int))) := by
  have hsize' : C.getPrimitiveSizeInBits = 128 ∨ C.getPrimitiveSizeInBits = 256 ∨
      C.getPrimitiveSizeInBits = 512 := by omega
  refine ⟨_, _, DecodeVPERMIL2PMask_intVector C M2Z ElSize hC hsize hEl [],
    DecodeVPERMILPMask_intVector C ElSize hC hsize' hEl [], ?_, ?_, ?_⟩
  · intro hz
    have hz' : ¬ m2zZeroes M2Z (sliceValue C ElSize i) := hz
    rw [List.nil_append, vpermil2pSpec_getElem? _ _ _ _ _ hi]
    unfold vpermil2pSpec
    rw [if_neg hdef, if_neg hz']
    rfl
  · intro htop hbit
    have hz' := not_m2zZeroes_of_top_clear M2Z (sliceValue C ElSize i) htop
    have hsrc := (testBit_two_iff (sliceValue C ElSize i)).2.1 hbit
    rw [List.nil_append, List.nil_append, vpermil2pSpec_getElem? _ _ _ _ _ hi,
      vpermilpSpec_getElem? _ _ _ _ hi]
    unfold vpermil2pSpec vpermilpSpec
    rw [if_neg hdef, if_neg hz', if_neg hdef, hsrc, Nat.zero_mul, Nat.add_zero]
  · intro htop hbit
    have hz' := not_m2zZeroes_of_top_clear M2Z (sliceValue C ElSize i) htop
    have hsrc := (testBit_two_iff (sliceValue C ElSize i)).1.1 hbit
    refine ⟨vpermilpSpec C ElSize i, ?_, ?_⟩
    · rw [List.nil_append, vpermilpSpec_getElem? _ _ _ _ hi]
    · rw [List.nil_append, vpermil2pSpec_getElem? _ _ _ _ _ hi]
      unfold vpermil2pSpec vpermilpSpec
      rw [if_neg hdef, if_neg hz', if_neg hdef, hsrc, Nat.one_mul]
      push_cast
      rfl

/-- C17, at `<4 x i32> <4, 8, 5, undef>` with `M2Z = 0`, element 2: the selector 5 has bit
2 set, so the entry is `1 + 4`, the entry of `DecodeVPERMILPMask` plus `NumElts`. -/
theorem DecodeVPERMIL2PMask_index_witness :
    (exWrap.IntVector = true ∧ exWrap.getPrimitiveSizeInBits = 128 ∧
      2 < exWrap.getPrimitiveSizeInBits / 32 ∧ ¬ sliceAllUndef exWrap 32 2) ∧
    DecodeVPERMIL2PMask exWrap 0 32 [] = some [4, 0, 5, SM_SentinelUndef] ∧
    DecodeVPERMILPMask exWrap 32 [] = some [0, 0, 1, SM_SentinelUndef] ∧
    ∃ mask2 mask1,
      DecodeVPERMIL2PMask exWrap 0 32 [] = some mask2 ∧
      DecodeVPERMILPMask exWrap 32 [] = some mask1 ∧
      (¬ (Nat.testBit 0 1 = true ∧ (sliceValue exWrap 32 2).testBit 3 ≠ Nat.testBit 0 0) →
        mask2[2]? = some
          ((2 / (128 / 32) * (128 / 32) +
            (if 32 = 64 then sliceValue exWrap 32 2 / 2 % 2 else sliceValue exWrap 32 2 % 4) +
            sliceValue exWrap 32 2 / 4 % 2 * (exWrap.getPrimitiveSizeInBits / 32) : Nat) : Int)) ∧
      (Nat.testBit 0 1 = false → (sliceValue exWrap 32 2).testBit 2 = false →
        mask2[2]? = mask1[2]?) ∧
      (Nat.testBit 0 1 = false → (sliceValue exWrap 32 2).testBit 2 = true →
        ∃ e1 : Int, mask1[2]? = some e1 ∧
          mask2[2]? = some (e1 + ((exWrap.getPrimitiveSizeInBits / 32 : Nat) : Int))) :=
  ⟨⟨by decide, by decide, by decide, by decide⟩, by decide, by decide,
    DecodeVPERMIL2PMask_index exWrap 0 32 2 (by decide) (Or.inl (by decide)) (Or.inl rfl)
      (by decide) (by decide)⟩

/-! ## Independence of the typing of the constant -/

theorem extractConstantMask_images (C : Constant) (M : Nat) (hC : C.IntVector = true) :
    extractConstantMask C M =
      sliceImages C.getPrimitiveSizeInBits (undefImage C) (valueImage C) M := by
  obtain ⟨hvec, hint, hwt, helts⟩ := (Constant.IntVector_iff C).1 hC
  obtain ⟨hN, hW, hv⟩ := (Constant.WellTyped_iff C).1 hwt
  have hes := (Constant.allIntOrUndef_iff C).1 helts
  have hpack := packElts_eq (C.Elts.length * C.ScalarSizeInBits) C.ScalarSizeInBits C.Elts 0 0 0
    hes hv (by simp) (by simp) (by simp)
  simp only [Nat.zero_mul, Nat.pow_zero, Nat.one_mul, Nat.zero_add] at hpack
  simp only [extractConstantMask, sliceImages, hvec, hint, Constant.getPrimitiveSizeInBits,
    Constant.getScalarSizeInBits, hpack, Bool.not_true, if_true, if_false, Bool.false_eq_true,
    undefImage, valueImage]

theorem bitInUndefElt_of_ge (C : Constant) (hW : 0 < C.ScalarSizeInBits) (b : Nat)
    (hb : C.Elts.length * C.ScalarSizeInBits ≤ b) : ¬ bitInUndefElt C b := by
  unfold bitInUndefElt
  have : C.Elts.length ≤ b / C.ScalarSizeInBits := (Nat.le_div_iff_mul_le hW).2 hb
  rw [List.getElem?_eq_none this]
  simp

theorem undefImage_eq (C₁ C₂ : Constant) (h1 : C₁.IntVector = true) (h2 : C₂.IntVector = true)
    (hsize : C₁.getPrimitiveSizeInBits = C₂.getPrimitiveSizeInBits)
    (hundef : ∀ b, b < C₁.getPrimitiveSizeInBits → (bitInUndefElt C₁ b ↔ bitInUndefElt C₂ b)) :
    undefImage C₁ = undefImage C₂ := by
  obtain ⟨_, _, hwt1, _⟩ := (Constant.IntVector_iff C₁).1 h1
  obtain ⟨_, _, hwt2, _⟩ := (Constant.IntVector_iff C₂).1 h2
  obtain ⟨_, hW1, _⟩ := (Constant.WellTyped_iff C₁).1 hwt1
  obtain ⟨_, hW2, _⟩ := (Constant.WellTyped_iff C₂).1 hwt2
  have hs1 := intVector_size C₁ h1
  have hs2 := intVector_size C₂ h2
  apply Nat.eq_of_testBit_eq
  intro b
  rw [Bool.eq_iff_iff]
  unfold undefImage
  rw [testBit_undefImage _ hW1, testBit_undefImage _ hW2]
  by_cases hb : b < C₁.getPrimitiveSizeInBits
  · exact hundef b hb
  · have hb1 : C₁.Elts.length * C₁.ScalarSizeInBits ≤ b := by omega
    have hb2 : C₂.Elts.length * C₂.ScalarSizeInBits ≤ b := by omega
    have n1 := bitInUndefElt_of_ge C₁ hW1 b hb1
    have n2 := bitInUndefElt_of_ge C₂ hW2 b hb2
    unfold bitInUndefElt at n1 n2
    exact ⟨fun h => absurd h n1, fun h => absurd h n2⟩

/-- C18: two vector-of-integers constants of the same total bit width that flatten to the
same value image with the same undefined bit positions give the same result of
`extractConstantMask` (undef flags and raw values) at every requested width, and every
decoder returns the same mask for both. -/
theorem extraction_independent_of_typing (C₁ C₂ : Constant)
    (h1 : C₁.IntVector = true) (h2 : C₂.IntVector = true)
    (hsize : C₁.getPrimitiveSizeInBits = C₂.getPrimitiveSizeInBits)
    (hval : valueImage C₁ = valueImage C₂)
    (hundef : ∀ b, b < C₁.getPrimitiveSizeInBits → (bitInUndefElt C₁ b ↔ bitInUndefElt C₂ b)) :
    (∀ M, extractConstantMask C₁ M = extractConstantMask C₂ M) ∧
    (∀ P, DecodePSHUFBMask C₁ P = DecodePSHUFBMask C₂ P) ∧
    (∀ ElSize P, DecodeVPERMILPMask C₁ ElSize P = DecodeVPERMILPMask C₂ ElSize P) ∧
    (∀ M2Z ElSize P,
      DecodeVPERMIL2PMask C₁ M2Z ElSize P = DecodeVPERMIL2PMask C₂ M2Z ElSize P) ∧
    (∀ P, DecodeVPPERMMask C₁ P = DecodeVPPERMMask C₂ P) ∧
    (∀ ElSize P, DecodeVPERMVMask C₁ ElSize P = DecodeVPERMVMask C₂ ElSize P) ∧
    (∀ ElSize P, DecodeVPERMV3Mask C₁ ElSize P = DecodeVPERMV3Mask C₂ ElSize P) := by
  have hext : ∀ M, extractConstantMask C₁ M = extractConstantMask C₂ M := by
    intro M
    rw [extractConstantMask_images C₁ M h1, extractConstantMask_images C₂ M h2, hsize, hval,
      undefImage_eq C₁ C₂ h1 h2 hsize hundef]
  refine ⟨hext, ?_, ?_, ?_, ?_, ?_, ?_⟩
  · intro P
    simp only [DecodePSHUFBMask, hsize, hext]
  · intro ElSize P
    simp only [DecodeVPERMILPMask, hsize, hext]
  · intro M2Z ElSize P
    simp only [DecodeVPERMIL2PMask, hsize, hext]
  · intro P
    simp only [DecodeVPPERMMask, hsize, hext]
  · intro ElSize P
    simp only [DecodeVPERMVMask, hsize, hext]
  · intro ElSize P
    simp only [DecodeVPERMV3Mask, hsize, hext]

/-- C18, at `<2 x i64> <0x123456789, undef>` and its split
`<4 x i32> <0x23456789, 0x1, undef, undef>`: same width, same value image, same undefined
bits; sliced at 16 bits both give the same flags and raw values. -/
theorem extraction_independent_of_typing_witness :
    (exTwoQuads.IntVector = true ∧ exTwoQuadsSplit.IntVector = true ∧
      exTwoQuads.getPrimitiveSizeInBits = exTwoQuadsSplit.getPrimitiveSizeInBits ∧
      valueImage exTwoQuads = valueImage exTwoQuadsSplit ∧
      ∀ b, b < exTwoQuads.getPrimitiveSizeInBits →
        (bitInUndefElt exTwoQuads b ↔ bitInUndefElt exTwoQuadsSplit b)) ∧
    extractConstantMask exTwoQuads 16 =
      some (.decoded [false, false, false, false, true, true, true, true]
        [0x6789, 0x2345, 0x1, 0, 0, 0, 0, 0]) ∧
    extractConstantMask exTwoQuads 16 = extractConstantMask exTwoQuadsSplit 16 ∧
    DecodePSHUFBMask exTwoQuads [] = DecodePSHUFBMask exTwoQuadsSplit [] :=
  ⟨⟨by decide, by decide, by decide, by decide, by decide⟩, by decide,
    (extraction_independent_of_typing exTwoQuads exTwoQuadsSplit (by decide) (by decide)
      (by decide) (by decide) (by decide)).1 16,
    (extraction_independent_of_typing exTwoQuads exTwoQuadsSplit (by decide) (by decide)
      (by decide) (by decide) (by decide)).2.1 []⟩

theorem pshufbSpec_undef_iff (C : Constant) (i : Nat) :
    pshufbSpec C i = SM_SentinelUndef ↔ sliceAllUndef C 8 i := by
  unfold pshufbSpec
  by_cases h : sliceAllUndef C 8 i
  · simp [h]
  · rw [if_neg h]
    refine ⟨fun he => ?_, fun hs => absurd hs h⟩
    exfalso
    split_ifs at he
    · exact absurd he (by decide)
    · unfold SM_SentinelUndef at he
      omega

theorem vpermilpSpec_undef_iff (C : Constant) (ElSize i : Nat) :
    vpermilpSpec C ElSize i = SM_SentinelUndef ↔ sliceAllUndef C ElSize i := by
  unfold vpermilpSpec
  by_cases h : sliceAllUndef C ElSize i
  · simp [h]
  · rw [if_neg h]
    refine ⟨fun he => ?_, fun hs => absurd hs h⟩
    exfalso
    unfold SM_SentinelUndef at he
    omega

theorem vpermil2pSpec_undef_iff (C : Constant) (M2Z ElSize n i : Nat) :
    vpermil2pSpec C M2Z ElSize n i = SM_SentinelUndef ↔ sliceAllUndef C ElSize i := by
  unfold vpermil2pSpec
  by_cases h : sliceAllUndef C ElSize i
  · simp [h]
  · rw [if_neg h]
    refine ⟨fun he => ?_, fun hs => absurd hs h⟩
    exfalso
    split_ifs at he
    · exact absurd he (by decide)
    · unfold SM_SentinelUndef at he
      omega

theorem vppermSpec_undef_iff (C : Constant) (i : Nat) :
    vppermSpec C i = SM_SentinelUndef ↔ sliceAllUndef C 8 i := by
  unfold vppermSpec
  by_cases h : sliceAllUndef C 8 i
  · simp [h]
  · rw [if_neg h]
    refine ⟨fun he => ?_, fun hs => absurd hs h⟩
    exfalso
    split_ifs at he
    · exact absurd he (by decide)
    · unfold SM_SentinelUndef at he
      omega

theorem vpermvSpec_undef_iff (C : Constant) (ElSize range i : Nat) :
    vpermvSpec C ElSize range i = SM_SentinelUndef ↔ sliceAllUndef C ElSize i := by
  unfold vpermvSpec
  by_cases h : sliceAllUndef C ElSize i
  · simp [h]
  · rw [if_neg h]
    refine ⟨fun he => ?_, fun hs => absurd hs h⟩
    exfalso
    unfold SM_SentinelUndef at he
    omega

theorem undefExactlyAt_map (C : Constant) (M n : Nat) (spec : Nat → Int)
    (h : ∀ i, spec i = SM_SentinelUndef ↔ sliceAllUndef C M i) :
    UndefExactlyAt C M ((List.range n).map spec) := by
  intro i e he
  obtain ⟨_, rfl⟩ := getElem?_map_range _ _ _ _ he
  exact h i

theorem undefExactlyAt_nil (C : Constant) (M : Nat) : UndefExactlyAt C M [] := by
  intro i e he
  simp at he

theorem indicesBelow_nil (bound : Nat) : IndicesBelow [] bound := by
  intro i e he
  simp at he

theorem indicesBelow_map (n bound : Nat) (entry : Nat → Int)
    (h : ∀ i, i < n → entry i = SM_SentinelUndef ∨ entry i = SM_SentinelZero ∨
      ∃ idx : Nat, entry i = (idx : Int) ∧ idx < bound) :
    IndicesBelow ((List.range n).map entry) bound := by
  intro i e he hu hz
  obtain ⟨hi, rfl⟩ := getElem?_map_range _ _ _ _ he
  rcases h i hi with h1 | h1 | ⟨idx, h1, h2⟩
  · exact absurd h1 hu
  · exact absurd h1 hz
  · rw [h1]
    omega

/-- C19, as stated, fails for `DecodeVPERMIL2PMask`, whose element width no assert
checks: on the 256-bit `<4 x i64> <1, 0, 7, 0>` with `ElSize = 128`, in either build, the
decoder returns `[1, 6]`, and 6 is not below `2 * NumElts = 4`. -/
theorem decoders_indices_in_range_counterexample :
    exFourQuads.IntVector = true ∧ exFourQuads.getPrimitiveSizeInBits = 256 ∧
    DecodeVPERMIL2PMask exFourQuads 0 128 [] = some [1, 6] ∧
    DecodeVPERMIL2PMaskNDEBUG exFourQuads 0 128 [] = some [1, 6] ∧
    ¬ IndicesBelow [1, 6] (2 * (exFourQuads.getPrimitiveSizeInBits / 128)) := by
  refine ⟨by decide, by decide, by decide, by decide, ?_⟩
  intro h
  have h6 := (h 1 6 (by decide) (by decide) (by decide)).2
  have hb : ((2 * (exFourQuads.getPrimitiveSizeInBits / 128) : Nat) : Int) = 4 := by decide
  rw [hb] at h6
  omega

/-- C19, amended: every non-sentinel entry emitted by a decoder is a non-negative index
strictly below the number of addressable source lanes: `NumElts = totalBits / width` for
`DecodePSHUFBMask`, `DecodeVPERMILPMask` and `DecodeVPERMVMask`, `2 * NumElts` for
`DecodeVPERMV3Mask` and for `DecodeVPERMIL2PMask` called with `ElSize` 32 or 64, 32 for
`DecodeVPPERMMask`. Consequently, on a decodable constant, the mask has one entry per
slice (`DecodeVPPERMMask`: or is empty) and entry `i` equals `SM_SentinelUndef` if and
only if slice `i` of the constant is entirely undefined. -/
theorem decoders_indices_in_range :
    (∀ (C : Constant) (mask : List Int), DecodePSHUFBMask C [] = some mask →
      IndicesBelow mask (C.getPrimitiveSizeInBits / 8) ∧
      (C.IntVector = true →
        mask.length = C.getPrimitiveSizeInBits / 8 ∧ UndefExactlyAt C 8 mask)) ∧
    (∀ (C : Constant) (ElSize : Nat) (mask : List Int),
      DecodeVPERMILPMask C ElSize [] = some mask →
      IndicesBelow mask (C.getPrimitiveSizeInBits / ElSize) ∧
      (C.IntVector = true →
        mask.length = C.getPrimitiveSizeInBits / ElSize ∧ UndefExactlyAt C ElSize mask)) ∧
    (∀ (C : Constant) (M2Z ElSize : Nat) (mask : List Int), (ElSize = 32 ∨ ElSize = 64) →
      DecodeVPERMIL2PMask C M2Z ElSize [] = some mask →
      IndicesBelow mask (2 * (C.getPrimitiveSizeInBits / ElSize)) ∧
      (C.IntVector = true →
        mask.length = C.getPrimitiveSizeInBits / ElSize ∧ UndefExactlyAt C ElSize mask)) ∧
    (∀ (C : Constant) (mask : List Int), DecodeVPPERMMask C [] = some mask →
      IndicesBelow mask 32 ∧
      (C.IntVector = true → (mask = [] ∨ mask.length = 16) ∧ UndefExactlyAt C 8 mask)) ∧
    (∀ (C : Constant) (ElSize : Nat) (mask : List Int),
      DecodeVPERMVMask C ElSize [] = some mask →
      IndicesBelow mask (C.getPrimitiveSizeInBits / ElSize) ∧
      (C.IntVector = true →
        mask.length = C.getPrimitiveSizeInBits / ElSize ∧ UndefExactlyAt C ElSize mask)) ∧
    (∀ (C : Constant) (ElSize : Nat) (mask : List Int),
      DecodeVPERMV3Mask C ElSize [] = some mask →
      IndicesBelow mask (2 * (C.getPrimitiveSizeInBits / ElSize)) ∧
      (C.IntVector = true →
        mask.length = C.getPrimitiveSizeInBits / ElSize ∧ UndefExactlyAt C ElSize mask)) := by
  refine ⟨?_, ?_, ?_, ?_, ?_, ?_⟩
  · intro C mask h
    obtain ⟨hsize, hm⟩ := DecodePSHUFBMask_some C mask h
    constructor
    · rcases hm with rfl | ⟨U, R, rfl⟩
      · exact indicesBelow_nil _
      · apply indicesBelow_map
        intro i hi
        have hi64 : i < 64 := by
          rcases hsize with hs | hs | hs <;> rw [hs] at hi <;> omega
        rcases pshufbEntry_cases U R i hi64 with h1 | h1 | ⟨idx, h1, h2⟩
        · exact Or.inl h1
        · exact Or.inr (Or.inl h1)
        · refine Or.inr (Or.inr ⟨idx, h1, ?_⟩)
          rcases hsize with hs | hs | hs <;> rw [hs] at hi ⊢ <;> omega
    · intro hC
      rw [DecodePSHUFBMask_intVector C hC hsize [], Option.some.injEq] at h
      rw [← h, List.nil_append]
      exact ⟨by simp, undefExactlyAt_map C 8 _ _ (pshufbSpec_undef_iff C)⟩
  · intro C ElSize mask h
    obtain ⟨⟨hsize, hEl⟩, hm⟩ := DecodeVPERMILPMask_some C ElSize mask h
    constructor
    · rcases hm with rfl | ⟨U, R, rfl⟩
      · exact indicesBelow_nil _
      · apply indicesBelow_map
        intro i hi
        have hi16 : i < 16 := by
          rcases hsize with hs | hs | hs <;> rw [hs] at hi <;>
            rcases hEl with rfl | rfl <;> omega
        rcases vpermilpEntry_cases ElSize U R i hEl hi16 with h1 | ⟨idx, h1, h2⟩
        · exact Or.inl h1
        · refine Or.inr (Or.inr ⟨idx, h1, ?_⟩)
          rcases hsize with hs | hs | hs <;> rw [hs] at hi ⊢ <;>
            rcases hEl with rfl | rfl <;> norm_num at h2 hi ⊢ <;> omega
    · intro hC
      rw [DecodeVPERMILPMask_intVector C ElSize hC hsize hEl [], Option.some.injEq] at h
      rw [← h, List.nil_append]
      exact ⟨by simp, undefExactlyAt_map C ElSize _ _ (vpermilpSpec_undef_iff C ElSize)⟩
  · intro C M2Z ElSize mask hEl h
    obtain ⟨hsize, hm⟩ := DecodeVPERMIL2PMask_some C M2Z ElSize mask hEl h
    constructor
    · rcases hm with rfl | ⟨U, R, rfl⟩
      · exact indicesBelow_nil _
      · apply indicesBelow_map
        intro i hi
        rcases vpermil2pEntry_cases M2Z ElSize _ U R i hsize hEl hi with h1 | h1 | h1
        · exact Or.inl h1
        · exact Or.inr (Or.inl h1)
        · exact Or.inr (Or.inr h1)
    · intro hC
      rw [DecodeVPERMIL2PMask_intVector C M2Z ElSize hC hsize hEl [], Option.some.injEq] at h
      rw [← h, List.nil_append]
      exact ⟨by simp, undefExactlyAt_map C ElSize _ _ (vpermil2pSpec_undef_iff C M2Z ElSize _)⟩
  · intro C mask h
    obtain ⟨hsize, hm⟩ := DecodeVPPERMMask_some C mask h
    constructor
    · rcases hm with rfl | ⟨U, R, rfl⟩
      · exact indicesBelow_nil _
      · apply indicesBelow_map
        intro i _
        exact vppermEntry_cases U R i
    · intro hC
      rw [DecodeVPPERMMask_intVector C hC hsize [], Option.some.injEq] at h
      by_cases hbad : ∃ j, 0 ≤ j ∧ j < 0 + 16 ∧
          vppermAborts ((List.range 16).map fun i => decide (sliceAllUndef C 8 i))
            ((List.range 16).map fun i => if sliceAllUndef C 8 i then 0 else sliceValue C 8 i)
            j = true
      · rw [vppermLoop_abort _ _ 16 0 [] hbad] at h
        rw [← h]
        exact ⟨Or.inl rfl, undefExactlyAt_nil C 8⟩
      · have hok : ∀ j, 0 ≤ j → j < 0 + 16 →
            vppermAborts ((List.range 16).map fun i => decide (sliceAllUndef C 8 i))
              ((List.range 16).map fun i => if sliceAllUndef C 8 i then 0 else sliceValue C 8 i)
              j = false := by
          intro j h0 hj
          by_contra hne
          exact hbad ⟨j, h0, hj, by simpa using hne⟩
        rw [vppermLoop_eq _ _ 16 0 [] hok, List.nil_append, ← List.range_eq_range'] at h
        rw [← h]
        refine ⟨Or.inr (by simp), ?_⟩
        intro i e he
        obtain ⟨hi, rfl⟩ := getElem?_map_range _ _ _ _ he
        rw [vppermEntry_eq C 16 i hi]
        exact vppermSpec_undef_iff C i
  · intro C ElSize mask h
    obtain ⟨⟨hsize, hEl⟩, hm⟩ := DecodeVPERMVMask_some C ElSize mask h
    obtain ⟨_, _, hn⟩ := crossLane_count _ ElSize hsize hEl
    constructor
    · rcases hm with rfl | ⟨U, R, rfl⟩
      · exact indicesBelow_nil _
      · apply indicesBelow_map
        intro i _
        rcases vpermvEntry_cases _ U R i hn with h1 | h1
        · exact Or.inl h1
        · exact Or.inr (Or.inr h1)
    · intro hC
      rw [DecodeVPERMVMask_intVector C ElSize hC hsize hEl [], Option.some.injEq] at h
      rw [← h, List.nil_append]
      exact ⟨by simp, undefExactlyAt_map C ElSize _ _ (vpermvSpec_undef_iff C ElSize _)⟩
  · intro C ElSize mask h
    obtain ⟨⟨hsize, hEl⟩, hm⟩ := DecodeVPERMV3Mask_some C ElSize mask h
    obtain ⟨_, _, hn⟩ := crossLane_count _ ElSize hsize hEl
    constructor
    · rcases hm with rfl | ⟨U, R, rfl⟩
      · exact indicesBelow_nil _
      · apply indicesBelow_map
        intro i _
        rcases vpermv3Entry_cases _ U R i hn with h1 | h1
        · exact Or.inl h1
        · exact Or.inr (Or.inr h1)
    · intro hC
      rw [DecodeVPERMV3Mask_intVector C ElSize hC hsize hEl [], Option.some.injEq] at h
      rw [← h, List.nil_append]
      exact ⟨by simp, undefExactlyAt_map C ElSize _ _ (vpermvSpec_undef_iff C ElSize _)⟩

/-- C19 amended, at `<4 x i32> <4, 8, 5, undef>` decoded by `DecodeVPERMV3Mask` at 32
bits: the indices 4, 0 and 5 lie below `2 * 4`, the mask has `128 / 32` entries and only
entry 3 is undef. -/
theorem decoders_indices_in_range_witness :
    DecodeVPERMV3Mask exWrap 32 [] = some [4, 0, 5, SM_SentinelUndef] ∧
    exWrap.IntVector = true ∧
    IndicesBelow [4, 0, 5, SM_SentinelUndef] (2 * (exWrap.getPrimitiveSizeInBits / 32)) ∧
    [4, 0, 5, SM_SentinelUndef].length = exWrap.getPrimitiveSizeInBits / 32 ∧
    UndefExactlyAt exWrap 32 [4, 0, 5, SM_SentinelUndef] :=
  ⟨by decide, by decide,
    (decoders_indices_in_range.2.2.2.2.2 exWrap 32 [4, 0, 5, SM_SentinelUndef]
      (by decide)).1,
    (decoders_indices_in_range.2.2.2.2.2 exWrap 32 [4, 0, 5, SM_SentinelUndef]
      (by decide)).2 (by decide)⟩

/-! ## The `NDEBUG` build -/

theorem sliceLoopNDEBUG_of_sliceLoop (UndefBits MaskBits M : Nat) (n i : Nat)
    (UndefElts : List Bool) (RawMask : List Nat) (p : List Bool × List Nat)
    (h : sliceLoop UndefBits MaskBits M n i UndefElts RawMask = some p) :
    sliceLoopNDEBUG UndefBits MaskBits M n i UndefElts RawMask = p := by
  induction n generalizing i UndefElts RawMask with
  | zero =>
    simp only [sliceLoop, Option.some.injEq] at h
    simp only [sliceLoopNDEBUG, h]
  | succ n ih =>
    simp only [sliceLoop] at h
    simp only [sliceLoopNDEBUG]
    split at h
    · rename_i hu
      rw [if_pos hu]
      exact ih _ _ _ h
    · rename_i hu
      rw [if_neg hu]
      split at h
      · cases h
      · rename_i v hv
        unfold APInt.getZExtValue at hv
        split at hv
        · rename_i hlt
          simp only [Option.some.injEq] at hv
          have hz : APInt.getZExtValueNDEBUG
              (APInt.zextOrTrunc M (APInt.lshr MaskBits (i * M))) = v := by
            unfold APInt.getZExtValueNDEBUG
            rw [Nat.mod_eq_of_lt hlt, hv]
          rw [hz]
          exact ih _ _ _ h
        · cases hv

theorem sliceLoopNDEBUG_length (UndefBits MaskBits M : Nat) (n i : Nat)
    (UndefElts : List Bool) (RawMask : List Nat) :
    (sliceLoopNDEBUG UndefBits MaskBits M n i UndefElts RawMask).1.length
        = UndefElts.length + n ∧
      (sliceLoopNDEBUG UndefBits MaskBits M n i UndefElts RawMask).2.length
        = RawMask.length + n := by
  induction n generalizing i UndefElts RawMask with
  | zero => simp [sliceLoopNDEBUG]
  | succ n ih =>
    simp only [sliceLoopNDEBUG]
    split
    · have := ih (i + 1) (UndefElts ++ [true]) (RawMask ++ [0])
      simp only [List.length_append, List.length_singleton] at this
      omega
    · have := ih (i + 1) (UndefElts ++ [false])
        (RawMask ++ [APInt.getZExtValueNDEBUG
          (APInt.zextOrTrunc M (APInt.lshr MaskBits (i * M)))])
      simp only [List.length_append, List.length_singleton] at this
      omega

/-- Whenever the build with asserts returns from `extractConstantMask`, the `NDEBUG`
build returns the same. -/
theorem extractConstantMaskNDEBUG_of_some (C : Constant) (M : Nat) (x : Extracted)
    (h : extractConstantMask C M = some x) : extractConstantMaskNDEBUG C M = some x := by
  unfold extractConstantMask at h
  unfold extractConstantMaskNDEBUG
  by_cases hvec : C.isVectorTy = true
  · by_cases hint : C.isIntegerEltTy = true
    · simp only [hvec, hint, Bool.not_true, Bool.false_eq_true, if_false] at h ⊢
      split at h
      · exact h
      · split at h
        · cases h
        · rename_i hM0
          rw [if_neg hM0]
          split at h
          · cases h
          · split at h
            · cases h
            · rename_i U R hs
              rw [sliceLoopNDEBUG_of_sliceLoop _ _ _ _ _ _ _ _ hs]
              exact h
    · simp only [hvec, hint, Bool.not_true, Bool.not_false, Bool.false_eq_true, if_false,
        if_true] at h ⊢
      exact h
  · simp only [hvec, Bool.not_false, if_true] at h ⊢
    exact h

/-- Under `NDEBUG` too, the extraction returns false on a constant that is not a vector of
integers. -/
theorem extractConstantMaskNDEBUG_notIntVector (C : Constant) (M : Nat)
    (hC : C.notIntVector) : extractConstantMaskNDEBUG C M = some .notDecodable :=
  extractConstantMaskNDEBUG_of_some C M _ (extractConstantMask_notIntVector C M hC)

/-- Under `NDEBUG` the extraction returns true on every vector of integer literals and
undefs at every nonzero width, with one slice per whole multiple of the width. -/
theorem extractConstantMaskNDEBUG_intVector (C : Constant) (M : Nat)
    (hC : C.IntVector = true) (hM : M ≠ 0) :
    ∃ U R, extractConstantMaskNDEBUG C M = some (.decoded U R) ∧
      U.length = C.getPrimitiveSizeInBits / M ∧ R.length = C.getPrimitiveSizeInBits / M := by
  obtain ⟨hvec, hint, _, helts⟩ := (Constant.IntVector_iff C).1 hC
  have hes := (Constant.allIntOrUndef_iff C).1 helts
  have hp : packElts C.getPrimitiveSizeInBits C.getScalarSizeInBits C.Elts 0 0 0 ≠ none := by
    rw [Ne, packElts_eq_none_iff]
    rintro ⟨e, he, rfl⟩
    exact hes _ he rfl
  obtain ⟨p, hp'⟩ := Option.ne_none_iff_exists'.1 hp
  obtain ⟨UndefBits, MaskBits⟩ := p
  have hlen := sliceLoopNDEBUG_length UndefBits MaskBits M (C.getPrimitiveSizeInBits / M) 0 [] []
  refine ⟨(sliceLoopNDEBUG UndefBits MaskBits M (C.getPrimitiveSizeInBits / M) 0 [] []).1,
    (sliceLoopNDEBUG UndefBits MaskBits M (C.getPrimitiveSizeInBits / M) 0 [] []).2, ?_, ?_, ?_⟩
  · unfold extractConstantMaskNDEBUG
    simp only [hvec, hint, Bool.not_true, Bool.false_eq_true, if_false, hp', hM]
  · simpa using hlen.1
  · simpa using hlen.2

theorem extractConstantMask_intVector_ne (C : Constant) (M : Nat) (hC : C.IntVector = true) :
    extractConstantMask C M ≠ some .notDecodable := by
  obtain ⟨hvec, hint, _, helts⟩ := (Constant.IntVector_iff C).1 hC
  have hes := (Constant.allIntOrUndef_iff C).1 helts
  rw [Ne, extractConstantMask_notDecodable_iff]
  rintro (h | h | ⟨e, he, rfl⟩)
  · rw [hvec] at h; cases h
  · rw [hint] at h; cases h
  · exact hes _ he rfl

theorem extractConstantMaskNDEBUG_intVector_ne (C : Constant) (M : Nat)
    (hC : C.IntVector = true) : extractConstantMaskNDEBUG C M ≠ some .notDecodable := by
  by_cases hM : M = 0
  · subst hM
    obtain ⟨hvec, hint, _, helts⟩ := (Constant.IntVector_iff C).1 hC
    have hes := (Constant.allIntOrUndef_iff C).1 helts
    have hp : packElts C.getPrimitiveSizeInBits C.getScalarSizeInBits C.Elts 0 0 0 ≠ none := by
      rw [Ne, packElts_eq_none_iff]
      rintro ⟨e, he, rfl⟩
      exact hes _ he rfl
    obtain ⟨p, hp'⟩ := Option.ne_none_iff_exists'.1 hp
    obtain ⟨UndefBits, MaskBits⟩ := p
    unfold extractConstantMaskNDEBUG
    simp [hvec, hint, hp']
  · obtain ⟨U, R, h, _, _⟩ := extractConstantMaskNDEBUG_intVector C M hC hM
    rw [h]
    simp

theorem decodersNDEBUG_notIntVector (C : Constant) (P : List Int) (hC : C.notIntVector) :
    DecodePSHUFBMaskNDEBUG C P = some P ∧
    (∀ ElSize, DecodeVPERMILPMaskNDEBUG C ElSize P = some P) ∧
    (∀ M2Z ElSize, DecodeVPERMIL2PMaskNDEBUG C M2Z ElSize P = some P) ∧
    DecodeVPPERMMaskNDEBUG C P = some P ∧
    (∀ ElSize, DecodeVPERMVMaskNDEBUG C ElSize P = some P) ∧
    (∀ ElSize, DecodeVPERMV3MaskNDEBUG C ElSize P = some P) := by
  have hx := fun M => extractConstantMaskNDEBUG_notIntVector C M hC
  refine ⟨?_, ?_, ?_, ?_, ?_, ?_⟩
  · simp only [DecodePSHUFBMaskNDEBUG, hx]
  · intro ElSize
    simp only [DecodeVPERMILPMaskNDEBUG, hx]
  · intro M2Z ElSize
    simp only [DecodeVPERMIL2PMaskNDEBUG, hx]
  · simp only [DecodeVPPERMMaskNDEBUG, hx]
  · intro ElSize
    simp only [DecodeVPERMVMaskNDEBUG, hx]
  · intro ElSize
    simp only [DecodeVPERMV3MaskNDEBUG, hx]

/-- Under `NDEBUG` every decoder decodes every vector of integer literals and undefs,
whatever its size: it appends one entry per slice of the requested width
(`DecodeVPPERMMask`: unless an iteration clears the container). -/
theorem decodersNDEBUG_intVector (C : Constant) (P : List Int) (hC : C.IntVector = true) :
    (∃ r, DecodePSHUFBMaskNDEBUG C P = some r ∧
      r.length = P.length + C.getPrimitiveSizeInBits / 8) ∧
    (∀ ElSize, ElSize ≠ 0 → ∃ r, DecodeVPERMILPMaskNDEBUG C ElSize P = some r ∧
      r.length = P.length + C.getPrimitiveSizeInBits / ElSize) ∧
    (∀ M2Z ElSize, ElSize ≠ 0 → ∃ r, DecodeVPERMIL2PMaskNDEBUG C M2Z ElSize P = some r ∧
      r.length = P.length + C.getPrimitiveSizeInBits / ElSize) ∧
    (∃ r, DecodeVPPERMMaskNDEBUG C P = some r ∧
      (r = [] ∨ r.length = P.length + C.getPrimitiveSizeInBits / 8)) ∧
    (∀ ElSize, ElSize ≠ 0 → ∃ r, DecodeVPERMVMaskNDEBUG C ElSize P = some r ∧
      r.length = P.length + C.getPrimitiveSizeInBits / ElSize) ∧
    (∀ ElSize, ElSize ≠ 0 → ∃ r, DecodeVPERMV3MaskNDEBUG C ElSize P = some r ∧
      r.length = P.length + C.getPrimitiveSizeInBits / ElSize) := by
  refine ⟨?_, ?_, ?_, ?_, ?_, ?_⟩
  · obtain ⟨U, R, hx, _, hR⟩ := extractConstantMaskNDEBUG_intVector C 8 hC (by decide)
    refine ⟨_, by simp only [DecodePSHUFBMaskNDEBUG, hx]; rfl, ?_⟩
    simp [pshufbLoop_eq, hR]
  · intro ElSize hE
    obtain ⟨U, R, hx, _, hR⟩ := extractConstantMaskNDEBUG_intVector C ElSize hC hE
    refine ⟨_, by simp only [DecodeVPERMILPMaskNDEBUG, hx, hE, if_false]; rfl, ?_⟩
    simp [vpermilpLoop_eq, hR]
  · intro M2Z ElSize hE
    obtain ⟨U, R, hx, _, hR⟩ := extractConstantMaskNDEBUG_intVector C ElSize hC hE
    refine ⟨_, by simp only [DecodeVPERMIL2PMaskNDEBUG, hx, hE, if_false]; rfl, ?_⟩
    simp [vpermil2pLoop_eq, hR]
  · obtain ⟨U, R, hx, _, hR⟩ := extractConstantMaskNDEBUG_intVector C 8 hC (by decide)
    refine ⟨_, by simp only [DecodeVPPERMMaskNDEBUG, hx]; rfl, ?_⟩
    by_cases hbad : ∃ j, 0 ≤ j ∧ j < 0 + R.length ∧ vppermAborts U R j = true
    · left
      exact vppermLoop_abort U R R.length 0 P hbad
    · right
      have hok : ∀ j, 0 ≤ j → j < 0 + R.length → vppermAborts U R j = false := by
        intro j h0 hj
        by_contra hne
        exact hbad ⟨j, h0, hj, by simpa using hne⟩
      rw [vppermLoop_length U R R.length 0 P hok, hR]
  · intro ElSize hE
    obtain ⟨U, R, hx, _, hR⟩ := extractConstantMaskNDEBUG_intVector C ElSize hC hE
    refine ⟨_, by simp only [DecodeVPERMVMaskNDEBUG, hx]; rfl, ?_⟩
    simp [vpermvLoop_eq, hR]
  · intro ElSize hE
    obtain ⟨U, R, hx, _, hR⟩ := extractConstantMaskNDEBUG_intVector C ElSize hC hE
    refine ⟨_, by simp only [DecodeVPERMV3MaskNDEBUG, hx]; rfl, ?_⟩
    simp [vpermv3Loop_eq, hR]

/-- Whenever a decoder built with asserts returns a mask, the `NDEBUG` build returns the
same mask: the two builds differ only where an assert fails. -/
theorem decodersNDEBUG_of_some (C : Constant) (P r : List Int) :
    (DecodePSHUFBMask C P = some r → DecodePSHUFBMaskNDEBUG C P = some r) ∧
    (∀ ElSize, DecodeVPERMILPMask C ElSize P = some r →
      DecodeVPERMILPMaskNDEBUG C ElSize P = some r) ∧
    (∀ M2Z ElSize, DecodeVPERMIL2PMask C M2Z ElSize P = some r →
      DecodeVPERMIL2PMaskNDEBUG C M2Z ElSize P = some r) ∧
    (DecodeVPPERMMask C P = some r → DecodeVPPERMMaskNDEBUG C P = some r) ∧
    (∀ ElSize, DecodeVPERMVMask C ElSize P = some r →
      DecodeVPERMVMaskNDEBUG C ElSize P = some r) ∧
    (∀ ElSize, DecodeVPERMV3Mask C ElSize P = some r →
      DecodeVPERMV3MaskNDEBUG C ElSize P = some r) := by
  refine ⟨?_, ?_, ?_, ?_, ?_, ?_⟩
  · intro h
    unfold DecodePSHUFBMask at h
    unfold DecodePSHUFBMaskNDEBUG
    simp only at h
    split at h
    · cases h
    · cases hx : extractConstantMask C 8 with
      | none => rw [hx] at h; cases h
      | some x =>
        rw [extractConstantMaskNDEBUG_of_some C 8 x hx]
        rw [hx] at h
        cases x with
        | notDecodable => exact h
        | decoded U R =>
          simp only at h ⊢
          split at h
          · cases h
          · exact h
  · intro ElSize h
    unfold DecodeVPERMILPMask at h
    unfold DecodeVPERMILPMaskNDEBUG
    simp only at h
    split at h
    · cases h
    · split at h
      · cases h
      · rename_i hel
        have hE : ElSize ≠ 0 := by
          rintro rfl
          simp at hel
        cases hx : extractConstantMask C ElSize with
        | none => rw [hx] at h; cases h
        | some x =>
          rw [extractConstantMaskNDEBUG_of_some C ElSize x hx]
          rw [hx] at h
          cases x with
          | notDecodable => exact h
          | decoded U R =>
            simp only at h ⊢
            rw [if_neg hE]
            split at h
            · cases h
            · exact h
  · intro M2Z ElSize h
    unfold DecodeVPERMIL2PMask at h
    unfold DecodeVPERMIL2PMaskNDEBUG
    simp only at h
    split at h
    · cases h
    · cases hx : extractConstantMask C ElSize with
      | none => rw [hx] at h; cases h
      | some x =>
        rw [extractConstantMaskNDEBUG_of_some C ElSize x hx]
        rw [hx] at h
        cases x with
        | notDecodable => exact h
        | decoded U R =>
          simp only at h ⊢
          split at h
          · cases h
          · rename_i hE
            rw [if_neg hE]
            split at h
            · cases h
            · exact h
  · intro h
    unfold DecodeVPPERMMask at h
    unfold DecodeVPPERMMaskNDEBUG
    split at h
    · cases h
    · cases hx : extractConstantMask C 8 with
      | none => rw [hx] at h; cases h
      | some x =>
        rw [extractConstantMaskNDEBUG_of_some C 8 x hx]
        rw [hx] at h
        cases x with
        | notDecodable => exact h
        | decoded U R =>
          simp only at h ⊢
          split at h
          · cases h
          · rename_i hn
            have hn' : R.length = 16 := by simpa using hn
            rw [hn'] at h ⊢
            exact h
  · intro ElSize h
    unfold DecodeVPERMVMask at h
    unfold DecodeVPERMVMaskNDEBUG
    simp only at h
    split at h
    · cases h
    · split at h
      · cases h
      · cases hx : extractConstantMask C ElSize with
        | none => rw [hx] at h; cases h
        | some x =>
          rw [extractConstantMaskNDEBUG_of_some C ElSize x hx]
          rw [hx] at h
          cases x with
          | notDecodable => exact h
          | decoded U R => exact h
  · intro ElSize h
    unfold DecodeVPERMV3Mask at h
    unfold DecodeVPERMV3MaskNDEBUG
    simp only at h
    split at h
    · cases h
    · split at h
      · cases h
      · cases hx : extractConstantMask C ElSize with
        | none => rw [hx] at h; cases h
        | some x =>
          rw [extractConstantMaskNDEBUG_of_some C ElSize x hx]
          rw [hx] at h
          cases x with
          | notDecodable => exact h
          | decoded U R => exact h

/-! ## Constants that are not vectors of integers, and constants of the wrong shape -/

/-- C13: for every decoder and every input constant that is not a vector of integers (not
a vector, or a vector whose element type is not integer, or a vector containing an element
that is neither an integer literal nor undef), the result mask is empty when the output
container was empty on entry. Built with `NDEBUG` this holds for every such constant and
every parameter. Built with asserts it holds for every such constant that passes the
decoder's asserts on the size (and element width); the asserts stand before the extraction
and exclude the others. -/
theorem decoders_notIntVector_empty (C : Constant) (hC : C.notIntVector) :
    (DecodePSHUFBMaskNDEBUG C [] = some [] ∧
      (∀ ElSize, DecodeVPERMILPMaskNDEBUG C ElSize [] = some []) ∧
      (∀ M2Z ElSize, DecodeVPERMIL2PMaskNDEBUG C M2Z ElSize [] = some []) ∧
      DecodeVPPERMMaskNDEBUG C [] = some [] ∧
      (∀ ElSize, DecodeVPERMVMaskNDEBUG C ElSize [] = some []) ∧
      (∀ ElSize, DecodeVPERMV3MaskNDEBUG C ElSize [] = some [])) ∧
    ((C.getPrimitiveSizeInBits = 128 ∨ C.getPrimitiveSizeInBits = 256 ∨
        C.getPrimitiveSizeInBits = 512) → DecodePSHUFBMask C [] = some []) ∧
    (∀ ElSize, (C.getPrimitiveSizeInBits = 128 ∨ C.getPrimitiveSizeInBits = 256 ∨
        C.getPrimitiveSizeInBits = 512) → (ElSize = 32 ∨ ElSize = 64) →
      DecodeVPERMILPMask C ElSize [] = some []) ∧
    (∀ M2Z ElSize, (C.getPrimitiveSizeInBits = 128 ∨ C.getPrimitiveSizeInBits = 256) →
      DecodeVPERMIL2PMask C M2Z ElSize [] = some []) ∧
    (C.getPrimitiveSizeInBits = 128 → DecodeVPPERMMask C [] = some []) ∧
    (∀ ElSize, (C.getPrimitiveSizeInBits = 128 ∨ C.getPrimitiveSizeInBits = 256 ∨
        C.getPrimitiveSizeInBits = 512) →
      (ElSize = 8 ∨ ElSize = 16 ∨ ElSize = 32 ∨ ElSize = 64) →
      DecodeVPERMVMask C ElSize [] = some []) ∧
    (∀ ElSize, (C.getPrimitiveSizeInBits = 128 ∨ C.getPrimitiveSizeInBits = 256 ∨
        C.getPrimitiveSizeInBits = 512) →
      (ElSize = 8 ∨ ElSize = 16 ∨ ElSize = 32 ∨ ElSize = 64) →
      DecodeVPERMV3Mask C ElSize [] = some []) := by
  refine ⟨decodersNDEBUG_notIntVector C [] hC, ?_, ?_, ?_, ?_, ?_, ?_⟩
  · intro hsize
    exact DecodePSHUFBMask_notDecodable C [] hsize (extractConstantMask_notIntVector C 8 hC)
  · intro ElSize hsize hEl
    exact DecodeVPERMILPMask_notDecodable C ElSize [] hsize hEl
      (extractConstantMask_notIntVector C ElSize hC)
  · intro M2Z ElSize hsize
    exact DecodeVPERMIL2PMask_notDecodable C M2Z ElSize [] hsize
      (extractConstantMask_notIntVector C ElSize hC)
  · intro hsize
    exact DecodeVPPERMMask_notDecodable C [] hsize (extractConstantMask_notIntVector C 8 hC)
  · intro ElSize hsize hEl
    exact DecodeVPERMVMask_notDecodable C ElSize [] hsize hEl
      (extractConstantMask_notIntVector C ElSize hC)
  · intro ElSize hsize hEl
    exact DecodeVPERMV3Mask_notDecodable C ElSize [] hsize hEl
      (extractConstantMask_notIntVector C ElSize hC)

/-- C13, at the 64-bit `<2 x float>` under `NDEBUG` and at the 128-bit `<4 x float>` in
the build with asserts. -/
theorem decoders_notIntVector_empty_witness :
    (exTwoFloats.notIntVector ∧ exTwoFloats.getPrimitiveSizeInBits = 64 ∧
      DecodePSHUFBMaskNDEBUG exTwoFloats [] = some []) ∧
    (exFourFloats.notIntVector ∧ exFourFloats.getPrimitiveSizeInBits = 128 ∧
      DecodePSHUFBMask exFourFloats [] = some [] ∧
      DecodeVPPERMMask exFourFloats [] = some []) :=
  ⟨⟨Or.inr (Or.inl rfl), by decide,
      (decoders_notIntVector_empty exTwoFloats (Or.inr (Or.inl rfl))).1.1⟩,
    ⟨Or.inr (Or.inl rfl), by decide,
      (decoders_notIntVector_empty exFourFloats (Or.inr (Or.inl rfl))).2.1
        (Or.inl (by decide)),
      (decoders_notIntVector_empty exFourFloats (Or.inr (Or.inl rfl))).2.2.2.2.1
        (by decide)⟩⟩

/-- C16, as stated, fails in either build: on a 256-bit vector of integers passed to
`DecodeVPPERMMask`, a 512-bit one passed to `DecodeVPERMIL2PMask` and a three-element one
passed to `DecodePSHUFBMask`, the extraction does not return false and the result is not
the empty mask. Built with `NDEBUG` the decoder returns a decoded mask of 32, 8 and 12
entries; built with asserts it does not return an empty mask either. -/
theorem decoders_shape_mismatch_counterexample :
    (exVpermilp.IntVector = true ∧ exVpermilp.getPrimitiveSizeInBits = 256 ∧
      extractConstantMaskNDEBUG exVpermilp 8 ≠ some .notDecodable ∧
      DecodeVPPERMMaskNDEBUG exVpermilp [] =
        some [2, 0, 0, 0, 2, 0, 0, 0, 2, 0, 0, 0, 2, 0, 0, 0,
          2, 0, 0, 0, 2, 0, 0, 0, 2, 0, 0, 0, 2, 0, 0, 0] ∧
      DecodeVPPERMMask exVpermilp [] ≠ some []) ∧
    (exEightQuads.IntVector = true ∧ exEightQuads.getPrimitiveSizeInBits = 512 ∧
      extractConstantMaskNDEBUG exEightQuads 64 ≠ some .notDecodable ∧
      DecodeVPERMIL2PMaskNDEBUG exEightQuads 0 64 [] = some [0, 0, 2, 2, 4, 4, 6, 6] ∧
      DecodeVPERMIL2PMask exEightQuads 0 64 [] ≠ some []) ∧
    (exThreeInts.IntVector = true ∧ exThreeInts.Elts.length = 3 ∧
      extractConstantMaskNDEBUG exThreeInts 8 ≠ some .notDecodable ∧
      DecodePSHUFBMaskNDEBUG exThreeInts [] = some [1, 0, 0, 0, 2, 0, 0, 0, 3, 0, 0, 0] ∧
      DecodePSHUFBMask exThreeInts [] ≠ some []) := by
  set_option maxRecDepth 100000 in
  set_option exponentiation.threshold 1024 in
  decide

/-- C16, amended: a vector-of-integers constant whose total bit width or element count is
not one the instruction allows is not reported as "not decodable". In either build
`extractConstantMask` does not return false on it, whatever its width and element count.
The shape is a precondition on the caller, which the decoders check by assert only: built
with `NDEBUG` every decoder decodes the constant at the requested width and appends
`totalBits / width` entries (`DecodeVPPERMMask`: or clears the container on an operation
it cannot represent); built with asserts, a width the decoder does not allow, or an
element width or slice count it does not allow, fails the assert and the call does not
return. A vector whose element count is not a power of two never has an allowed width. -/
theorem decoders_shape_mismatch (C : Constant) (P : List Int) (hC : C.IntVector = true) :
    (∀ M, extractConstantMask C M ≠ some .notDecodable ∧
      extractConstantMaskNDEBUG C M ≠ some .notDecodable) ∧
    ((∃ r, DecodePSHUFBMaskNDEBUG C P = some r ∧
        r.length = P.length + C.getPrimitiveSizeInBits / 8) ∧
      (∀ ElSize, ElSize ≠ 0 → ∃ r, DecodeVPERMILPMaskNDEBUG C ElSize P = some r ∧
        r.length = P.length + C.getPrimitiveSizeInBits / ElSize) ∧
      (∀ M2Z ElSize, ElSize ≠ 0 → ∃ r, DecodeVPERMIL2PMaskNDEBUG C M2Z ElSize P = some r ∧
        r.length = P.length + C.getPrimitiveSizeInBits / ElSize) ∧
      (∃ r, DecodeVPPERMMaskNDEBUG C P = some r ∧
        (r = [] ∨ r.length = P.length + C.getPrimitiveSizeInBits / 8)) ∧
      (∀ ElSize, ElSize ≠ 0 → ∃ r, DecodeVPERMVMaskNDEBUG C ElSize P = some r ∧
        r.length = P.length + C.getPrimitiveSizeInBits / ElSize) ∧
      (∀ ElSize, ElSize ≠ 0 → ∃ r, DecodeVPERMV3MaskNDEBUG C ElSize P = some r ∧
        r.length = P.length + C.getPrimitiveSizeInBits / ElSize)) ∧
    ((¬ (C.getPrimitiveSizeInBits = 128 ∨ C.getPrimitiveSizeInBits = 256 ∨
          C.getPrimitiveSizeInBits = 512) → DecodePSHUFBMask C P = none) ∧
      (∀ ElSize, ¬ ((C.getPrimitiveSizeInBits = 128 ∨ C.getPrimitiveSizeInBits = 256 ∨
          C.getPrimitiveSizeInBits = 512) ∧ (ElSize = 32 ∨ ElSize = 64)) →
        DecodeVPERMILPMask C ElSize P = none) ∧
      (∀ M2Z ElSize, ¬ (C.getPrimitiveSizeInBits = 128 ∨ C.getPrimitiveSizeInBits = 256) →
        DecodeVPERMIL2PMask C M2Z ElSize P = none) ∧
      (∀ M2Z ElSize U R, extractConstantMask C ElSize = some (.decoded U R) →
        ¬ (C.getPrimitiveSizeInBits / ElSize = 2 ∨ C.getPrimitiveSizeInBits / ElSize = 4 ∨
          C.getPrimitiveSizeInBits / ElSize = 8) →
        DecodeVPERMIL2PMask C M2Z ElSize P = none) ∧
      (C.getPrimitiveSizeInBits ≠ 128 → DecodeVPPERMMask C P = none) ∧
      (∀ ElSize, ¬ ((C.getPrimitiveSizeInBits = 128 ∨ C.getPrimitiveSizeInBits = 256 ∨
          C.getPrimitiveSizeInBits = 512) ∧
          (ElSize = 8 ∨ ElSize = 16 ∨ ElSize = 32 ∨ ElSize = 64)) →
        DecodeVPERMVMask C ElSize P = none) ∧
      (∀ ElSize, ¬ ((C.getPrimitiveSizeInBits = 128 ∨ C.getPrimitiveSizeInBits = 256 ∨
          C.getPrimitiveSizeInBits = 512) ∧
          (ElSize = 8 ∨ ElSize = 16 ∨ ElSize = 32 ∨ ElSize = 64)) →
        DecodeVPERMV3Mask C ElSize P = none)) ∧
    ((¬ ∃ k, C.Elts.length = 2 ^ k) →
      ¬ (C.getPrimitiveSizeInBits = 128 ∨ C.getPrimitiveSizeInBits = 256 ∨
        C.getPrimitiveSizeInBits = 512)) := by
  refine ⟨fun M => ⟨extractConstantMask_intVector_ne C M hC,
      extractConstantMaskNDEBUG_intVector_ne C M hC⟩,
    decodersNDEBUG_intVector C P hC,
    ⟨DecodePSHUFBMask_bad_size C P,
      fun ElSize h => DecodeVPERMILPMask_bad_shape C ElSize P h,
      fun M2Z ElSize h => DecodeVPERMIL2PMask_bad_size C M2Z ElSize P h,
      fun M2Z ElSize U R hex h => DecodeVPERMIL2PMask_bad_count C M2Z ElSize P U R hex h,
      DecodeVPPERMMask_bad_size C P,
      fun ElSize h => DecodeVPERMVMask_bad_shape C ElSize P h,
      fun ElSize h => DecodeVPERMV3Mask_bad_shape C ElSize P h⟩,
    ?_⟩
  obtain ⟨hvec, _, _, _⟩ := (Constant.IntVector_iff C).1 hC
  exact size_not_accepted_of_count C hvec

/-- C16 amended, at the 256-bit constant of eight 32-bit elements passed to
`DecodeVPPERMMask` with an empty container: under `NDEBUG` a mask of `256 / 8` entries or
the cleared container, with asserts no return. -/
theorem decoders_shape_mismatch_witness :
    (exVpermilp.IntVector = true ∧ exVpermilp.getPrimitiveSizeInBits ≠ 128) ∧
    extractConstantMaskNDEBUG exVpermilp 8 ≠ some .notDecodable ∧
    (∃ r, DecodeVPPERMMaskNDEBUG exVpermilp [] = some r ∧
      (r = [] ∨ r.length = ([] : List Int).length + exVpermilp.getPrimitiveSizeInBits / 8)) ∧
    DecodeVPPERMMask exVpermilp [] = none :=
  ⟨⟨by decide, by decide⟩,
    ((decoders_shape_mismatch exVpermilp [] (by decide)).1 8).2,
    (decoders_shape_mismatch exVpermilp [] (by decide)).2.1.2.2.2.1,
    (decoders_shape_mismatch exVpermilp [] (by decide)).2.2.1.2.2.2.2.1 (by decide)⟩

end X86ShuffleDecode
